import Mathlib

/-!
# tsdfx: task registry, process controller and reconciliation driver

A shallow embedding of `bin/tsdfx/copy.c` and of the process controller of
`lib/libtsd/tsd_task.c`.

* C `int`, `pid_t` and `size_t` values are unbounded integers: the counters
  count tasks, each of which owns two `PATH_MAX` buffers, so they stay far
  from the machine limits.
* A C string is the list of its characters before the terminating NUL.
* Task pointers are addresses in a heap of task records; `NULL` is `none`.
* A function that dereferences an invalid pointer or leaves an allocated
  array has no result (`none`).
* Every system call is appended to a chronological log, and the answer of the
  operating system to a call is an arbitrary function of the log so far.
-/

namespace Tsdfx

/-! ## Operating system interface -/

/-- Modelled from the spec: `enum task_state` is declared in a header that is
not part of the sources at hand; the states are those of the process
controller's state machine, `IDLE` first (the state of zeroed memory). -/
inductive task_state
  | TASK_IDLE
  | TASK_STARTING
  | TASK_RUNNING
  | TASK_STOPPING
  | TASK_STOPPED
  | TASK_DEAD
  | TASK_FAILED
  deriving DecidableEq, Repr

open task_state

/-- Signal numbers of `<signal.h>` (Linux values; all that matters to the
code is that they are positive). -/
def SIGKILL : Int := 9

/-- See `SIGKILL`. -/
def SIGTERM : Int := 15

/-- See `SIGKILL`. -/
def SIGCONT : Int := 18

/-- The constant `PATH_MAX` of `<limits.h>`. -/
def PATH_MAX : Nat := 4096

/-- The `int status` filled in by `waitpid`, seen through the macros
`WIFEXITED` and `WEXITSTATUS`. -/
structure wait_status where
  wifexited : Bool
  wexitstatus : Int
  deriving DecidableEq, Repr

/-- What `waitpid(pid, &status, WNOHANG)` answers: its return value and the
status it stores. -/
structure wait_result where
  ret : Int
  status : wait_status
  deriving DecidableEq, Repr

/-- What `fork()` answers in the calling (parent) process: a negative value,
or the positive process id of the new child.  The branch `pid == 0` of the
callers is executed by the child process, never by the caller. -/
inductive fork_result
  | error
  | parent (pid : Int) (pos : 0 < pid)

/-- The fields of `struct stat` that the code reads. -/
structure file_stat where
  st_uid : Nat
  st_gid : Nat
  st_size : Int
  st_mtime : Int
  deriving DecidableEq, Repr

/-- The calls made to the operating system and the two kinds of log line
that report a counter or an abandoned child. -/
inductive Event
  | fork
  | waitpid (pid : Int)
  | kill (pid : Int) (sig : Int)
  | usleep (usec : Nat)
  | alloc
  | lstat (path : List Char)
  | stat (path : List Char)
  | gave_up (pid : Int)
  | jobs (copy_len : Int) (copy_running : Int)
  deriving DecidableEq, Repr

/-- The operating system: each answer may depend on everything that happened
before the call. -/
structure Kernel where
  fork : List Event → fork_result
  waitpid : List Event → Int → wait_result
  alloc : List Event → Bool
  lstat : List Event → List Char → Option file_stat
  stat : List Event → List Char → Option file_stat

/-! ## lib/libtsd/tsd_task.c -/

/-- The fields of `struct tsd_task` used by the process controller. -/
structure tsd_task where
  state : task_state
  pid : Int
  status : wait_status
  deriving DecidableEq, Repr

/-- A task of the library together with the log of system calls. -/
structure task_world where
  t : tsd_task
  log : List Event
  deriving DecidableEq, Repr

/-- Poll a task to see if it's still running (`tsd_task_poll`). -/
def tsd_task_poll (k : Kernel) (w : task_world) : task_world × Int :=
  if w.t.state ≠ TASK_RUNNING ∧ w.t.state ≠ TASK_STOPPING then
    (w, -1)
  else
    let r := k.waitpid w.log w.t.pid
    let log := w.log ++ [Event.waitpid w.t.pid]
    if r.ret < 0 then
      ({ t := { w.t with state := TASK_DEAD }, log := log }, -1)
    else if r.ret = 0 then
      ({ w with log := log }, 0)
    else if r.ret = w.t.pid then
      let st :=
        if ¬ r.status.wifexited then TASK_DEAD
        else if r.status.wexitstatus ≠ 0 then TASK_FAILED
        else TASK_STOPPED
      ({ t := { state := st, pid := -1, status := r.status }, log := log }, 0)
    else
      ({ t := { w.t with status := r.status }, log := log }, -1)

/-- The array `sig` of `tsd_task_stop` and `tsdfx_copy_stop`. -/
def sig : List Int := [SIGCONT, SIGTERM, SIGKILL, -1]

/-- The loop `for (i = 0; sig[i] >= 0; ++i)` of `tsd_task_stop`; the first
argument is the part of `sig` from index `i` on, and the result carries the
part at which the loop was left. -/
def tsd_task_stop_loop (k : Kernel) : List Int → task_world → task_world × List Int
  | [], w => (w, [])
  | sg :: rest, w =>
    if sg < 0 then (w, sg :: rest)
    else
      let w1 := (tsd_task_poll k w).1
      if w1.t.state ≠ TASK_STOPPING then (w1, sg :: rest)
      else
        let l1 := if sg ≠ 0 then w1.log ++ [Event.kill w1.t.pid sg] else w1.log
        let l2 := l1 ++ [Event.kill w1.t.pid SIGCONT]
        let l3 := l2 ++ [Event.usleep 100000]
        tsd_task_stop_loop k rest { w1 with log := l3 }

/-- The test `sig[i] < 0` after the loop. -/
def gave_up : List Int → Bool
  | [] => true
  | sg :: _ => decide (sg < 0)

/-- Stop a task (`tsd_task_stop`). -/
def tsd_task_stop (k : Kernel) (w : task_world) : task_world × Int :=
  if w.t.state ≠ TASK_RUNNING then (w, -1)
  else
    let w0 : task_world := { w with t := { w.t with state := TASK_STOPPING } }
    let (w1, rest) := tsd_task_stop_loop k sig w0
    let w2 : task_world :=
      if gave_up rest then
        { t := { w1.t with state := TASK_DEAD }, log := w1.log ++ [Event.gave_up w1.t.pid] }
      else w1
    let w3 : task_world := { w2 with t := { w2.t with pid := -1 } }
    if w3.t.state ≠ TASK_STOPPED then (w3, -1) else (w3, 0)

/-! ## bin/tsdfx/copy.c: data -/

/-- The record `struct copy_task`. -/
structure copy_task where
  srcpath : List Char
  dstpath : List Char
  index : Int
  state : task_state
  uid : Nat
  gid : Nat
  pid : Int
  deriving DecidableEq, Repr

/-- The static variables of `copy.c`, the memory they point to and the log.
`heap` holds the task records, a freed or never used address being `none`;
`copy_tasks` is the allocated pointer array, whose length is `copy_sz`. -/
structure State where
  heap : List (Option copy_task)
  copy_tasks : List (Option Nat)
  copy_len : Int
  copy_running : Int
  tsdfx_copy_max_tasks : Int
  log : List Event
  deriving DecidableEq, Repr

/-- The allocated size of the pointer array. -/
def State.copy_sz (s : State) : Nat := s.copy_tasks.length

/-- The state of the program at start-up. -/
def State.init : State :=
  { heap := [], copy_tasks := [], copy_len := 0, copy_running := 0,
    tsdfx_copy_max_tasks := 8, log := [] }

/-- Read the record a task pointer points to. -/
def deref (s : State) (p : Nat) : Option copy_task :=
  match s.heap[p]? with
  | some (some t) => some t
  | _ => none

/-- Write the record a task pointer points to. -/
def store (s : State) (p : Nat) (t : copy_task) : State :=
  { s with heap := s.heap.set p (some t) }

/-- Read `copy_tasks[i]`. -/
def slot (s : State) (i : Int) : Option (Option Nat) :=
  if 0 ≤ i then s.copy_tasks[i.toNat]? else none

/-- Read the record `*copy_tasks[i]`. -/
def task_at (s : State) (i : Int) : Option copy_task :=
  match slot s i with
  | some (some p) => deref s p
  | _ => none

/-- Write one slot of a pointer array. -/
def write_slot (a : List (Option Nat)) (i : Int) (v : Option Nat) : Option (List (Option Nat)) :=
  if 0 ≤ i ∧ i.toNat < a.length then some (a.set i.toNat v) else none

/-- The call `memmove(a + dst, a + src, n * sizeof *a)`. -/
def memmove_slots (a : List (Option Nat)) (dst src n : Int) : Option (List (Option Nat)) :=
  if 0 ≤ dst ∧ 0 ≤ src ∧ 0 ≤ n ∧ src + n ≤ a.length ∧ dst + n ≤ a.length then
    some (a.take dst.toNat ++ (a.drop src.toNat).take n.toNat ++ a.drop (dst + n).toNat)
  else none

/-- The call `free(task)`. -/
def free (s : State) (p : Nat) : Option State :=
  match deref s p with
  | some _ => some { s with heap := s.heap.set p none }
  | none => none

/-! ## bin/tsdfx/copy.c: the task registry -/

/-- The test `arg && strcmp(arg, copy_tasks[i]->field) != 0`. -/
def field_differs (s : State) (i : Int) (arg : Option (List Char))
    (field : copy_task → List Char) : Option Bool :=
  match arg with
  | none => some false
  | some x =>
    match task_at s i with
    | some t => some (decide (x ≠ field t))
    | none => none

/-- The loop of `tsdfx_copy_find`; the first argument is `copy_len - i`. -/
def tsdfx_copy_find_loop (s : State) (srcpath dstpath : Option (List Char)) :
    Nat → Int → Option Int
  | 0, _ => some (-1)
  | n + 1, i =>
    match field_differs s i srcpath (fun t => t.srcpath) with
    | none => none
    | some true => tsdfx_copy_find_loop s srcpath dstpath n (i + 1)
    | some false =>
      match field_differs s i dstpath (fun t => t.dstpath) with
      | none => none
      | some true => tsdfx_copy_find_loop s srcpath dstpath n (i + 1)
      | some false => some i

/-- Return the index of the first copy task that matches the specified
source and / or destination (`tsdfx_copy_find`). -/
def tsdfx_copy_find (s : State) (i : Int) (srcpath dstpath : Option (List Char)) : Option Int :=
  tsdfx_copy_find_loop s srcpath dstpath (s.copy_len - i).toNat i

/-- The loop `while (copy_len >= (int)copy_sz)` of `tsdfx_copy_add`; the
boolean tells whether every `realloc` succeeded. -/
def tsdfx_copy_add_grow (k : Kernel) : Nat → State → Option (State × Bool)
  | 0, s => if s.copy_len ≥ (s.copy_sz : Int) then none else some (s, true)
  | n + 1, s =>
    if s.copy_len ≥ (s.copy_sz : Int) then
      let sz := if s.copy_sz ≠ 0 then s.copy_sz * 2 else 16
      let s1 := { s with log := s.log ++ [Event.alloc] }
      if k.alloc s.log then
        tsdfx_copy_add_grow k n
          { s1 with copy_tasks := s.copy_tasks ++ List.replicate (sz - s.copy_sz) none }
      else some (s1, false)
    else some (s, true)

/-- Add a task to the task list (`tsdfx_copy_add`). -/
def tsdfx_copy_add (k : Kernel) (s : State) (task : Nat) : Option (State × Int) :=
  match deref s task with
  | none => none
  | some _ =>
    match tsdfx_copy_add_grow k (s.copy_len.toNat + 1) s with
    | none => none
    | some (s1, false) => some (s1, -1)
    | some (s1, true) =>
      if ¬ (s1.copy_len + 1 ≤ (s1.copy_sz : Int)) then none
      else
        match write_slot s1.copy_tasks s1.copy_len (some task), deref s1 task with
        | some a, some t =>
          let s2 := store { s1 with copy_tasks := a } task { t with index := s1.copy_len }
          let s3 := { s2 with copy_len := s1.copy_len + 1 }
          some ({ s3 with log := s3.log ++ [Event.jobs s3.copy_len s3.copy_running] },
            s1.copy_len)
        | _, _ => none

/-- The loop `for (; i < copy_len; ++i) copy_tasks[i]->index = i` of
`tsdfx_copy_remove`; the first argument is `copy_len - i`. -/
def renumber : Nat → Int → State → Option State
  | 0, _, s => some s
  | n + 1, i, s =>
    match slot s i with
    | some (some p) =>
      match deref s p with
      | some t => renumber n (i + 1) (store s p { t with index := i })
      | none => none
    | _ => none

/-- Remove a task from the task list (`tsdfx_copy_remove`). -/
def tsdfx_copy_remove (s : State) (task : Nat) : Option (State × Int) :=
  match deref s task with
  | none => none
  | some t =>
    let i := t.index
    match slot s i with
    | none => none
    | some q =>
      if q ≠ some task then some (s, -1)
      else
        let moved :=
          if i + 1 < s.copy_len then
            memmove_slots s.copy_tasks i (i + 1) (s.copy_len - (i + 1))
          else some s.copy_tasks
        match moved with
        | none => none
        | some a1 =>
          match write_slot a1 s.copy_len none with
          | none => none
          | some a2 =>
            let s1 := { s with copy_tasks := a2, copy_len := s.copy_len - 1 }
            let s2 := { s1 with log := s1.log ++ [Event.jobs s1.copy_len s1.copy_running] }
            match renumber (s2.copy_len - i).toNat i s2 with
            | none => none
            | some s3 => some (s3, 0)

/-! ## bin/tsdfx/copy.c: copy tasks -/

/-- The record returned by `calloc`: all fields zero. -/
def copy_task.zero : copy_task :=
  { srcpath := [], dstpath := [], index := 0, state := TASK_IDLE, uid := 0, gid := 0, pid := 0 }

/-- The tail `fail:` of `tsdfx_copy_new`: free the task, return `NULL`. -/
def tsdfx_copy_new_fail (s : State) (task : Nat) : Option (State × Option Nat) :=
  match free s task with
  | none => none
  | some s1 => some (s1, none)

/-- Prepare a copy task (`tsdfx_copy_new`); the result is the new task
pointer, or `NULL`. -/
def tsdfx_copy_new (k : Kernel) (s : State) (srcpath dstpath : List Char) :
    Option (State × Option Nat) :=
  let s1 := { s with log := s.log ++ [Event.lstat srcpath] }
  match k.lstat s.log srcpath with
  | none => some (s1, none)
  | some st =>
    let s2 := { s1 with log := s1.log ++ [Event.alloc] }
    if ¬ k.alloc s1.log then some (s2, none)
    else
      let task := s2.heap.length
      let t : copy_task := { copy_task.zero with uid := st.st_uid, gid := st.st_gid, pid := -1 }
      let s3 := { s2 with heap := s2.heap ++ [some t] }
      let s4 := store s3 task { t with srcpath := srcpath.take (PATH_MAX - 1) }
      if srcpath.length ≥ PATH_MAX then tsdfx_copy_new_fail s4 task
      else
        let s5 := store s4 task
          { t with srcpath := srcpath.take (PATH_MAX - 1), dstpath := dstpath.take (PATH_MAX - 1) }
        if dstpath.length ≥ PATH_MAX then tsdfx_copy_new_fail s5 task
        else
          match tsdfx_copy_add k s5 task with
          | none => none
          | some (s6, r) =>
            if r < 0 then tsdfx_copy_new_fail s6 task
            else
              match deref s6 task with
              | none => none
              | some t6 => some (store s6 task { t6 with state := TASK_IDLE }, some task)

/-- Fork a child process and start a copy task inside (`tsdfx_copy_start`),
as executed by the calling process. -/
def tsdfx_copy_start (k : Kernel) (s : State) (task : Nat) : Option (State × Int) :=
  match deref s task with
  | none => none
  | some t =>
    if t.state = TASK_RUNNING then some (s, 0)
    else if t.state ≠ TASK_IDLE then some (s, -1)
    else
      let s1 := { s with log := s.log ++ [Event.fork] }
      match k.fork s.log with
      | fork_result.error =>
        some (store s1 task { t with state := TASK_DEAD, pid := -1 }, -1)
      | fork_result.parent pid _ =>
        let s2 := { s1 with copy_running := s1.copy_running + 1 }
        let s3 := { s2 with log := s2.log ++ [Event.jobs s2.copy_len s2.copy_running] }
        some (store s3 task { t with state := TASK_RUNNING, pid := pid }, 0)

/-- Modelled from the spec: `tsdfx_task_poll(pid, &state)` is defined in a
source file that is not at hand.  It is the poll operation of the process
controller on a process id and a state: not applicable unless the state is
`RUNNING` or `STOPPING`; a non-blocking wait for the child; a wait error
gives `DEAD`, a child still alive leaves the state, a reaped child gives
`STOPPED`, `FAILED` or `DEAD`.  The process id is passed by value. -/
def tsdfx_task_poll (k : Kernel) (log : List Event) (pid : Int) (state : task_state) :
    (task_state × List Event) × Int :=
  if state ≠ TASK_RUNNING ∧ state ≠ TASK_STOPPING then ((state, log), -1)
  else
    let r := k.waitpid log pid
    let log1 := log ++ [Event.waitpid pid]
    if r.ret < 0 then ((TASK_DEAD, log1), -1)
    else if r.ret = 0 then ((state, log1), 0)
    else if r.ret = pid then
      if ¬ r.status.wifexited then ((TASK_DEAD, log1), 0)
      else if r.status.wexitstatus ≠ 0 then ((TASK_FAILED, log1), 0)
      else ((TASK_STOPPED, log1), 0)
    else ((state, log1), -1)

/-- Poll the state of a child process (`tsdfx_copy_poll`). -/
def tsdfx_copy_poll (k : Kernel) (s : State) (task : Nat) : Option (State × Int) :=
  match deref s task with
  | none => none
  | some t =>
    let state := t.state
    let r := tsdfx_task_poll k s.log t.pid t.state
    let s1 := { store s task { t with state := r.1.1 } with log := r.1.2 }
    if state = TASK_RUNNING ∧ r.1.1 ≠ state then
      let s2 := { s1 with copy_running := s1.copy_running - 1 }
      some ({ s2 with log := s2.log ++ [Event.jobs s2.copy_len s2.copy_running] }, r.2)
    else some (s1, r.2)

/-- The loop `for (i = 0; sig[i] >= 0; ++i)` of `tsdfx_copy_stop`; the
second argument is the part of `sig` from index `i` on, and the result
carries the part at which the loop was left. -/
def tsdfx_copy_stop_loop (k : Kernel) (task : Nat) : List Int → State → Option (State × List Int)
  | [], s => some (s, [])
  | sg :: rest, s =>
    if sg < 0 then some (s, sg :: rest)
    else
      match tsdfx_copy_poll k s task with
      | none => none
      | some (s1, _) =>
        match deref s1 task with
        | none => none
        | some t =>
          if t.state ≠ TASK_STOPPING then some (s1, sg :: rest)
          else
            let l1 := if sg ≠ 0 then s1.log ++ [Event.kill t.pid sg] else s1.log
            let l2 := l1 ++ [Event.kill t.pid SIGCONT]
            let l3 := l2 ++ [Event.usleep 10000]
            tsdfx_copy_stop_loop k task rest { s1 with log := l3 }

/-- Stop a copy task (`tsdfx_copy_stop`). -/
def tsdfx_copy_stop (k : Kernel) (s : State) (task : Nat) : Option (State × Int) :=
  match deref s task with
  | none => none
  | some t =>
    if t.state ≠ TASK_RUNNING then some (s, -1)
    else
      let s0 := store s task { t with state := TASK_STOPPING }
      let s1 := { s0 with copy_running := s0.copy_running - 1 }
      let s2 := { s1 with log := s1.log ++ [Event.jobs s1.copy_len s1.copy_running] }
      match tsdfx_copy_stop_loop k task sig s2 with
      | none => none
      | some (s3, rest) =>
        match deref s3 task with
        | none => none
        | some t3 =>
          let t4 := if gave_up rest then { t3 with state := TASK_DEAD } else t3
          let l4 := if gave_up rest then s3.log ++ [Event.gave_up t3.pid] else s3.log
          let s5 := { store s3 task { t4 with pid := -1 } with log := l4 }
          if t4.state ≠ TASK_STOPPED then some (s5, -1) else some (s5, 0)

/-- Delete a copy task (`tsdfx_copy_delete`). -/
def tsdfx_copy_delete (k : Kernel) (s : State) (task : Option Nat) : Option State :=
  match task with
  | none => some s
  | some p =>
    match deref s p with
    | none => none
    | some t =>
      let stopped := if t.pid ≠ -1 then (tsdfx_copy_stop k s p).map Prod.fst else some s
      match stopped with
      | none => none
      | some s1 =>
        match tsdfx_copy_remove s1 p with
        | none => none
        | some (s2, _) => free s2 p

/-! ## bin/tsdfx/copy.c: the reconciliation driver -/

/-- The terminating character of a C string. -/
def NUL : Char := Char.ofNat 0

/-- Read the character at offset `i` of the string `files`, which is followed
by its terminating NUL; nothing is known of the memory behind the NUL. -/
def rd (files : List Char) (i : Nat) : Option Char :=
  if i = files.length then some NUL else files[i]?

/-- The loop `while (*q != '\0' && *q != '\n') ++q`; the first argument
bounds the number of steps. -/
def scan_line (files : List Char) : Nat → Nat → Option Nat
  | 0, _ => none
  | n + 1, q =>
    match rd files q with
    | none => none
    | some c => if c ≠ NUL ∧ c ≠ '\n' then scan_line files n (q + 1) else some q

/-- The call `memchr(files + i, c, n) != NULL`. -/
def memchr (files : List Char) (c : Char) : Nat → Nat → Option Bool
  | _, 0 => some false
  | i, n + 1 =>
    match rd files i with
    | none => none
    | some x => if x = c then some true else memchr files c (i + 1) n

/-- The statements of the loop body of `tsdfx_copy_wrap` that follow the
composition of the two paths. -/
def tsdfx_copy_wrap_entry (k : Kernel) (s : State) (srcpath dstpath : List Char) : Option State :=
  match tsdfx_copy_find s 0 (some srcpath) (some dstpath) with
  | none => none
  | some r =>
    if r < 0 then
      let s1 := { s with log := s.log ++ [Event.stat srcpath] }
      match k.stat s.log srcpath with
      | none => (tsdfx_copy_new k s1 srcpath dstpath).map Prod.fst
      | some srcst =>
        let s2 := { s1 with log := s1.log ++ [Event.stat dstpath] }
        match k.stat s1.log dstpath with
        | none => (tsdfx_copy_new k s2 srcpath dstpath).map Prod.fst
        | some dstst =>
          if srcst.st_size = dstst.st_size ∧ srcst.st_mtime = dstst.st_mtime then some s2
          else (tsdfx_copy_new k s2 srcpath dstpath).map Prod.fst
    else some s

/-- The loop `for (p = q = files; *p != '\0'; p = ++q)` of `tsdfx_copy_wrap`;
the first argument bounds the number of iterations, the second is `p`. -/
def tsdfx_copy_wrap_loop (k : Kernel) (srcdir dstdir : List Char) (maxlen : Nat)
    (files : List Char) : Nat → Nat → State → Option State
  | 0, _, _ => none
  | n + 1, p, s =>
    match rd files p with
    | none => none
    | some c =>
      if c = NUL then some s
      else
        match scan_line files (files.length + 2) p with
        | none => none
        | some q =>
          if q = p then tsdfx_copy_wrap_loop k srcdir dstdir maxlen files n (q + 1) s
          else if q - p ≥ maxlen then
            tsdfx_copy_wrap_loop k srcdir dstdir maxlen files n (q + 1) s
          else
            match memchr files '/' (p + 1) (q - p) with
            | none => none
            | some true => tsdfx_copy_wrap_loop k srcdir dstdir maxlen files n (q + 1) s
            | some false =>
              let name := (files.drop p).take (q - p)
              match tsdfx_copy_wrap_entry k s (srcdir ++ name) (dstdir ++ name) with
              | none => none
              | some s1 => tsdfx_copy_wrap_loop k srcdir dstdir maxlen files n (q + 1) s1

/-- Given source and destination directories and a list of files to copy,
start copy tasks for each file (`tsdfx_copy_wrap`). -/
def tsdfx_copy_wrap (k : Kernel) (s : State) (srcdir dstdir files : List Char) :
    Option (State × Int) :=
  let slen := srcdir.length
  let dlen := dstdir.length
  if slen ≥ PATH_MAX ∨ dlen ≥ PATH_MAX then some (s, -1)
  else
    let slen1 := PATH_MAX - slen - 1
    let dlen1 := PATH_MAX - dlen - 1
    let maxlen := if slen1 > dlen1 then dlen1 else slen1
    match tsdfx_copy_wrap_loop k srcdir dstdir maxlen files (files.length + 2) 0 s with
    | none => none
    | some s1 => some (s1, 0)

/-- The statement `if (copy_tasks[i]->state == TASK_IDLE && copy_running <
tsdfx_copy_max_tasks) tsdfx_copy_start(copy_tasks[i]);` of `tsdfx_copy_iter`. -/
def tsdfx_copy_iter_start (k : Kernel) (i : Int) (s : State) : Option State :=
  match slot s i with
  | some (some p) =>
    match deref s p with
    | some t =>
      if t.state = TASK_IDLE ∧ s.copy_running < s.tsdfx_copy_max_tasks then
        (tsdfx_copy_start k s p).map Prod.fst
      else some s
    | none => none
  | _ => none

/-- The statement `tsdfx_copy_poll(copy_tasks[i]);` of `tsdfx_copy_iter`. -/
def tsdfx_copy_iter_poll (k : Kernel) (i : Int) (s : State) : Option State :=
  match slot s i with
  | some (some p) => (tsdfx_copy_poll k s p).map Prod.fst
  | _ => none

/-- The statement `if (copy_tasks[i]->state != TASK_RUNNING)
tsdfx_copy_delete(copy_tasks[i]);` of `tsdfx_copy_iter`. -/
def tsdfx_copy_iter_delete (k : Kernel) (i : Int) (s : State) : Option State :=
  match slot s i with
  | some (some p) =>
    match deref s p with
    | some t => if t.state ≠ TASK_RUNNING then tsdfx_copy_delete k s (some p) else some s
    | none => none
  | _ => none

/-- The body of the loop of `tsdfx_copy_iter`. -/
def tsdfx_copy_iter_body (k : Kernel) (i : Int) (s : State) : Option State :=
  (tsdfx_copy_iter_start k i s).bind fun s1 =>
    (tsdfx_copy_iter_poll k i s1).bind fun s2 => tsdfx_copy_iter_delete k i s2

/-- The loop of `tsdfx_copy_iter`; the first argument bounds the number of
iterations, the second is `i`. -/
def tsdfx_copy_iter_loop (k : Kernel) : Nat → Int → State → Option State
  | 0, i, s => if i < s.copy_len then none else some s
  | n + 1, i, s =>
    if i < s.copy_len then
      match tsdfx_copy_iter_body k i s with
      | none => none
      | some s1 => tsdfx_copy_iter_loop k n (i + 1) s1
    else some s

/-- Monitor child processes (`tsdfx_copy_iter`). -/
def tsdfx_copy_iter (k : Kernel) (s : State) : Option State :=
  tsdfx_copy_iter_loop k s.copy_len.toNat 0 s

/-! ## Vocabulary of the properties -/

/-- Is the event a call of `waitpid`? -/
def is_waitpid : Event → Bool
  | Event.waitpid _ => true
  | _ => false

/-- Is the event a call of `usleep`? -/
def is_usleep : Event → Bool
  | Event.usleep _ => true
  | _ => false

/-- Is the event a call of `kill`? -/
def is_kill : Event → Bool
  | Event.kill _ _ => true
  | _ => false

/-- The states in which a child has been given up or reaped. -/
def terminal (st : task_state) : Prop :=
  st = TASK_STOPPED ∨ st = TASK_FAILED ∨ st = TASK_DEAD

/-- No poll of the process `pid` ever finds that it has exited normally. -/
def no_exit (k : Kernel) (pid : Int) : Prop :=
  ∀ log, (k.waitpid log pid).ret = 0 ∨ (k.waitpid log pid).status.wifexited = false

/-- The number of signals of a part of `sig` that can be sent. -/
def rounds (l : List Int) : Nat := l.countP (fun x => decide (0 ≤ x))

/-- The state `s` after the record of `task` has become `t`, the counter of
running tasks `running` and the log `log`. -/
def upd (s : State) (task : Nat) (t : copy_task) (running : Int) (log : List Event) : State :=
  { s with heap := s.heap.set task (some t), copy_running := running, log := log }

/-! ## Example inputs -/

/-- An operating system under which every child stays alive, `fork` succeeds
with process id 100, memory is available and every file has the same
metadata. -/
def kernel_alive : Kernel :=
  { fork := fun _ => fork_result.parent 100 (by decide),
    waitpid := fun _ _ => { ret := 0, status := { wifexited := false, wexitstatus := 0 } },
    alloc := fun _ => true,
    lstat := fun _ _ => some { st_uid := 1000, st_gid := 1000, st_size := 1, st_mtime := 1 },
    stat := fun _ _ => some { st_uid := 1000, st_gid := 1000, st_size := 1, st_mtime := 1 } }

/-- An operating system under which a child is alive until `SIGKILL` has been
sent to it, and is then found terminated by that signal. -/
def kernel_sigkill : Kernel :=
  { kernel_alive with
    waitpid := fun log pid =>
      if Event.kill pid SIGKILL ∈ log then
        { ret := pid, status := { wifexited := false, wexitstatus := 0 } }
      else { ret := 0, status := { wifexited := false, wexitstatus := 0 } } }

/-- An operating system under which every child is found to have exited with
code 0. -/
def kernel_exit0 : Kernel :=
  { kernel_alive with
    waitpid := fun _ pid => { ret := pid, status := { wifexited := true, wexitstatus := 0 } } }

/-- A running task of the library with process id 7. -/
def world_running : task_world :=
  { t := { state := TASK_RUNNING, pid := 7, status := { wifexited := false, wexitstatus := 0 } },
    log := [] }

/-- A copy task for `/a/x` in the given state, at the given index. -/
def task_x (st : task_state) (index pid : Int) : copy_task :=
  { srcpath := "/a/x".toList, dstpath := "/b/x".toList, index := index, state := st,
    uid := 1000, gid := 1000, pid := pid }

/-- A copy task for `/a/y` in the given state, at the given index. -/
def task_y (st : task_state) (index pid : Int) : copy_task :=
  { srcpath := "/a/y".toList, dstpath := "/b/y".toList, index := index, state := st,
    uid := 1000, gid := 1000, pid := pid }

/-- A registry of four slots that holds one running copy task. -/
def state_running : State :=
  { heap := [some (task_x TASK_RUNNING 0 7)], copy_tasks := [some 0, none, none, none],
    copy_len := 1, copy_running := 1, tsdfx_copy_max_tasks := 8, log := [] }

/-- A registry of four slots that holds two idle copy tasks. -/
def state_two_idle : State :=
  { heap := [some (task_x TASK_IDLE 0 (-1)), some (task_y TASK_IDLE 1 (-1))],
    copy_tasks := [some 0, some 1, none, none],
    copy_len := 2, copy_running := 0, tsdfx_copy_max_tasks := 8, log := [] }

/-- The index invariant of the registry: every position below the logical
length holds a pointer to a task record whose stored index is the position. -/
def index_invariant (s : State) : Prop :=
  ∀ i : Nat, (i : Int) < s.copy_len →
    ∃ p t, s.copy_tasks[i]? = some (some p) ∧ deref s p = some t ∧ t.index = i

/-- A well-formed registry: the logical length lies between 0 and the
allocated size and the index invariant holds. -/
structure WF (s : State) : Prop where
  len_nonneg : 0 ≤ s.copy_len
  len_le : s.copy_len ≤ s.copy_tasks.length
  live : index_invariant s

/-- Is the task at position `i` of the registry in state RUNNING? -/
def running_at (s : State) (i : Nat) : Bool :=
  match task_at s i with
  | some t => decide (t.state = TASK_RUNNING)
  | none => false

/-- The number of registry tasks in state RUNNING. -/
def running_count (s : State) : Nat :=
  (List.range s.copy_len.toNat).countP (running_at s)

/-- The counter `copy_running` equals the number of registry tasks in state
RUNNING, and every such task has a process id other than -1. -/
def counter_ok (s : State) : Prop :=
  s.copy_running = running_count s ∧
  ∀ i : Nat, (i : Int) < s.copy_len → ∀ t, task_at s i = some t →
    t.state = TASK_RUNNING → t.pid ≠ -1

/-- What one operation of the process controller does to the record of a
task (`t` before, `t1` after), to the counter of running tasks (`c1` after)
and to the log (`evs` added): the place in the registry and the paths stay,
the counter follows the state, a RUNNING task has a process, and every
counter value logged is the new one. -/
structure task_step (s : State) (t t1 : copy_task) (c1 : Int) (evs : List Event) : Prop where
  index : t1.index = t.index
  srcpath : t1.srcpath = t.srcpath
  dstpath : t1.dstpath = t.dstpath
  count : c1 + (if t.state = TASK_RUNNING then 1 else 0) =
    s.copy_running + (if t1.state = TASK_RUNNING then 1 else 0)
  pid : (t.state = TASK_RUNNING → t.pid ≠ -1) → t1.state = TASK_RUNNING → t1.pid ≠ -1
  jobs : ∀ m c, Event.jobs m c ∈ evs → c = c1

/-- The counter of running tasks is at most the ceiling `N`, and so was every
counter value logged since the log was `log0`. -/
def ceiling_ok (N : Int) (log0 : List Event) (s : State) : Prop :=
  s.copy_running ≤ N ∧ s.tsdfx_copy_max_tasks = N ∧
  ∃ evs, s.log = log0 ++ evs ∧ ∀ m c, Event.jobs m c ∈ evs → c ≤ N

/-- A registry of four slots that holds two idle copy tasks, with ceiling 1. -/
def state_two_idle_max1 : State :=
  { state_two_idle with tsdfx_copy_max_tasks := 1 }

/-- The registry states reached from an empty registry by allocating task
records, by successful calls of `tsdfx_copy_add` on a task that is not in the
registry, and by successful calls of `tsdfx_copy_remove` on a task that is in
the registry.  A call of `tsdfx_copy_remove` on a full registry writes behind
the array and has no result, so it reaches no state. -/
inductive reachable : State → Prop
  | empty (s : State) : s.copy_tasks = [] → s.copy_len = 0 → reachable s
  | alloc (s : State) (t : copy_task) : reachable s →
      reachable { s with heap := s.heap ++ [some t] }
  | add (k : Kernel) (s s' : State) (task : Nat) (r : Int) : reachable s →
      (∀ i : Nat, (i : Int) < s.copy_len → s.copy_tasks[i]? ≠ some (some task)) →
      tsdfx_copy_add k s task = some (s', r) → 0 ≤ r → reachable s'
  | remove (s s' : State) (task i : Nat) : reachable s → (i : Int) < s.copy_len →
      s.copy_tasks[i]? = some (some task) → tsdfx_copy_remove s task = some (s', 0) →
      reachable s'

/-- The registry of sixteen slots obtained from the empty one by adding the
tasks for `/a/x` and `/a/y` and removing the first. -/
def state_after_remove : State :=
  { heap := [some (task_x TASK_IDLE 0 (-1)), some (task_y TASK_IDLE 0 (-1))],
    copy_tasks := some 1 :: some 1 :: List.replicate 14 none,
    copy_len := 1, copy_running := 0, tsdfx_copy_max_tasks := 8,
    log := [Event.alloc, Event.jobs 1 0, Event.jobs 2 0, Event.jobs 1 0] }

/-- The registry obtained from the empty one by adding the task for `/a/x`. -/
def state_one_added : State :=
  { heap := [some (task_x TASK_IDLE 0 (-1))],
    copy_tasks := some 0 :: List.replicate 15 none,
    copy_len := 1, copy_running := 0, tsdfx_copy_max_tasks := 8,
    log := [Event.alloc, Event.jobs 1 0] }

/-- The registry obtained from `state_one_added` by adding the task for
`/a/y`. -/
def state_two_added : State :=
  { heap := [some (task_x TASK_IDLE 0 (-1)), some (task_y TASK_IDLE 1 (-1))],
    copy_tasks := some 0 :: some 1 :: List.replicate 14 none,
    copy_len := 2, copy_running := 0, tsdfx_copy_max_tasks := 8,
    log := [Event.alloc, Event.jobs 1 0, Event.jobs 2 0] }

/-! ## bin/tsdfx/copy.c: the child process of `tsdfx_copy_start` -/

/-- What the child process of `tsdfx_copy_start` gets from the operating
system and from the copy routine: the return values of `setgid` and `setuid`,
the effective ids afterwards and the return value of `tsdfx_copier`. -/
structure child_env where
  setgid : Nat → Int
  setuid : Nat → Int
  geteuid : Nat
  getegid : Nat
  tsdfx_copier : List Char → List Char → Int

/-- The calls made by the child process of `tsdfx_copy_start`. -/
inductive child_event
  | setgid (gid : Nat)
  | setuid (uid : Nat)
  | warning (text : String)
  | umask (mask : Nat)
  | tsdfx_copier (srcpath dstpath : List Char)
  deriving DecidableEq, Repr

/-- The branch `if (task->pid == 0)` of `tsdfx_copy_start`, executed by the
child process: the calls it makes, in order, and its exit status.  The return
values of `setgid` and `setuid` are not looked at. -/
def tsdfx_copy_start_child (e : child_env) (t : copy_task) : List child_event × Int :=
  let l1 := [child_event.setgid t.gid, child_event.setuid t.uid]
  let l2 := if e.geteuid = 0 then l1 ++ [child_event.warning "copying with uid 0"] else l1
  let l3 := if e.getegid = 0 then l2 ++ [child_event.warning "copying with gid 0"] else l2
  let l4 := l3 ++ [child_event.umask 7]
  let l5 := l4 ++ [child_event.tsdfx_copier t.srcpath t.dstpath]
  (l5, if e.tsdfx_copier t.srcpath t.dstpath ≠ 0 then 1 else 0)

/-- A child process in which `setgid` and `setuid` fail, the process keeps the
identity of the super-user and the copy routine succeeds. -/
def child_env_denied : child_env :=
  { setgid := fun _ => -1, setuid := fun _ => -1, geteuid := 0, getegid := 0,
    tsdfx_copier := fun _ _ => 0 }

/-! ## Further example inputs -/

/-- A full registry: sixteen tasks in an array of sixteen slots. -/
def state_full : State :=
  { heap := (List.range 16).map fun i => some (task_x TASK_IDLE i (-1)),
    copy_tasks := (List.range 16).map some,
    copy_len := 16, copy_running := 0, tsdfx_copy_max_tasks := 8, log := [] }

/-- The file system of the reconcile scenario: `/a/x` exists, `/b/x` does
not, `/a/y` and `/b/y` exist with the same size and modification time; no
other file exists. -/
def scenario_stat (path : List Char) : Option file_stat :=
  if path = "/a/x".toList then
    some { st_uid := 1000, st_gid := 1000, st_size := 1, st_mtime := 1 }
  else if path = "/a/y".toList ∨ path = "/b/y".toList then
    some { st_uid := 1000, st_gid := 1000, st_size := 2, st_mtime := 2 }
  else none

/-- An operating system with the file system `scenario_stat`. -/
def kernel_scenario : Kernel :=
  { kernel_alive with lstat := fun _ p => scenario_stat p, stat := fun _ p => scenario_stat p }

/-- The file list made of the given entries, each followed by a newline. -/
def file_list (entries : List (List Char)) : List Char :=
  (entries.map fun name => name ++ ['\n']).flatten

/-- The entries that make a file list: no NUL and no newline inside. -/
def entries_ok (entries : List (List Char)) : Prop :=
  ∀ name ∈ entries, ∀ c ∈ name, c ≠ NUL ∧ c ≠ '\n'

/-- The entries that `tsdfx_copy_wrap` skips: the empty ones, those of
`maxlen` characters or more and those with a `/` behind the first character. -/
def entry_skipped (maxlen : Nat) (name : List Char) : Prop :=
  name = [] ∨ name.length ≥ maxlen ∨ '/' ∈ name.drop 1

instance (maxlen : Nat) (name : List Char) : Decidable (entry_skipped maxlen name) := by
  unfold entry_skipped
  infer_instance

/-- The length budget `maxlen` of `tsdfx_copy_wrap`. -/
def wrap_maxlen (srcdir dstdir : List Char) : Nat :=
  if PATH_MAX - srcdir.length - 1 > PATH_MAX - dstdir.length - 1 then
    PATH_MAX - dstdir.length - 1
  else PATH_MAX - srcdir.length - 1

/-- The loop of `tsdfx_copy_wrap` told entry by entry: a skipped entry leaves
the state, any other entry goes through `tsdfx_copy_wrap_entry` with the two
composed paths. -/
def wrap_entries (k : Kernel) (srcdir dstdir : List Char) (maxlen : Nat) :
    List (List Char) → State → Option State
  | [], s => some s
  | name :: rest, s =>
    if entry_skipped maxlen name then wrap_entries k srcdir dstdir maxlen rest s
    else
      match tsdfx_copy_wrap_entry k s (srcdir ++ name) (dstdir ++ name) with
      | none => none
      | some s1 => wrap_entries k srcdir dstdir maxlen rest s1

/-- No two tasks of the registry share the same (srcpath, dstpath) pair. -/
def unique_pairs (s : State) : Prop :=
  ∀ i j : Nat, (i : Int) < s.copy_len → (j : Int) < s.copy_len →
    ∀ ti tj, task_at s i = some ti → task_at s j = some tj →
      ti.srcpath = tj.srcpath → ti.dstpath = tj.dstpath → i = j

/-- The registry holds a task with the given pair of paths. -/
def has_pair (s : State) (src dst : List Char) : Prop :=
  ∃ i : Nat, (i : Int) < s.copy_len ∧
    ∃ t, task_at s i = some t ∧ t.srcpath = src ∧ t.dstpath = dst

/-- A registry at its ceiling: one running task, one idle task, ceiling 1. -/
def state_ceiling : State :=
  { heap := [some (task_x TASK_RUNNING 0 100), some (task_y TASK_IDLE 1 (-1))],
    copy_tasks := [some 0, some 1, none, none],
    copy_len := 2, copy_running := 1, tsdfx_copy_max_tasks := 1, log := [] }

/-! ## bin/tsdfx/copy.c: the path buffers of `tsdfx_copy_wrap` -/

/-- The difference `a - b` of two `size_t` values of `w` bits. -/
def size_sub (w a b : Nat) : Nat := (a + 2 ^ w - b) % 2 ^ w

/-- The C string held in a character array: the characters before the first
NUL. -/
def cstr (buf : List Char) : List Char := buf.takeWhile fun c => decide (c ≠ NUL)

/-- The call `memcpy(buf + off, data, n)` with the `n` characters `data`; no
result when the copy leaves the array `buf`. -/
def memcpy (buf : List Char) (off : Nat) (data : List Char) : Option (List Char) :=
  if off + data.length ≤ buf.length then
    some (buf.take off ++ data ++ buf.drop (off + data.length))
  else none

/-- The assignment `buf[off] = c`; no result when `off` is outside the array. -/
def poke (buf : List Char) (off : Nat) (c : Char) : Option (List Char) :=
  if off < buf.length then some (buf.set off c) else none

/-- The call `strlcpy(dst, src, sizeof dst)`: at most `sizeof dst - 1`
characters of `src` are copied and a NUL is put behind them; the result is the
array and the length of `src`. -/
def strlcpy (dst src : List Char) : List Char × Nat :=
  match dst.length with
  | 0 => (dst, src.length)
  | n + 1 => (src.take n ++ NUL :: dst.drop (min src.length n + 1), src.length)

/-- The local variables of `tsdfx_copy_wrap` that hold the two paths: the
arrays `srcpath` and `dstpath`, the offsets of `sf` and `df` in them, and
`maxlen`. -/
structure wrap_paths where
  srcpath : List Char
  dstpath : List Char
  sf : Nat
  df : Nat
  maxlen : Nat
  deriving DecidableEq, Repr

/-- The statements of `tsdfx_copy_wrap` that prime the source and destination
paths, from the arrays as they are found; no result stands for `return (-1)`.
The lengths are `size_t` values of `w` bits. -/
def tsdfx_copy_wrap_prime (w : Nat) (srcpath dstpath srcdir dstdir : List Char) :
    Option wrap_paths :=
  let r1 := strlcpy srcpath srcdir
  let r2 := strlcpy dstpath dstdir
  let slen := r1.2 % 2 ^ w
  let dlen := r2.2 % 2 ^ w
  if slen ≥ srcpath.length ∨ dlen ≥ dstpath.length then none
  else
    let slen1 := size_sub w (size_sub w srcpath.length slen) 1
    let dlen1 := size_sub w (size_sub w dstpath.length dlen) 1
    some { srcpath := r1.1, dstpath := r2.1, sf := slen, df := dlen,
           maxlen := if slen1 > dlen1 then dlen1 else slen1 }

/-- The statements `memcpy(sf, p, q - p); sf[q - p] = 0; memcpy(df, p, q - p);
df[q - p] = 0;` of `tsdfx_copy_wrap` for the entry `name`; no result when a
write leaves its array. -/
def tsdfx_copy_wrap_compose (b : wrap_paths) (name : List Char) : Option wrap_paths :=
  match memcpy b.srcpath b.sf name with
  | none => none
  | some s1 =>
    match poke s1 (b.sf + name.length) NUL with
    | none => none
    | some s2 =>
      match memcpy b.dstpath b.df name with
      | none => none
      | some d1 =>
        match poke d1 (b.df + name.length) NUL with
        | none => none
        | some d2 => some { b with srcpath := s2, dstpath := d2 }

/-- The path buffers during the loop of `tsdfx_copy_wrap`: two arrays of
`PATH_MAX` characters that begin with the two directories, `sf` and `df`
behind the directories, and the length budget. -/
structure paths_ok (b : wrap_paths) (srcdir dstdir : List Char) : Prop where
  src_size : b.srcpath.length = PATH_MAX
  dst_size : b.dstpath.length = PATH_MAX
  sf_eq : b.sf = srcdir.length
  df_eq : b.df = dstdir.length
  src_dir : b.srcpath.take b.sf = srcdir
  dst_dir : b.dstpath.take b.df = dstdir
  budget : b.maxlen = wrap_maxlen srcdir dstdir

/-- The registry states reached from an empty registry by allocating task
records, by successful calls of `tsdfx_copy_add` on any task record, in the
registry or not, and by successful calls of `tsdfx_copy_remove` on a task
that is in the registry. -/
inductive reachable_any : State → Prop
  | empty (s : State) : s.copy_tasks = [] → s.copy_len = 0 → reachable_any s
  | alloc (s : State) (t : copy_task) : reachable_any s →
      reachable_any { s with heap := s.heap ++ [some t] }
  | add (k : Kernel) (s s' : State) (task : Nat) (r : Int) : reachable_any s →
      tsdfx_copy_add k s task = some (s', r) → 0 ≤ r → reachable_any s'
  | remove (s s' : State) (task i : Nat) : reachable_any s → (i : Int) < s.copy_len →
      s.copy_tasks[i]? = some (some task) → tsdfx_copy_remove s task = some (s', 0) →
      reachable_any s'

/-- The registry obtained from the empty one by adding the task for `/a/x`
twice: both positions hold the one record, whose index is 1. -/
def state_added_twice : State :=
  { heap := [some (task_x TASK_IDLE 1 (-1))],
    copy_tasks := some 0 :: some 0 :: List.replicate 14 none,
    copy_len := 2, copy_running := 0, tsdfx_copy_max_tasks := 8,
    log := [Event.alloc, Event.jobs 1 0, Event.jobs 2 0] }

/-! ## Properties -/

/-! ### The process controller of the library -/

theorem tsd_task_poll_stopping (k : Kernel) (w w1 : task_world) (ret : Int)
    (h : w.t.state = TASK_STOPPING) (hp : tsd_task_poll k w = (w1, ret)) :
    w1.log = w.log ++ [Event.waitpid w.t.pid] ∧
    ((w1.t.state = TASK_STOPPING ∧ w1.t.pid = w.t.pid) ∨
      (terminal w1.t.state ∧ (k.waitpid w.log w.t.pid).ret ≠ 0)) := by
  unfold tsd_task_poll at hp
  simp only [h] at hp
  unfold terminal
  split_ifs at hp <;> obtain ⟨rfl, rfl⟩ := Prod.mk.inj hp <;> (simp_all; try omega)

theorem tsd_task_stop_loop_spec (k : Kernel) (l : List Int) :
    ∀ w w' : task_world, ∀ rest', w.t.state = TASK_STOPPING →
      tsd_task_stop_loop k l w = (w', rest') →
      ∃ evs, w'.log = w.log ++ evs ∧
        evs.countP is_waitpid ≤ rounds l ∧ evs.countP is_usleep ≤ rounds l ∧
        evs.countP is_kill ≤ 2 * rounds l ∧
        ((gave_up rest' = true ∧ w'.t.state = TASK_STOPPING ∧ w'.t.pid = w.t.pid) ∨
          (gave_up rest' = false ∧ terminal w'.t.state)) := by
  induction l with
  | nil =>
    intro w w' rest' h hl
    simp only [tsd_task_stop_loop] at hl
    obtain ⟨rfl, rfl⟩ := Prod.mk.inj hl
    exact ⟨[], by simp, by simp, by simp, by simp, Or.inl ⟨rfl, h, rfl⟩⟩
  | cons sg rest ih =>
    intro w w' rest' h hl
    by_cases hsg : sg < 0
    · simp only [tsd_task_stop_loop, if_pos hsg] at hl
      obtain ⟨rfl, rfl⟩ := Prod.mk.inj hl
      exact ⟨[], by simp, by simp, by simp, by simp, Or.inl ⟨by simp [gave_up, hsg], h, rfl⟩⟩
    · have hr : rounds (sg :: rest) = rounds rest + 1 := by
        have : 0 ≤ sg := by omega
        simp [rounds, List.countP_cons, this]
      rcases hp : tsd_task_poll k w with ⟨w1, ret⟩
      obtain ⟨hlog, hcase⟩ := tsd_task_poll_stopping k w w1 ret h hp
      simp only [tsd_task_stop_loop, if_neg hsg, hp] at hl
      rcases hcase with ⟨hst, hpid⟩ | ⟨hterm, -⟩
      · simp only [hst, ne_eq, not_true_eq_false, if_false] at hl
        obtain ⟨evs, h1, h2, h3, h4, h5⟩ := ih _ w' rest' (by exact hst) hl
        refine ⟨Event.waitpid w.t.pid :: ((if sg = 0 then [] else [Event.kill w.t.pid sg]) ++
          [Event.kill w.t.pid SIGCONT, Event.usleep 100000] ++ evs), ?_, ?_, ?_, ?_, ?_⟩
        · rw [h1]
          by_cases h0 : sg = 0 <;> simp [h0, hlog, hpid]
        · rw [hr]
          by_cases h0 : sg = 0 <;> simp [h0, List.countP_cons, is_waitpid] <;> omega
        · rw [hr]
          by_cases h0 : sg = 0 <;> simp [h0, List.countP_cons, is_usleep] <;> omega
        · rw [hr]
          by_cases h0 : sg = 0 <;> simp [h0, List.countP_cons, is_kill] <;> omega
        · simpa [hpid] using h5
      · have hst' : w1.t.state ≠ TASK_STOPPING := by
          rcases hterm with h | h | h <;> simp [h]
        simp only [if_pos hst'] at hl
        obtain ⟨rfl, rfl⟩ := Prod.mk.inj hl
        refine ⟨[Event.waitpid w.t.pid], hlog, ?_, ?_, ?_, Or.inr ⟨?_, hterm⟩⟩
        · simp [is_waitpid, hr]
        · simp [is_usleep]
        · simp [is_kill]
        · simp [gave_up, hsg]

theorem rounds_sig : rounds sig = 3 := by decide

theorem terminal_ne_stopping {st : task_state} (h : terminal st) : st ≠ TASK_STOPPING := by
  rcases h with h | h | h <;> simp [h]

theorem terminal_ne_running {st : task_state} (h : terminal st) : st ≠ TASK_RUNNING := by
  rcases h with h | h | h <;> simp [h]

/-! ### Task records -/

theorem deref_lt {s : State} {p : Nat} {t : copy_task} (h : deref s p = some t) :
    p < s.heap.length := by
  unfold deref at h
  by_contra hlt
  rw [List.getElem?_eq_none (by omega)] at h
  simp at h

theorem deref_eq {s : State} {p : Nat} {t : copy_task} (h : deref s p = some t) :
    s.heap[p]? = some (some t) := by
  unfold deref at h
  split at h
  · next t' h' => rw [h']; simpa using h
  · simp at h

theorem deref_of_eq {s : State} {p : Nat} {t : copy_task} (h : s.heap[p]? = some (some t)) :
    deref s p = some t := by
  simp [deref, h]

theorem deref_congr {s s' : State} (h : s'.heap = s.heap) (p : Nat) : deref s' p = deref s p := by
  simp [deref, h]

theorem slot_congr {s s' : State} (h : s'.copy_tasks = s.copy_tasks) (i : Int) :
    slot s' i = slot s i := by
  simp [slot, h]

theorem deref_upd_self {s : State} {p : Nat} {t0 : copy_task} (h : deref s p = some t0)
    (t : copy_task) (c : Int) (l : List Event) : deref (upd s p t c l) p = some t := by
  have := deref_lt h
  simp [deref, upd, List.getElem?_set_self this]

theorem deref_upd_ne {s : State} {p q : Nat} (h : q ≠ p) (t : copy_task) (c : Int)
    (l : List Event) : deref (upd s p t c l) q = deref s q := by
  simp [deref, upd, List.getElem?_set_ne (Ne.symm h)]

@[simp] theorem upd_copy_tasks (s : State) (p : Nat) (t : copy_task) (c : Int) (l : List Event) :
    (upd s p t c l).copy_tasks = s.copy_tasks := rfl

@[simp] theorem upd_copy_len (s : State) (p : Nat) (t : copy_task) (c : Int) (l : List Event) :
    (upd s p t c l).copy_len = s.copy_len := rfl

@[simp] theorem upd_copy_running (s : State) (p : Nat) (t : copy_task) (c : Int)
    (l : List Event) : (upd s p t c l).copy_running = c := rfl

@[simp] theorem upd_max (s : State) (p : Nat) (t : copy_task) (c : Int) (l : List Event) :
    (upd s p t c l).tsdfx_copy_max_tasks = s.tsdfx_copy_max_tasks := rfl

@[simp] theorem upd_log (s : State) (p : Nat) (t : copy_task) (c : Int) (l : List Event) :
    (upd s p t c l).log = l := rfl

@[simp] theorem slot_upd (s : State) (p : Nat) (t : copy_task) (c : Int) (l : List Event)
    (i : Int) : slot (upd s p t c l) i = slot s i := rfl

theorem upd_upd (s : State) (p : Nat) (t t' : copy_task) (c c' : Int) (l l' : List Event) :
    upd (upd s p t c l) p t' c' l' = upd s p t' c' l' := by
  simp [upd, List.set_set]

theorem upd_self {s : State} {p : Nat} {t : copy_task} (h : deref s p = some t) :
    upd s p t s.copy_running s.log = s := by
  have h1 := deref_eq h
  have h2 : s.heap.set p (some t) = s.heap := by
    apply List.ext_getElem?
    intro j
    by_cases hj : p = j
    · subst hj
      rw [List.getElem?_set_self (deref_lt h), h1]
    · rw [List.getElem?_set_ne hj]
  cases s
  simp_all [upd]

/-! ### The process controller of copy tasks -/

theorem tsdfx_task_poll_cases {k : Kernel} {log log' : List Event} {pid r : Int}
    {state st' : task_state} (h : tsdfx_task_poll k log pid state = ((st', log'), r)) :
    ((state ≠ TASK_RUNNING ∧ state ≠ TASK_STOPPING) ∧ st' = state ∧ log' = log) ∨
    ((state = TASK_RUNNING ∨ state = TASK_STOPPING) ∧ log' = log ++ [Event.waitpid pid] ∧
      (st' = state ∨ terminal st') ∧
      ((k.waitpid log pid).ret = 0 ∨ (k.waitpid log pid).status.wifexited = false →
        st' = state ∨ st' = TASK_DEAD)) := by
  unfold tsdfx_task_poll at h
  dsimp only at h
  have hs : state = TASK_RUNNING ∨ state = TASK_STOPPING ∨
      (state ≠ TASK_RUNNING ∧ state ≠ TASK_STOPPING) := by
    cases state <;> simp
  split_ifs at h <;> simp only [Prod.mk.injEq] at h <;> obtain ⟨⟨rfl, rfl⟩, rfl⟩ := h <;>
    simp_all [terminal]

theorem tsdfx_copy_poll_spec {k : Kernel} {s s' : State} {p : Nat} {r : Int}
    (h : tsdfx_copy_poll k s p = some (s', r)) :
    ∃ t, deref s p = some t ∧
      ((t.state ≠ TASK_RUNNING ∧ t.state ≠ TASK_STOPPING ∧ s' = s ∧ r = -1) ∨
        ((t.state = TASK_RUNNING ∨ t.state = TASK_STOPPING) ∧
          s' = upd s p t s.copy_running (s.log ++ [Event.waitpid t.pid])) ∨
        (t.state = TASK_RUNNING ∧ ∃ st', terminal st' ∧ (no_exit k t.pid → st' = TASK_DEAD) ∧
          s' = upd s p { t with state := st' } (s.copy_running - 1)
            (s.log ++ [Event.waitpid t.pid, Event.jobs s.copy_len (s.copy_running - 1)])) ∨
        (t.state = TASK_STOPPING ∧ ∃ st', terminal st' ∧ (no_exit k t.pid → st' = TASK_DEAD) ∧
          s' = upd s p { t with state := st' } s.copy_running
            (s.log ++ [Event.waitpid t.pid]))) := by
  unfold tsdfx_copy_poll at h
  cases hd : deref s p with
  | none => simp [hd] at h
  | some t =>
    simp only [hd] at h
    rcases hp : tsdfx_task_poll k s.log t.pid t.state with ⟨⟨st', log'⟩, ret⟩
    rw [hp] at h
    refine ⟨t, rfl, ?_⟩
    have ht : ({ t with state := t.state } : copy_task) = t := by cases t; rfl
    rcases tsdfx_task_poll_cases hp with ⟨hns, hst, hlog⟩ | ⟨hst, hlog, hr, hne⟩
    · left
      subst hst hlog
      simp only [ne_eq, not_true_eq_false, and_false, if_false, Option.some.injEq,
        Prod.mk.injEq] at h
      refine ⟨hns.1, hns.2, ?_, ?_⟩
      · rw [← h.1, ht]
        exact upd_self hd
      · have := hp
        unfold tsdfx_task_poll at this
        rw [if_pos hns] at this
        simp only [Prod.mk.injEq] at this
        rw [← h.2, ← this.2]
    · by_cases hsame : st' = t.state
      · right; left
        refine ⟨hst, ?_⟩
        simp only [hsame, ne_eq, not_true_eq_false, and_false, if_false, Option.some.injEq,
          Prod.mk.injEq] at h
        rw [← h.1, hlog, ht]
        simp [upd, store]
      · right; right
        have hterm : terminal st' := by
          rcases hr with hr | hr
          · exact absurd hr hsame
          · exact hr
        have hdead : no_exit k t.pid → st' = TASK_DEAD := by
          intro hn
          rcases hne (hn s.log) with h' | h'
          · exact absurd h' hsame
          · exact h'
        rcases hst with hst | hst
        · left
          refine ⟨hst, st', hterm, hdead, ?_⟩
          have h3 : t.state = TASK_RUNNING ∧ st' ≠ t.state := ⟨hst, hsame⟩
          simp only [if_pos h3, Option.some.injEq, Prod.mk.injEq] at h
          rw [← h.1, hlog]
          simp [upd, store]
        · right
          refine ⟨hst, st', hterm, hdead, ?_⟩
          have h3 : ¬ (t.state = TASK_RUNNING ∧ st' ≠ t.state) := by simp [hst]
          simp only [if_neg h3, Option.some.injEq, Prod.mk.injEq] at h
          rw [← h.1, hlog]
          simp [upd, store]

theorem tsdfx_copy_poll_total (k : Kernel) {s : State} {p : Nat} {t : copy_task}
    (h : deref s p = some t) : ∃ s' r, tsdfx_copy_poll k s p = some (s', r) := by
  unfold tsdfx_copy_poll
  simp only [h]
  split_ifs <;> exact ⟨_, _, rfl⟩

theorem copy_task_state_eta (t : copy_task) : ({ t with state := t.state } : copy_task) = t := by
  cases t; rfl

theorem tsdfx_copy_stop_loop_spec (k : Kernel) (p : Nat) (l : List Int) :
    ∀ (s : State) (t : copy_task), deref s p = some t → t.state = TASK_STOPPING →
      ∃ s' rest' st' evs, tsdfx_copy_stop_loop k p l s = some (s', rest') ∧
        s' = upd s p { t with state := st' } s.copy_running (s.log ++ evs) ∧
        evs.countP is_waitpid ≤ rounds l ∧ evs.countP is_usleep ≤ rounds l ∧
        evs.countP is_kill ≤ 2 * rounds l ∧ (∀ n c, Event.jobs n c ∉ evs) ∧
        ((gave_up rest' = true ∧ st' = TASK_STOPPING) ∨
          (gave_up rest' = false ∧ terminal st' ∧ (no_exit k t.pid → st' = TASK_DEAD))) := by
  induction l with
  | nil =>
    intro s t hd hst
    refine ⟨s, [], TASK_STOPPING, [], rfl, ?_, by simp, by simp, by simp, by simp,
      Or.inl ⟨rfl, rfl⟩⟩
    rw [← hst, copy_task_state_eta, List.append_nil, upd_self hd]
  | cons sg rest ih =>
    intro s t hd hst
    by_cases hsg : sg < 0
    · refine ⟨s, sg :: rest, TASK_STOPPING, [], by simp [tsdfx_copy_stop_loop, hsg], ?_,
        by simp, by simp, by simp, by simp, Or.inl ⟨by simp [gave_up, hsg], rfl⟩⟩
      rw [← hst, copy_task_state_eta, List.append_nil, upd_self hd]
    · have hr : rounds (sg :: rest) = rounds rest + 1 := by
        have : 0 ≤ sg := by omega
        simp [rounds, List.countP_cons, this]
      obtain ⟨s1, r1, hp⟩ := tsdfx_copy_poll_total k hd
      obtain ⟨t', hd', hcase⟩ := tsdfx_copy_poll_spec hp
      rw [hd] at hd'
      obtain rfl : t = t' := by simpa using hd'
      simp only [tsdfx_copy_stop_loop, if_neg hsg, hp]
      rcases hcase with ⟨-, h2, -⟩ | ⟨-, hs1⟩ | ⟨h1, -⟩ | ⟨-, st', hterm, hdead, hs1⟩
      · exact absurd hst h2
      · subst hs1
        rw [deref_upd_self hd]
        simp only [hst, ne_eq, not_true_eq_false, if_false]
        obtain ⟨s', rest', st', evs, h1, h2, h3, h4, h5, h6, h7⟩ :=
          ih (upd s p t s.copy_running
            ((if sg ≠ 0 then s.log ++ [Event.waitpid t.pid] ++ [Event.kill t.pid sg]
              else s.log ++ [Event.waitpid t.pid]) ++ [Event.kill t.pid SIGCONT] ++
              [Event.usleep 10000])) t (deref_upd_self hd _ _ _) hst
        refine ⟨s', rest', st', Event.waitpid t.pid ::
          ((if sg = 0 then [] else [Event.kill t.pid sg]) ++
            [Event.kill t.pid SIGCONT, Event.usleep 10000] ++ evs), h1, ?_, ?_, ?_, ?_, ?_, h7⟩
        · rw [h2, upd_upd]
          by_cases h0 : sg = 0 <;> simp [h0]
        · rw [hr]
          by_cases h0 : sg = 0 <;> simp [h0, List.countP_cons, is_waitpid] <;> omega
        · rw [hr]
          by_cases h0 : sg = 0 <;> simp [h0, List.countP_cons, is_usleep] <;> omega
        · rw [hr]
          by_cases h0 : sg = 0 <;> simp [h0, List.countP_cons, is_kill] <;> omega
        · intro n c
          by_cases h0 : sg = 0 <;> simp [h0, h6]
      · rw [hst] at h1
        exact absurd h1 (by simp)
      · subst hs1
        rw [deref_upd_self hd]
        have hne := terminal_ne_stopping hterm
        simp only [ne_eq, hne, not_false_eq_true, if_true]
        refine ⟨_, _, st', [Event.waitpid t.pid], rfl, rfl, ?_, ?_, ?_, ?_,
          Or.inr ⟨by simp [gave_up, hsg], hterm, hdead⟩⟩
        · simp [is_waitpid, hr]
        · simp [is_usleep]
        · simp [is_kill]
        · simp
theorem tsd_task_stop_spec {k : Kernel} {w w' : task_world} {r : Int}
    (hw : w.t.state = TASK_RUNNING) (h : tsd_task_stop k w = (w', r)) :
    terminal w'.t.state ∧ w'.t.pid = -1 ∧ (r = 0 ↔ w'.t.state = TASK_STOPPED) ∧
      (r = 0 ∨ r = -1) ∧
      ∃ evs, w'.log = w.log ++ evs ∧ evs.countP is_waitpid ≤ 3 ∧ evs.countP is_usleep ≤ 3 ∧
        evs.countP is_kill ≤ 6 := by
  unfold tsd_task_stop at h
  simp only [hw, ne_eq, not_true_eq_false, if_false] at h
  rcases hl : tsd_task_stop_loop k sig
    { w with t := { w.t with state := TASK_STOPPING } } with ⟨w1, rest⟩
  rw [hl] at h
  obtain ⟨evs, h1, h2, h3, h4, h5⟩ := tsd_task_stop_loop_spec k sig _ w1 rest rfl hl
  rw [rounds_sig] at h2 h3 h4
  dsimp only at h h1
  rcases h5 with ⟨hg, hst, -⟩ | ⟨hg, hterm⟩
  · simp only [hg, if_true, ne_eq, reduceCtorEq, not_false_eq_true, Prod.mk.injEq] at h
    obtain ⟨rfl, rfl⟩ := h
    refine ⟨Or.inr (Or.inr rfl), rfl, by simp, by simp, evs ++ [Event.gave_up w1.t.pid], ?_, ?_, ?_, ?_⟩
    · simp [h1]
    · simpa [is_waitpid] using h2
    · simpa [is_usleep] using h3
    · simpa [is_kill] using h4
  · simp only [hg, Bool.false_eq_true, if_false] at h
    by_cases hs : w1.t.state = TASK_STOPPED
    · simp only [hs, ne_eq, not_true_eq_false, if_false, Prod.mk.injEq] at h
      obtain ⟨rfl, rfl⟩ := h
      exact ⟨Or.inl rfl, rfl, by simp, by simp, evs, h1, h2, h3, h4⟩
    · simp only [ne_eq, hs, not_false_eq_true, if_true, Prod.mk.injEq] at h
      obtain ⟨rfl, rfl⟩ := h
      exact ⟨hterm, rfl, by simp [hs], by simp, evs, h1, h2, h3, h4⟩
theorem tsdfx_copy_stop_idle (k : Kernel) {s : State} {p : Nat} {t : copy_task}
    (hd : deref s p = some t) (hst : t.state ≠ TASK_RUNNING) :
    tsdfx_copy_stop k s p = some (s, -1) := by
  simp [tsdfx_copy_stop, hd, hst]

theorem tsdfx_copy_stop_running (k : Kernel) {s : State} {p : Nat} {t : copy_task}
    (hd : deref s p = some t) (hst : t.state = TASK_RUNNING) :
    ∃ st' evs r, terminal st' ∧
      tsdfx_copy_stop k s p = some
        (upd s p { t with state := st', pid := -1 } (s.copy_running - 1)
          (s.log ++ Event.jobs s.copy_len (s.copy_running - 1) :: evs), r) ∧
      (r = 0 ↔ st' = TASK_STOPPED) ∧ (r = 0 ∨ r = -1) ∧
      evs.countP is_waitpid ≤ 3 ∧ evs.countP is_usleep ≤ 3 ∧ evs.countP is_kill ≤ 6 ∧
      (∀ n c, Event.jobs n c ∉ evs) ∧ (no_exit k t.pid → st' = TASK_DEAD) := by
  have hd2 : deref (upd s p { t with state := TASK_STOPPING } (s.copy_running - 1)
      (s.log ++ [Event.jobs s.copy_len (s.copy_running - 1)])) p =
      some { t with state := TASK_STOPPING } := deref_upd_self hd _ _ _
  obtain ⟨s3, rest, st', evs, h1, h2, h3, h4, h5, h6, h7⟩ :=
    tsdfx_copy_stop_loop_spec k p sig _ _ hd2 rfl
  rw [rounds_sig] at h3 h4 h5
  rw [upd_upd] at h2
  have hd3 : deref s3 p = some { t with state := st' } := by
    rw [h2]; exact deref_upd_self hd _ _ _
  unfold tsdfx_copy_stop
  simp only [hd, hst, ne_eq, not_true_eq_false, if_false]
  have hs2' : ({ ({ store s p { t with state := TASK_STOPPING } with
        copy_running := (store s p { t with state := TASK_STOPPING }).copy_running - 1 } : State)
      with log := ({ store s p { t with state := TASK_STOPPING } with
        copy_running := (store s p { t with state := TASK_STOPPING }).copy_running - 1 } :
          State).log ++ [Event.jobs ({ store s p { t with state := TASK_STOPPING } with
        copy_running := (store s p { t with state := TASK_STOPPING }).copy_running - 1 } :
          State).copy_len ({ store s p { t with state := TASK_STOPPING } with
        copy_running := (store s p { t with state := TASK_STOPPING }).copy_running - 1 } :
          State).copy_running] } : State) =
      upd s p { t with state := TASK_STOPPING } (s.copy_running - 1)
        (s.log ++ [Event.jobs s.copy_len (s.copy_running - 1)]) := rfl
  rw [hs2', h1]
  simp only [hd3]
  rcases h7 with ⟨hg, hs⟩ | ⟨hg, hterm, hdead⟩
  · subst hs
    refine ⟨TASK_DEAD, evs ++ [Event.gave_up t.pid], -1, Or.inr (Or.inr rfl), ?_, by simp,
      by simp, ?_, ?_, ?_, ?_, fun _ => rfl⟩
    · simp only [hg, if_true, ne_eq, reduceCtorEq, not_false_eq_true]
      rw [h2]
      simp [upd, store, List.set_set]
    · simpa [is_waitpid] using h3
    · simpa [is_usleep] using h4
    · simpa [is_kill] using h5
    · intro n c; simp [h6]
  · refine ⟨st', evs, if st' = TASK_STOPPED then 0 else -1, hterm, ?_, ?_, ?_, h3, h4, h5, h6,
      hdead⟩
    · simp only [hg, Bool.false_eq_true, if_false]
      rw [h2]
      by_cases hs : st' = TASK_STOPPED <;> simp [hs, upd, store, List.set_set]
    · by_cases hs : st' = TASK_STOPPED <;> simp [hs]
    · by_cases hs : st' = TASK_STOPPED <;> simp [hs]

theorem tsdfx_copy_start_spec (k : Kernel) {s : State} {p : Nat} {t : copy_task}
    (hd : deref s p = some t) :
    (t.state = TASK_RUNNING ∧ tsdfx_copy_start k s p = some (s, 0)) ∨
    (t.state ≠ TASK_RUNNING ∧ t.state ≠ TASK_IDLE ∧ tsdfx_copy_start k s p = some (s, -1)) ∨
    (t.state = TASK_IDLE ∧ k.fork s.log = fork_result.error ∧
      tsdfx_copy_start k s p = some
        (upd s p { t with state := TASK_DEAD, pid := -1 } s.copy_running (s.log ++ [Event.fork]),
          -1)) ∨
    (t.state = TASK_IDLE ∧ ∃ pid, 0 < pid ∧
      tsdfx_copy_start k s p = some
        (upd s p { t with state := TASK_RUNNING, pid := pid } (s.copy_running + 1)
          (s.log ++ [Event.fork, Event.jobs s.copy_len (s.copy_running + 1)]), 0)) := by
  unfold tsdfx_copy_start
  simp only [hd]
  by_cases h1 : t.state = TASK_RUNNING
  · left; simp [h1]
  · by_cases h2 : t.state = TASK_IDLE
    · right; right
      simp only [h1, h2, ne_eq, not_true_eq_false, if_false, reduceCtorEq, true_and]
      cases hf : k.fork s.log with
      | error => left; simp [upd, store]
      | parent pid pos => right; exact ⟨pid, pos, by simp [upd, store]⟩
    · right; left
      simp [h1, h2]

theorem tsd_task_poll_alive {k : Kernel} {w : task_world} (hst : w.t.state = TASK_STOPPING)
    (h : (k.waitpid w.log w.t.pid).ret = 0) :
    tsd_task_poll k w = ({ w with log := w.log ++ [Event.waitpid w.t.pid] }, 0) := by
  simp [tsd_task_poll, hst, h]

theorem tsd_task_stop_alive {k : Kernel} {w : task_world} (hst : w.t.state = TASK_RUNNING)
    (h : ∀ log, (k.waitpid log w.t.pid).ret = 0) :
    tsd_task_stop k w =
      ({ t := { w.t with state := TASK_DEAD, pid := -1 },
         log := w.log ++
          [Event.waitpid w.t.pid, Event.kill w.t.pid SIGCONT, Event.kill w.t.pid SIGCONT,
            Event.usleep 100000,
           Event.waitpid w.t.pid, Event.kill w.t.pid SIGTERM, Event.kill w.t.pid SIGCONT,
            Event.usleep 100000,
           Event.waitpid w.t.pid, Event.kill w.t.pid SIGKILL, Event.kill w.t.pid SIGCONT,
            Event.usleep 100000,
           Event.gave_up w.t.pid] }, -1) := by
  have hp : ∀ l, tsd_task_poll k { t := { w.t with state := TASK_STOPPING }, log := l } =
      ({ t := { w.t with state := TASK_STOPPING }, log := l ++ [Event.waitpid w.t.pid] }, 0) :=
    fun l => tsd_task_poll_alive rfl (h l)
  simp [tsd_task_stop, hst, sig, tsd_task_stop_loop, hp, gave_up, SIGCONT, SIGTERM, SIGKILL]

theorem tsdfx_copy_poll_alive {k : Kernel} {s : State} {p : Nat} {t : copy_task}
    (hd : deref s p = some t) (hst : t.state = TASK_STOPPING)
    (h : (k.waitpid s.log t.pid).ret = 0) :
    tsdfx_copy_poll k s p =
      some (upd s p t s.copy_running (s.log ++ [Event.waitpid t.pid]), 0) := by
  have ht : tsdfx_task_poll k s.log t.pid t.state =
      ((t.state, s.log ++ [Event.waitpid t.pid]), 0) := by
    simp [tsdfx_task_poll, hst, h]
  unfold tsdfx_copy_poll
  simp only [hd, ht]
  have ht2 : ({ t with state := TASK_STOPPING } : copy_task) = t := by
    rw [← hst]
  simp [hst, ht2, upd, store]

theorem tsdfx_copy_stop_loop_alive {k : Kernel} {s : State} {p : Nat} {t : copy_task}
    (hd : deref s p = some t) (hst : t.state = TASK_STOPPING)
    (h : (k.waitpid s.log t.pid).ret = 0) (sg : Int) (rest : List Int) (h0 : 0 < sg) :
    tsdfx_copy_stop_loop k p (sg :: rest) s =
      tsdfx_copy_stop_loop k p rest (upd s p t s.copy_running
        (s.log ++ [Event.waitpid t.pid, Event.kill t.pid sg, Event.kill t.pid SIGCONT,
          Event.usleep 10000])) := by
  have h1 : ¬ sg < 0 := by omega
  have h2 : sg ≠ 0 := by omega
  rw [tsdfx_copy_stop_loop, if_neg h1, tsdfx_copy_poll_alive hd hst h]
  simp only [deref_upd_self hd, hst, ne_eq, not_true_eq_false, if_false, h2, not_false_eq_true,
    if_true]
  congr 1
  simp [upd]

theorem tsdfx_copy_stop_alive {k : Kernel} {s : State} {p : Nat} {t : copy_task}
    (hd : deref s p = some t) (hst : t.state = TASK_RUNNING)
    (h : ∀ log, (k.waitpid log t.pid).ret = 0) :
    tsdfx_copy_stop k s p = some
      (upd s p { t with state := TASK_DEAD, pid := -1 } (s.copy_running - 1)
        (s.log ++
          [Event.jobs s.copy_len (s.copy_running - 1),
           Event.waitpid t.pid, Event.kill t.pid SIGCONT, Event.kill t.pid SIGCONT,
            Event.usleep 10000,
           Event.waitpid t.pid, Event.kill t.pid SIGTERM, Event.kill t.pid SIGCONT,
            Event.usleep 10000,
           Event.waitpid t.pid, Event.kill t.pid SIGKILL, Event.kill t.pid SIGCONT,
            Event.usleep 10000,
           Event.gave_up t.pid]), -1) := by
  have hd' : ∀ l, deref (upd s p { t with state := TASK_STOPPING } (s.copy_running - 1) l) p =
      some { t with state := TASK_STOPPING } := fun l => deref_upd_self hd _ _ _
  unfold tsdfx_copy_stop
  simp only [hd, hst, ne_eq, not_true_eq_false, if_false]
  have hs2 : ({ ({ store s p { t with state := TASK_STOPPING } with
        copy_running := (store s p { t with state := TASK_STOPPING }).copy_running - 1 } : State)
      with log := ({ store s p { t with state := TASK_STOPPING } with
        copy_running := (store s p { t with state := TASK_STOPPING }).copy_running - 1 } :
          State).log ++ [Event.jobs ({ store s p { t with state := TASK_STOPPING } with
        copy_running := (store s p { t with state := TASK_STOPPING }).copy_running - 1 } :
          State).copy_len ({ store s p { t with state := TASK_STOPPING } with
        copy_running := (store s p { t with state := TASK_STOPPING }).copy_running - 1 } :
          State).copy_running] } : State) =
      upd s p { t with state := TASK_STOPPING } (s.copy_running - 1)
        (s.log ++ [Event.jobs s.copy_len (s.copy_running - 1)]) := rfl
  rw [hs2, sig,
    tsdfx_copy_stop_loop_alive (hd' _) rfl (h _) SIGCONT _ (by decide), upd_upd, upd_copy_running,
    upd_log,
    tsdfx_copy_stop_loop_alive (hd' _) rfl (h _) SIGTERM _ (by decide), upd_upd, upd_copy_running,
    upd_log,
    tsdfx_copy_stop_loop_alive (hd' _) rfl (h _) SIGKILL _ (by decide), upd_upd, upd_copy_running,
    upd_log]
  simp only [tsdfx_copy_stop_loop, Int.reduceNeg, Int.reduceLT, if_true, hd', gave_up,
    decide_True]
  simp [upd, store, List.set_set]
/-! ### Polls that never see a normal exit -/

theorem tsd_task_stop_loop_no_exit (k : Kernel) (P : Int)
    (hne : ∀ log, (k.waitpid log P).ret = 0 ∨ (k.waitpid log P).status.wifexited = false)
    (l : List Int) :
    ∀ w w' : task_world, ∀ rest', w.t.state = TASK_STOPPING → w.t.pid = P →
      tsd_task_stop_loop k l w = (w', rest') →
      w'.t.state = TASK_STOPPING ∨ w'.t.state = TASK_DEAD := by
  induction l with
  | nil =>
    intro w w' rest' h _ hl
    simp only [tsd_task_stop_loop, Prod.mk.injEq] at hl
    rw [← hl.1]; exact Or.inl h
  | cons sg rest ih =>
    intro w w' rest' h hP hl
    by_cases hsg : sg < 0
    · simp only [tsd_task_stop_loop, if_pos hsg, Prod.mk.injEq] at hl
      rw [← hl.1]; exact Or.inl h
    · rcases hp : tsd_task_poll k w with ⟨w1, ret⟩
      simp only [tsd_task_stop_loop, if_neg hsg, hp] at hl
      have h1 : (w1.t.state = TASK_STOPPING ∧ w1.t.pid = P) ∨ w1.t.state = TASK_DEAD := by
        have hq := hne w.log
        unfold tsd_task_poll at hp
        simp only [h, hP] at hp
        split_ifs at hp <;> obtain ⟨rfl, rfl⟩ := Prod.mk.inj hp <;> simp_all
      rcases h1 with ⟨hst, hpid⟩ | hd
      · simp only [hst, ne_eq, not_true_eq_false, if_false] at hl
        exact ih _ w' rest' (by exact hst) (by exact hpid) hl
      · simp only [hd, ne_eq, reduceCtorEq, not_false_eq_true, if_true, Prod.mk.injEq] at hl
        rw [← hl.1]; exact Or.inr hd

theorem tsd_task_stop_no_exit {k : Kernel} {w : task_world} (hw : w.t.state = TASK_RUNNING)
    (hne : ∀ log, (k.waitpid log w.t.pid).ret = 0 ∨
      (k.waitpid log w.t.pid).status.wifexited = false) :
    (tsd_task_stop k w).1.t.state = TASK_DEAD ∧ (tsd_task_stop k w).2 = -1 := by
  rcases hs : tsd_task_stop k w with ⟨w', r⟩
  have hspec := tsd_task_stop_spec hw hs
  unfold tsd_task_stop at hs
  simp only [hw, ne_eq, not_true_eq_false, if_false] at hs
  rcases hl : tsd_task_stop_loop k sig
    { w with t := { w.t with state := TASK_STOPPING } } with ⟨w1, rest⟩
  rw [hl] at hs
  have h1 := tsd_task_stop_loop_no_exit k w.t.pid hne sig
    { w with t := { w.t with state := TASK_STOPPING } } w1 rest rfl rfl hl
  have hdead : w'.t.state = TASK_DEAD := by
    dsimp only at hs
    by_cases hg : gave_up rest = true
    · simp only [hg, if_true, ne_eq, reduceCtorEq, not_false_eq_true, Prod.mk.injEq] at hs
      rw [← hs.1]
    · simp only [hg, Bool.false_eq_true, if_false] at hs
      have h2 : w'.t.state = w1.t.state := by
        split_ifs at hs <;> (simp only [Prod.mk.injEq] at hs; rw [← hs.1])
      rcases h1 with h1 | h1
      · rw [← h2] at h1
        exact absurd h1 (terminal_ne_stopping hspec.1)
      · rw [h2, h1]
  refine ⟨hdead, ?_⟩
  rcases hspec.2.2.2.1 with h0 | h0
  · have := hspec.2.2.1.mp h0
    rw [hdead] at this
    exact absurd this (by simp)
  · exact h0

/-! ### Claims about the process controller -/

/-- C6 (as amended): for a RUNNING task whose child is alive at every poll made
before SIGKILL is sent and is found terminated by the signal at any poll
after it, stop (`tsd_task_stop` and `tsdfx_copy_stop`) returns within the
three escalation rounds with the task in state DEAD, pid -1, and reports
failure. -/
theorem C6_killed_child_ends_dead (k : Kernel) :
    (∀ w : task_world, w.t.state = TASK_RUNNING →
      (∀ log, Event.kill w.t.pid SIGKILL ∉ log → (k.waitpid log w.t.pid).ret = 0) →
      (∀ log, Event.kill w.t.pid SIGKILL ∈ log →
        (k.waitpid log w.t.pid).ret = w.t.pid ∧
        (k.waitpid log w.t.pid).status.wifexited = false) →
      (tsd_task_stop k w).1.t.state = TASK_DEAD ∧ (tsd_task_stop k w).1.t.pid = -1 ∧
      (tsd_task_stop k w).2 = -1 ∧
      ∃ evs, (tsd_task_stop k w).1.log = w.log ++ evs ∧ evs.countP is_waitpid ≤ 3 ∧
        evs.countP is_usleep ≤ 3) ∧
    (∀ (s : State) (p : Nat) (t : copy_task), deref s p = some t → t.state = TASK_RUNNING →
      (∀ log, Event.kill t.pid SIGKILL ∉ log → (k.waitpid log t.pid).ret = 0) →
      (∀ log, Event.kill t.pid SIGKILL ∈ log →
        (k.waitpid log t.pid).ret = t.pid ∧ (k.waitpid log t.pid).status.wifexited = false) →
      ∃ s' evs, tsdfx_copy_stop k s p = some (s', -1) ∧
        deref s' p = some { t with state := TASK_DEAD, pid := -1 } ∧
        s'.log = s.log ++ evs ∧ evs.countP is_waitpid ≤ 3 ∧ evs.countP is_usleep ≤ 3) := by
  constructor
  · intro w hw h1 h2
    have hne : ∀ log, (k.waitpid log w.t.pid).ret = 0 ∨
        (k.waitpid log w.t.pid).status.wifexited = false := by
      intro log
      by_cases hm : Event.kill w.t.pid SIGKILL ∈ log
      · exact Or.inr (h2 log hm).2
      · exact Or.inl (h1 log hm)
    obtain ⟨hd, hr⟩ := tsd_task_stop_no_exit hw hne
    rcases hs : tsd_task_stop k w with ⟨w', r⟩
    obtain ⟨-, hpid, -, -, evs, hlog, hc1, hc2, -⟩ := tsd_task_stop_spec hw hs
    rw [hs] at hd hr
    exact ⟨hd, hpid, hr, evs, hlog, hc1, hc2⟩
  · intro s p t hd hst h1 h2
    have hne : no_exit k t.pid := by
      intro log
      by_cases hm : Event.kill t.pid SIGKILL ∈ log
      · exact Or.inr (h2 log hm).2
      · exact Or.inl (h1 log hm)
    obtain ⟨st', evs, r, -, hs, hr, hr', hc1, hc2, -, -, hdead⟩ :=
      tsdfx_copy_stop_running k hd hst
    have hst' := hdead hne
    subst hst'
    have hr1 : r = -1 := by
      rcases hr' with h0 | h0
      · exact absurd (hr.mp h0) (by simp)
      · exact h0
    subst hr1
    refine ⟨_, Event.jobs s.copy_len (s.copy_running - 1) :: evs, hs, deref_upd_self hd _ _ _,
      rfl, ?_, ?_⟩
    · simpa [is_waitpid] using hc1
    · simpa [is_usleep] using hc2

/-- Witness of C6 (as amended): a child that only SIGKILL ends, process id 7. -/
theorem C6_killed_child_ends_dead_witness :
    (tsd_task_stop kernel_sigkill world_running).1.t.state = TASK_DEAD ∧
    (tsd_task_stop kernel_sigkill world_running).1.t.pid = -1 ∧
    (tsd_task_stop kernel_sigkill world_running).2 = -1 ∧
    (∃ evs, (tsd_task_stop kernel_sigkill world_running).1.log = world_running.log ++ evs ∧
      evs.countP is_waitpid ≤ 3 ∧ evs.countP is_usleep ≤ 3) ∧
    ∃ s' evs, tsdfx_copy_stop kernel_sigkill state_running 0 = some (s', -1) ∧
      deref s' 0 = some { task_x TASK_RUNNING 0 7 with state := TASK_DEAD, pid := -1 } ∧
      s'.log = state_running.log ++ evs ∧ evs.countP is_waitpid ≤ 3 ∧
      evs.countP is_usleep ≤ 3 :=
  have h := C6_killed_child_ends_dead kernel_sigkill
  have h1 := h.1 world_running rfl
    (fun log (h : Event.kill 7 SIGKILL ∉ log) => by simp [kernel_sigkill, world_running, h])
    (fun log (h : Event.kill 7 SIGKILL ∈ log) => by simp [kernel_sigkill, world_running, h])
  have h2 := h.2 state_running 0 (task_x TASK_RUNNING 0 7) rfl rfl
    (fun log (h : Event.kill 7 SIGKILL ∉ log) => by simp [kernel_sigkill, task_x, h])
    (fun log (h : Event.kill 7 SIGKILL ∈ log) => by simp [kernel_sigkill, task_x, h])
  ⟨h1.1, h1.2.1, h1.2.2.1, h1.2.2.2, h2⟩

/-- C6 (as stated) fails: the child with process id 7 is alive at every poll
made before SIGKILL is sent and is terminated once SIGKILL has been sent, yet
both stop operations end in state DEAD and report failure, not STOPPED and
success. -/
theorem C6_counterexample :
    world_running.t.state = TASK_RUNNING ∧
    deref state_running 0 = some (task_x TASK_RUNNING 0 7) ∧
    (∀ log, Event.kill 7 SIGKILL ∉ log → (kernel_sigkill.waitpid log 7).ret = 0) ∧
    (∀ log, Event.kill 7 SIGKILL ∈ log → (kernel_sigkill.waitpid log 7).ret = 7) ∧
    (tsd_task_stop kernel_sigkill world_running).1.t.state = TASK_DEAD ∧
    (tsd_task_stop kernel_sigkill world_running).2 = -1 ∧
    (tsdfx_copy_stop kernel_sigkill state_running 0).map
      (fun r => ((deref r.1 0).map (fun t => t.state), r.2)) = some (some TASK_DEAD, -1) := by
  refine ⟨rfl, rfl, ?_, ?_, ?_, ?_, ?_⟩
  · intro log h; simp [kernel_sigkill, h]
  · intro log h; simp [kernel_sigkill, h]
  · decide
  · decide
  · decide

/-- C7: for every behaviour of the child, stop on a RUNNING task
(`tsd_task_stop`, `tsdfx_copy_stop`) returns after at most three polls, three
sleeps and six signals; and when every poll reports the child alive it
performs exactly the three rounds, leaves the task in state DEAD with pid -1
and returns failure. -/
theorem C7_escalation_bounded (k : Kernel) :
    (∀ w : task_world, w.t.state = TASK_RUNNING →
      (∃ evs, (tsd_task_stop k w).1.log = w.log ++ evs ∧ evs.countP is_waitpid ≤ 3 ∧
        evs.countP is_usleep ≤ 3 ∧ evs.countP is_kill ≤ 6) ∧
      ((∀ log, (k.waitpid log w.t.pid).ret = 0) →
        tsd_task_stop k w =
          ({ t := { w.t with state := TASK_DEAD, pid := -1 },
             log := w.log ++
              [Event.waitpid w.t.pid, Event.kill w.t.pid SIGCONT, Event.kill w.t.pid SIGCONT,
                Event.usleep 100000,
               Event.waitpid w.t.pid, Event.kill w.t.pid SIGTERM, Event.kill w.t.pid SIGCONT,
                Event.usleep 100000,
               Event.waitpid w.t.pid, Event.kill w.t.pid SIGKILL, Event.kill w.t.pid SIGCONT,
                Event.usleep 100000,
               Event.gave_up w.t.pid] }, -1))) ∧
    (∀ (s : State) (p : Nat) (t : copy_task), deref s p = some t → t.state = TASK_RUNNING →
      (∃ s' r evs, tsdfx_copy_stop k s p = some (s', r) ∧ s'.log = s.log ++ evs ∧
        evs.countP is_waitpid ≤ 3 ∧ evs.countP is_usleep ≤ 3 ∧ evs.countP is_kill ≤ 6) ∧
      ((∀ log, (k.waitpid log t.pid).ret = 0) →
        tsdfx_copy_stop k s p = some
          (upd s p { t with state := TASK_DEAD, pid := -1 } (s.copy_running - 1)
            (s.log ++
              [Event.jobs s.copy_len (s.copy_running - 1),
               Event.waitpid t.pid, Event.kill t.pid SIGCONT, Event.kill t.pid SIGCONT,
                Event.usleep 10000,
               Event.waitpid t.pid, Event.kill t.pid SIGTERM, Event.kill t.pid SIGCONT,
                Event.usleep 10000,
               Event.waitpid t.pid, Event.kill t.pid SIGKILL, Event.kill t.pid SIGCONT,
                Event.usleep 10000,
               Event.gave_up t.pid]), -1))) := by
  constructor
  · intro w hw
    refine ⟨?_, tsd_task_stop_alive hw⟩
    rcases hs : tsd_task_stop k w with ⟨w', r⟩
    obtain ⟨-, -, -, -, evs, hlog, hc1, hc2, hc3⟩ := tsd_task_stop_spec hw hs
    exact ⟨evs, hlog, hc1, hc2, hc3⟩
  · intro s p t hd hst
    refine ⟨?_, tsdfx_copy_stop_alive hd hst⟩
    obtain ⟨st', evs, r, -, hs, -, -, hc1, hc2, hc3, -, -⟩ := tsdfx_copy_stop_running k hd hst
    refine ⟨_, r, Event.jobs s.copy_len (s.copy_running - 1) :: evs, hs, rfl, ?_, ?_, ?_⟩
    · simpa [is_waitpid] using hc1
    · simpa [is_usleep] using hc2
    · simpa [is_kill] using hc3

/-- Witness of C7: a child (process id 7) that is alive at every poll. -/
theorem C7_escalation_bounded_witness :
    (tsd_task_stop kernel_alive world_running).1.t.state = TASK_DEAD ∧
    (tsd_task_stop kernel_alive world_running).1.log.countP is_waitpid = 3 ∧
    (tsdfx_copy_stop kernel_alive state_running 0).map (fun r => r.2) = some (-1) := by
  have h := C7_escalation_bounded kernel_alive
  have h1 := (h.1 world_running rfl).2 (fun _ => rfl)
  have h2 := (h.2 state_running 0 (task_x TASK_RUNNING 0 7) rfl rfl).2 (fun _ => rfl)
  rw [h1, h2]
  exact ⟨rfl, by decide, rfl⟩

/-- C8: stop (`tsd_task_stop`, `tsdfx_copy_stop`) returns success exactly when
the task was RUNNING on entry and is STOPPED on return; from a RUNNING entry
the state on return is STOPPED, FAILED or DEAD and the pid is -1; from any
other entry stop returns failure and changes nothing. -/
theorem C8_stop_result (k : Kernel) :
    (∀ w : task_world,
      ((tsd_task_stop k w).2 = 0 ↔
        (w.t.state = TASK_RUNNING ∧ (tsd_task_stop k w).1.t.state = TASK_STOPPED)) ∧
      ((tsd_task_stop k w).2 = 0 ∨ (tsd_task_stop k w).2 = -1) ∧
      (w.t.state = TASK_RUNNING →
        terminal (tsd_task_stop k w).1.t.state ∧ (tsd_task_stop k w).1.t.pid = -1) ∧
      (w.t.state ≠ TASK_RUNNING → tsd_task_stop k w = (w, -1))) ∧
    (∀ (s : State) (p : Nat) (t : copy_task), deref s p = some t →
      ∃ s' r t', tsdfx_copy_stop k s p = some (s', r) ∧ deref s' p = some t' ∧
        (r = 0 ↔ (t.state = TASK_RUNNING ∧ t'.state = TASK_STOPPED)) ∧
        (r = 0 ∨ r = -1) ∧
        (t.state = TASK_RUNNING → terminal t'.state ∧ t'.pid = -1) ∧
        (t.state ≠ TASK_RUNNING → s' = s ∧ r = -1)) := by
  constructor
  · intro w
    by_cases hw : w.t.state = TASK_RUNNING
    · rcases hs : tsd_task_stop k w with ⟨w', r⟩
      obtain ⟨hterm, hpid, hr, hr', -⟩ := tsd_task_stop_spec hw hs
      exact ⟨by simp [hw, hr], hr', fun _ => ⟨hterm, hpid⟩, fun h => absurd hw h⟩
    · have hs : tsd_task_stop k w = (w, -1) := by simp [tsd_task_stop, hw]
      rw [hs]
      exact ⟨by simp [hw], by simp, fun h => absurd h hw, fun _ => rfl⟩
  · intro s p t hd
    by_cases hst : t.state = TASK_RUNNING
    · obtain ⟨st', evs, r, hterm, hs, hr, hr', -⟩ := tsdfx_copy_stop_running k hd hst
      exact ⟨_, r, _, hs, deref_upd_self hd _ _ _, by simp [hst, hr], hr',
        fun _ => ⟨hterm, rfl⟩, fun h => absurd hst h⟩
    · exact ⟨s, -1, t, tsdfx_copy_stop_idle k hd hst, hd, by simp [hst], by simp,
        fun h => absurd h hst, fun _ => ⟨rfl, rfl⟩⟩

/-- Witness of C8: a running copy task whose child has exited with code 0 is
stopped with success, and stopping an idle task fails and changes nothing. -/
theorem C8_stop_result_witness :
    (∃ s' r t', tsdfx_copy_stop kernel_exit0 state_running 0 = some (s', r) ∧
      deref s' 0 = some t' ∧
      (r = 0 ↔ ((task_x TASK_RUNNING 0 7).state = TASK_RUNNING ∧ t'.state = TASK_STOPPED)) ∧
      (r = 0 ∨ r = -1) ∧
      ((task_x TASK_RUNNING 0 7).state = TASK_RUNNING → terminal t'.state ∧ t'.pid = -1) ∧
      ((task_x TASK_RUNNING 0 7).state ≠ TASK_RUNNING → s' = state_running ∧ r = -1)) ∧
    tsd_task_stop kernel_exit0 { world_running with t := { world_running.t with
      state := TASK_IDLE } } =
      ({ world_running with t := { world_running.t with state := TASK_IDLE } }, -1) :=
  ⟨(C8_stop_result kernel_exit0).2 state_running 0 (task_x TASK_RUNNING 0 7) rfl,
    ((C8_stop_result kernel_exit0).1 _).2.2.2 (by decide)⟩
/-- C9: `tsd_task_poll` does nothing and returns -1 unless the state is RUNNING
or STOPPING; otherwise, with `r` the result of the non-blocking wait on the
task's pid: `r < 0` gives state DEAD and failure; `r = 0` returns 0 and leaves
state and pid; `r = pid` (a child reaped, `r > 0`) returns 0, sets the pid to
-1 and the state to STOPPED (exit code 0), FAILED (other exit code) or DEAD
(no normal exit). -/
theorem C9_poll_classification (k : Kernel) (w : task_world) :
    (w.t.state ≠ TASK_RUNNING ∧ w.t.state ≠ TASK_STOPPING → tsd_task_poll k w = (w, -1)) ∧
    (w.t.state = TASK_RUNNING ∨ w.t.state = TASK_STOPPING →
      ((k.waitpid w.log w.t.pid).ret < 0 →
        (tsd_task_poll k w).1.t.state = TASK_DEAD ∧ (tsd_task_poll k w).2 = -1) ∧
      ((k.waitpid w.log w.t.pid).ret = 0 →
        (tsd_task_poll k w).2 = 0 ∧ (tsd_task_poll k w).1.t.state = w.t.state ∧
        (tsd_task_poll k w).1.t.pid = w.t.pid) ∧
      (0 < (k.waitpid w.log w.t.pid).ret → (k.waitpid w.log w.t.pid).ret = w.t.pid →
        (tsd_task_poll k w).2 = 0 ∧ (tsd_task_poll k w).1.t.pid = -1 ∧
        (tsd_task_poll k w).1.t.state =
          (if (k.waitpid w.log w.t.pid).status.wifexited = true then
            (if (k.waitpid w.log w.t.pid).status.wexitstatus = 0 then TASK_STOPPED
             else TASK_FAILED)
           else TASK_DEAD))) := by
  refine ⟨fun h => by simp [tsd_task_poll, h], fun h => ?_⟩
  have hn : ¬ (w.t.state ≠ TASK_RUNNING ∧ w.t.state ≠ TASK_STOPPING) := by
    rcases h with h | h <;> simp [h]
  unfold tsd_task_poll
  rw [if_neg hn]
  generalize k.waitpid w.log w.t.pid = r
  refine ⟨fun hr => ?_, fun hr => ?_, fun hpos hr => ?_⟩
  · simp [hr]
  · simp [hr]
  · have h1 : ¬ r.ret < 0 := by omega
    have h2 : ¬ r.ret = 0 := by omega
    simp only [if_neg h1, if_neg h2, if_pos hr]
    cases r.status.wifexited <;> simp

/-- Witness of C9: a running task whose child (process id 7) has exited with
code 0 becomes STOPPED with pid -1, and an idle task is left alone. -/
theorem C9_poll_classification_witness :
    ((tsd_task_poll kernel_exit0 world_running).2 = 0 ∧
      (tsd_task_poll kernel_exit0 world_running).1.t.pid = -1 ∧
      (tsd_task_poll kernel_exit0 world_running).1.t.state = TASK_STOPPED) ∧
    tsd_task_poll kernel_exit0 { world_running with t := { world_running.t with
      state := TASK_IDLE } } =
      ({ world_running with t := { world_running.t with state := TASK_IDLE } }, -1) :=
  ⟨((C9_poll_classification kernel_exit0 world_running).2 (Or.inl rfl)).2.2
      (by decide) rfl,
    (C9_poll_classification kernel_exit0 _).1 ⟨by decide, by decide⟩⟩

/-! ### Claims refuted by evaluation -/

/-- C10 (failing input): removing the first of two tasks from a four-slot
registry succeeds, shifts and renumbers the second task and sets the length
to 1, but the vacated tail slot (physical position 1) still holds the pointer
of the shifted task: the slot cleared is position 2. -/
theorem C10_remove_leaves_tail_slot :
    tsdfx_copy_remove state_two_idle 0 = some
      ({ heap := [some (task_x TASK_IDLE 0 (-1)), some (task_y TASK_IDLE 0 (-1))],
         copy_tasks := [some 1, some 1, none, none],
         copy_len := 1, copy_running := 0, tsdfx_copy_max_tasks := 8,
         log := [Event.jobs 1 0] }, 0) ∧
    (tsdfx_copy_remove state_two_idle 0).map (fun r => slot r.1 1) = some (some (some 1)) := by
  decide

/-- C5 (failing input): with two idle tasks and a child that has exited when
it is first polled, one tick starts, polls and deletes the first task and
returns without visiting the second one, which is still in the registry, in
state IDLE: a single `fork` was made. -/
theorem C5_tick_skips_task_after_deleted :
    tsdfx_copy_iter kernel_exit0 state_two_idle = some
      { heap := [none, some (task_y TASK_IDLE 0 (-1))],
        copy_tasks := [some 1, some 1, none, none],
        copy_len := 1, copy_running := 0, tsdfx_copy_max_tasks := 8,
        log := [Event.fork, Event.jobs 2 1, Event.waitpid 100, Event.jobs 2 0,
          Event.jobs 1 0] } ∧
    (tsdfx_copy_iter kernel_exit0 state_two_idle).map (fun s => task_at s 0) =
      some (some (task_y TASK_IDLE 0 (-1))) := by
  decide

/-! ### Lists -/

theorem getElem?_shift {α : Type} (a : List α) (i c j : Nat) (h : i + 1 + c ≤ a.length) :
    (a.take i ++ (a.drop (i + 1)).take c ++ a.drop (i + c))[j]? =
      if j < i then a[j]? else if j < i + c then a[j + 1]? else a[j]? := by
  have hl1 : (a.take i).length = i := by simp; omega
  have hl2 : ((a.drop (i + 1)).take c).length = c := by simp; omega
  by_cases h1 : j < i
  · rw [if_pos h1, List.append_assoc, List.getElem?_append_left (by omega),
      List.getElem?_take_of_lt h1]
  · rw [if_neg h1]
    by_cases h2 : j < i + c
    · rw [if_pos h2, List.getElem?_append_left (by simp; omega),
        List.getElem?_append_right (by omega), hl1, List.getElem?_take_of_lt (by omega),
        List.getElem?_drop]
      congr 1; omega
    · rw [if_neg h2, List.getElem?_append_right (by simp; omega), List.getElem?_drop]
      congr 1
      simp only [List.length_append, hl1, hl2]
      omega

theorem countP_range_congr (f g : Nat → Bool) (n : Nat) (h : ∀ j, j < n → f j = g j) :
    (List.range n).countP f = (List.range n).countP g := by
  apply List.countP_congr
  intro x hx
  rw [List.mem_range] at hx
  rw [h x hx]

theorem countP_range_update (f g : Nat → Bool) (i0 n : Nat) (h0 : i0 < n)
    (h : ∀ j, j < n → j ≠ i0 → g j = f j) :
    (List.range n).countP g + (if f i0 then 1 else 0) =
      (List.range n).countP f + (if g i0 then 1 else 0) := by
  induction n with
  | zero => omega
  | succ n ih =>
    rw [List.range_succ, List.countP_append, List.countP_append]
    by_cases hi : i0 = n
    · subst hi
      rw [countP_range_congr g f i0 (fun j hj => h j (by omega) (by omega))]
      simp only [List.countP_cons, List.countP_nil]
      omega
    · have := ih (by omega) (fun j hj hne => h j (by omega) hne)
      have hn : g n = f n := h n (by omega) (fun h' => hi h'.symm)
      simp only [List.countP_cons, List.countP_nil, hn]
      omega

theorem countP_range_skip (f : Nat → Bool) (i0 n : Nat) (h0 : i0 < n) :
    (List.range n).countP f =
      (List.range (n - 1)).countP (fun j => if j < i0 then f j else f (j + 1)) +
        (if f i0 then 1 else 0) := by
  induction n with
  | zero => omega
  | succ n ih =>
    rw [List.range_succ, List.countP_append]
    by_cases hi : i0 = n
    · subst hi
      simp only [Nat.add_sub_cancel, List.countP_cons, List.countP_nil]
      rw [countP_range_congr (fun j => if j < i0 then f j else f (j + 1)) f i0
        (fun j hj => by simp [hj])]
      omega
    · have := ih (by omega)
      obtain ⟨m, rfl⟩ : ∃ m, n = m + 1 := ⟨n - 1, by omega⟩
      simp only [Nat.add_sub_cancel] at this ⊢
      rw [this, List.range_succ m, List.countP_append]
      have hm : ¬ m < i0 := by omega
      simp only [List.countP_cons, List.countP_nil, hm, if_false]
      omega
/-! ### The task registry -/

theorem slot_nat (s : State) (i : Nat) : slot s (i : Int) = s.copy_tasks[i]? := by
  simp [slot]

theorem store_eq_upd (s : State) (p : Nat) (t : copy_task) :
    store s p t = upd s p t s.copy_running s.log := rfl

theorem WF.inj {s : State} (h : WF s) {i j : Nat} {p : Nat} (hi : (i : Int) < s.copy_len)
    (hj : (j : Int) < s.copy_len) (h1 : s.copy_tasks[i]? = some (some p))
    (h2 : s.copy_tasks[j]? = some (some p)) : i = j := by
  obtain ⟨p1, t1, e1, d1, x1⟩ := h.live i hi
  obtain ⟨p2, t2, e2, d2, x2⟩ := h.live j hj
  rw [h1] at e1
  rw [h2] at e2
  simp only [Option.some.injEq] at e1 e2
  subst e1 e2
  rw [d1] at d2
  simp only [Option.some.injEq] at d2
  subst d2
  rw [x1] at x2
  exact_mod_cast x2

theorem renumber_spec : ∀ (m i : Nat) (s : State),
    (∀ j, i ≤ j → j < i + m → ∃ p t, s.copy_tasks[j]? = some (some p) ∧ deref s p = some t) →
    (∀ j j' p, i ≤ j → j < j' → j' < i + m → s.copy_tasks[j]? = some (some p) →
      s.copy_tasks[j']? ≠ some (some p)) →
    ∃ s', renumber m (i : Int) s = some s' ∧ s'.copy_tasks = s.copy_tasks ∧
      s'.copy_len = s.copy_len ∧ s'.copy_running = s.copy_running ∧
      s'.tsdfx_copy_max_tasks = s.tsdfx_copy_max_tasks ∧ s'.log = s.log ∧
      (∀ q, (∀ j, i ≤ j → j < i + m → s.copy_tasks[j]? ≠ some (some q)) →
        deref s' q = deref s q) ∧
      (∀ j q t, i ≤ j → j < i + m → s.copy_tasks[j]? = some (some q) → deref s q = some t →
        deref s' q = some { t with index := j }) := by
  intro m
  induction m with
  | zero =>
    intro i s _ _
    exact ⟨s, rfl, rfl, rfl, rfl, rfl, rfl, fun _ _ => rfl, fun j q t h1 h2 => by omega⟩
  | succ m ih =>
    intro i s hv hinj
    obtain ⟨p, t, hp, hd⟩ := hv i (by omega) (by omega)
    have hv1 : ∀ j, i + 1 ≤ j → j < i + 1 + m →
        ∃ p' t', (store s p { t with index := (i : Int) }).copy_tasks[j]? = some (some p') ∧
          deref (store s p { t with index := (i : Int) }) p' = some t' := by
      intro j h1 h2
      obtain ⟨p', t', hp', hd'⟩ := hv j (by omega) (by omega)
      refine ⟨p', t', hp', ?_⟩
      have hne : p' ≠ p := by
        intro he
        subst he
        exact hinj i j p' (by omega) (by omega) (by omega) hp hp'
      rw [store_eq_upd, deref_upd_ne hne]
      exact hd'
    obtain ⟨s', hr, h1, h2, h3, h4, h5, h6, h7⟩ := ih (i + 1) _ hv1
      (fun j j' q a b c => hinj j j' q (by omega) b (by omega))
    refine ⟨s', ?_, h1, h2, h3, h4, h5, ?_, ?_⟩
    · rw [renumber, slot_nat, hp]
      simp only [hd]
      have : ((i : Int) + 1) = ((i + 1 : Nat) : Int) := by push_cast; rfl
      rw [this]
      exact hr
    · intro q hq
      have hne : q ≠ p := by
        intro he
        subst he
        exact hq i (by omega) (by omega) hp
      rw [h6 q (fun j a b => hq j (by omega) (by omega)), store_eq_upd, deref_upd_ne hne]
    · intro j q t' hj1 hj2 hq hdq
      by_cases hji : j = i
      · subst hji
        rw [hp] at hq
        simp only [Option.some.injEq] at hq
        subst hq
        rw [hd] at hdq
        simp only [Option.some.injEq] at hdq
        subst hdq
        rw [h6 p (fun j' a b => hinj j j' p (by omega) (by omega) (by omega) hp),
          store_eq_upd, deref_upd_self hd]
      · have hne : q ≠ p := by
          intro he
          subst he
          exact hinj i j q (by omega) (by omega) (by omega) hp hq
        refine h7 j q t' (by omega) (by omega) hq ?_
        rw [store_eq_upd, deref_upd_ne hne]
        exact hdq
theorem memmove_slots_shift (a : List (Option Nat)) (i c : Nat) (h : i + 1 + c ≤ a.length) :
    memmove_slots a (i : Int) ((i : Int) + 1) (c : Int) =
      some (a.take i ++ (a.drop (i + 1)).take c ++ a.drop (i + c)) := by
  unfold memmove_slots
  have h1 : (0 : Int) ≤ i ∧ (0 : Int) ≤ (i : Int) + 1 ∧ (0 : Int) ≤ c ∧
      (i : Int) + 1 + c ≤ a.length ∧ (i : Int) + c ≤ a.length := by
    refine ⟨by omega, by omega, by omega, by omega, by omega⟩
  rw [if_pos h1]
  have e1 : ((i : Int) + 1).toNat = i + 1 := by omega
  have e2 : ((i : Int) + c).toNat = i + c := by omega
  simp only [Int.toNat_ofNat, e1, e2]

theorem remove_slots {s : State} {i0 n : Nat} (hn : s.copy_len = (n : Int)) (hi : i0 < n)
    (hcap : n < s.copy_tasks.length) :
    ∃ a1 a2, (if (i0 : Int) + 1 < s.copy_len then
          memmove_slots s.copy_tasks i0 ((i0 : Int) + 1) (s.copy_len - ((i0 : Int) + 1))
        else some s.copy_tasks) = some a1 ∧ write_slot a1 s.copy_len none = some a2 ∧
      a2.length = s.copy_tasks.length ∧
      ∀ j, a2[j]? = if j = n then some none else if j < i0 then s.copy_tasks[j]?
        else if j < n - 1 then s.copy_tasks[j + 1]? else s.copy_tasks[j]? := by
  have key : ∃ a1, (if (i0 : Int) + 1 < s.copy_len then
          memmove_slots s.copy_tasks i0 ((i0 : Int) + 1) (s.copy_len - ((i0 : Int) + 1))
        else some s.copy_tasks) = some a1 ∧ a1.length = s.copy_tasks.length ∧
      ∀ j, a1[j]? = if j < i0 then s.copy_tasks[j]?
        else if j < n - 1 then s.copy_tasks[j + 1]? else s.copy_tasks[j]? := by
    by_cases hlt : (i0 : Int) + 1 < s.copy_len
    · rw [if_pos hlt]
      have e : s.copy_len - ((i0 : Int) + 1) = ((n - 1 - i0 : Nat) : Int) := by omega
      rw [e, memmove_slots_shift _ _ _ (by omega)]
      refine ⟨_, rfl, ?_, ?_⟩
      · simp only [List.length_append, List.length_take, List.length_drop]
        omega
      · intro j
        rw [getElem?_shift _ _ _ _ (by omega)]
        have : i0 + (n - 1 - i0) = n - 1 := by omega
        rw [this]
    · rw [if_neg hlt]
      refine ⟨_, rfl, rfl, ?_⟩
      intro j
      have : ¬ j < n - 1 ∨ j < i0 := by omega
      rcases this with h | h
      · simp [h]
      · simp [h]
  obtain ⟨a1, h1, h2, h3⟩ := key
  refine ⟨a1, a1.set n none, h1, ?_, by simp [h2], ?_⟩
  · simp only [write_slot, hn]
    have : (0 : Int) ≤ n ∧ ((n : Int)).toNat < a1.length := by
      refine ⟨by omega, ?_⟩
      rw [Int.toNat_ofNat, h2]; exact hcap
    rw [if_pos this, Int.toNat_ofNat]
  · intro j
    by_cases hj : j = n
    · subst hj
      rw [if_pos rfl, List.getElem?_set_self (by omega)]
    · rw [if_neg hj, List.getElem?_set_ne (fun h => hj h.symm), h3]

theorem WF.index_eq {s : State} (h : WF s) {i : Nat} {p : Nat} {t : copy_task}
    (hi : (i : Int) < s.copy_len) (hp : s.copy_tasks[i]? = some (some p))
    (hd : deref s p = some t) : t.index = i := by
  obtain ⟨p1, t1, e1, d1, x1⟩ := h.live i hi
  rw [hp] at e1
  simp only [Option.some.injEq] at e1
  subst e1
  rw [hd] at d1
  simp only [Option.some.injEq] at d1
  subst d1
  exact x1

theorem tsdfx_copy_remove_spec {s : State} (h : WF s) {i0 n p : Nat} {t : copy_task}
    (hn : s.copy_len = (n : Int)) (hi : i0 < n) (hcap : n < s.copy_tasks.length)
    (hp : s.copy_tasks[i0]? = some (some p)) (hd : deref s p = some t) :
    ∃ s', tsdfx_copy_remove s p = some (s', 0) ∧ s'.copy_len = (n : Int) - 1 ∧
      s'.copy_running = s.copy_running ∧
      s'.tsdfx_copy_max_tasks = s.tsdfx_copy_max_tasks ∧
      s'.log = s.log ++ [Event.jobs ((n : Int) - 1) s.copy_running] ∧
      s'.copy_tasks.length = s.copy_tasks.length ∧
      (∀ j, s'.copy_tasks[j]? = if j = n then some none else if j < i0 then s.copy_tasks[j]?
        else if j < n - 1 then s.copy_tasks[j + 1]? else s.copy_tasks[j]?) ∧
      (∀ q, (∀ j, i0 < j → j < n → s.copy_tasks[j]? ≠ some (some q)) →
        deref s' q = deref s q) ∧
      (∀ j q tq, i0 < j → j < n → s.copy_tasks[j]? = some (some q) → deref s q = some tq →
        deref s' q = some { tq with index := ((j - 1 : Nat) : Int) }) := by
  have hidx : t.index = (i0 : Int) := h.index_eq (by omega) hp hd
  obtain ⟨a1, a2, hm, hw, hlen, hget⟩ := @remove_slots s i0 n hn hi hcap
  have hv : ∀ j, i0 ≤ j → j < i0 + (n - 1 - i0) →
      ∃ p' t', a2[j]? = some (some p') ∧ deref s p' = some t' := by
    intro j h1 h2
    obtain ⟨p', t', e1, e2, -⟩ := h.live (j + 1) (by omega)
    refine ⟨p', t', ?_, e2⟩
    rw [hget, if_neg (by omega), if_neg (by omega), if_pos (by omega), e1]
  have hinj : ∀ j j' q, i0 ≤ j → j < j' → j' < i0 + (n - 1 - i0) → a2[j]? = some (some q) →
      a2[j']? ≠ some (some q) := by
    intro j j' q h1 h2 h3 e1 e2
    rw [hget, if_neg (by omega), if_neg (by omega), if_pos (by omega)] at e1 e2
    have := h.inj (by omega) (by omega) e1 e2
    omega
  obtain ⟨s', hr, r1, r2, r3, r4, r5, r6, r7⟩ := renumber_spec (n - 1 - i0) i0
    { s with copy_tasks := a2, copy_len := s.copy_len - 1,
             log := s.log ++ [Event.jobs (s.copy_len - 1) s.copy_running] } hv hinj
  refine ⟨s', ?_, ?_, r3, r4, ?_, ?_, ?_, ?_, ?_⟩
  · unfold tsdfx_copy_remove
    simp only [hd, hidx, slot_nat, hp, ne_eq, not_true_eq_false, if_false, hm, hw]
    have e : (s.copy_len - 1 - (i0 : Int)).toNat = n - 1 - i0 := by omega
    rw [e, hr]
  · rw [r2]; simp [hn]
  · rw [r5]; simp [hn]
  · rw [r1]; exact hlen
  · intro j
    rw [r1]; exact hget j
  · intro q hq
    rw [r6 q]
    · rfl
    · intro j h1 h2
      show a2[j]? ≠ some (some q)
      rw [hget, if_neg (by omega), if_neg (by omega), if_pos (by omega)]
      exact hq (j + 1) (by omega) (by omega)
  · intro j q tq h1 h2 e1 e2
    have := r7 (j - 1) q tq (by omega) (by omega)
      (by
        show a2[j - 1]? = some (some q)
        rw [hget, if_neg (by omega), if_neg (by omega), if_pos (by omega)]
        have : j - 1 + 1 = j := by omega
        rw [this]; exact e1)
      e2
    exact this

theorem task_at_nat (s : State) (i : Nat) :
    task_at s (i : Int) = match s.copy_tasks[i]? with
      | some (some p) => deref s p
      | _ => none := by
  simp only [task_at, slot_nat]

theorem task_at_of_slot {s : State} {i p : Nat} (hp : s.copy_tasks[i]? = some (some p)) :
    task_at s (i : Int) = deref s p := by
  rw [task_at_nat, hp]

theorem WF.task_at {s : State} (h : WF s) {i : Nat} (hi : (i : Int) < s.copy_len) :
    ∃ p t, s.copy_tasks[i]? = some (some p) ∧ deref s p = some t ∧
      task_at s (i : Int) = some t ∧ t.index = i := by
  obtain ⟨p, t, e1, e2, e3⟩ := h.live i hi
  exact ⟨p, t, e1, e2, by rw [task_at_of_slot e1, e2], e3⟩

theorem task_at_upd {s : State} {p : Nat} {t0 : copy_task} (hd : deref s p = some t0)
    (t : copy_task) (c : Int) (l : List Event) (i : Nat) :
    task_at (upd s p t c l) (i : Int) =
      if s.copy_tasks[i]? = some (some p) then some t else task_at s (i : Int) := by
  rw [task_at_nat, task_at_nat, upd_copy_tasks]
  by_cases h : s.copy_tasks[i]? = some (some p)
  · rw [if_pos h, h]
    exact deref_upd_self hd _ _ _
  · rw [if_neg h]
    rcases hs : s.copy_tasks[i]? with _ | _ | q
    · rfl
    · rfl
    · have hne : q ≠ p := by
        intro he; subst he; exact h hs
      exact deref_upd_ne hne _ _ _

theorem WF.upd {s : State} (h : WF s) {p : Nat} {t0 t : copy_task} (hd : deref s p = some t0)
    (hidx : t.index = t0.index) (c : Int) (l : List Event) : WF (upd s p t c l) := by
  refine ⟨h.len_nonneg, h.len_le, ?_⟩
  intro i hi
  obtain ⟨q, tq, e1, e2, e3⟩ := h.live i hi
  by_cases hq : q = p
  · subst hq
    rw [hd] at e2
    simp only [Option.some.injEq] at e2
    subst e2
    exact ⟨q, t, e1, deref_upd_self hd _ _ _, by rw [hidx, e3]⟩
  · exact ⟨q, tq, e1, by rw [deref_upd_ne hq]; exact e2, e3⟩

theorem running_count_upd {s : State} (h : WF s) {i0 p : Nat} {t0 t : copy_task}
    (hi : (i0 : Int) < s.copy_len) (hp : s.copy_tasks[i0]? = some (some p))
    (hd : deref s p = some t0) (c : Int) (l : List Event) :
    running_count (upd s p t c l) + (if t0.state = TASK_RUNNING then 1 else 0) =
      running_count s + (if t.state = TASK_RUNNING then 1 else 0) := by
  unfold running_count
  rw [upd_copy_len]
  have h0 : i0 < s.copy_len.toNat := by omega
  have := countP_range_update (running_at s) (running_at (upd s p t c l)) i0 s.copy_len.toNat h0
    (by
      intro j hj hne
      unfold running_at
      rw [task_at_upd hd, if_neg]
      intro hj'
      exact hne (h.inj (by omega) hi hj' hp))
  have e1 : running_at s i0 = decide (t0.state = TASK_RUNNING) := by
    unfold running_at
    rw [task_at_of_slot hp, hd]
  have e2 : running_at (upd s p t c l) i0 = decide (t.state = TASK_RUNNING) := by
    unfold running_at
    rw [task_at_upd hd, if_pos hp]
  rw [e1, e2] at this
  simpa using this

theorem tsdfx_copy_remove_wf {s : State} (h : WF s) {i0 n p : Nat} {t : copy_task}
    (hn : s.copy_len = (n : Int)) (hi : i0 < n) (hcap : n < s.copy_tasks.length)
    (hp : s.copy_tasks[i0]? = some (some p)) (hd : deref s p = some t) :
    ∃ s', tsdfx_copy_remove s p = some (s', 0) ∧ WF s' ∧ s'.copy_len = (n : Int) - 1 ∧
      s'.copy_running = s.copy_running ∧
      s'.tsdfx_copy_max_tasks = s.tsdfx_copy_max_tasks ∧
      s'.log = s.log ++ [Event.jobs ((n : Int) - 1) s.copy_running] ∧
      s'.copy_tasks.length = s.copy_tasks.length ∧
      deref s' p = some t ∧
      (∀ j, j < n - 1 → s'.copy_tasks[j]? ≠ some (some p)) ∧
      (∀ j, j < n - 1 → ∃ q tq, s'.copy_tasks[j]? = some (some q) ∧
        s.copy_tasks[if j < i0 then j else j + 1]? = some (some q) ∧
        deref s q = some tq ∧ deref s' q = some { tq with index := (j : Int) }) := by
  obtain ⟨s', h1, h2, h3, h4, h5, h6, h7, h8, h9⟩ := tsdfx_copy_remove_spec h hn hi hcap hp hd
  have hnotp : ∀ j, i0 < j → j < n → s.copy_tasks[j]? ≠ some (some p) := by
    intro j a b e
    have := h.inj (by omega) (by omega) e hp
    omega
  have hlive : ∀ j, j < n - 1 → ∃ q tq, s'.copy_tasks[j]? = some (some q) ∧
        s.copy_tasks[if j < i0 then j else j + 1]? = some (some q) ∧
        deref s q = some tq ∧ deref s' q = some { tq with index := (j : Int) } := by
    intro j hj
    by_cases hji : j < i0
    · obtain ⟨q, tq, e1, e2, e3⟩ := h.live j (by omega)
      refine ⟨q, tq, ?_, by rw [if_pos hji]; exact e1, e2, ?_⟩
      · rw [h7, if_neg (by omega), if_pos hji, e1]
      · rw [h8 q, e2, ← e3]
        intro j' a b e
        have := h.inj (by omega) (by omega) e e1
        omega
    · obtain ⟨q, tq, e1, e2, e3⟩ := h.live (j + 1) (by omega)
      refine ⟨q, tq, ?_, by rw [if_neg hji]; exact e1, e2, ?_⟩
      · rw [h7, if_neg (by omega), if_neg hji, if_pos hj, e1]
      · have := h9 (j + 1) q tq (by omega) (by omega) e1 e2
        simpa using this
  refine ⟨s', h1, ⟨by omega, by omega, ?_⟩, h2, h3, h4, h5, h6, ?_, ?_, hlive⟩
  · intro j hj
    obtain ⟨q, tq, e1, -, -, e4⟩ := hlive j (by omega)
    exact ⟨q, _, e1, e4, rfl⟩
  · rw [h8 p hnotp, hd]
  · intro j hj e
    obtain ⟨q, tq, e1, e2, -, -⟩ := hlive j hj
    rw [e] at e1
    simp only [Option.some.injEq] at e1
    subst e1
    have := h.inj (by split_ifs <;> omega) (by omega) e2 hp
    split_ifs at this <;> omega

theorem deref_free {s : State} {p : Nat} {t : copy_task} (hd : deref s p = some t) :
    ∃ s', free s p = some s' ∧ s'.copy_tasks = s.copy_tasks ∧ s'.copy_len = s.copy_len ∧
      s'.copy_running = s.copy_running ∧
      s'.tsdfx_copy_max_tasks = s.tsdfx_copy_max_tasks ∧ s'.log = s.log ∧
      deref s' p = none ∧ ∀ q, q ≠ p → deref s' q = deref s q := by
  refine ⟨{ s with heap := s.heap.set p none }, by simp [free, hd], rfl, rfl, rfl, rfl, rfl,
    ?_, ?_⟩
  · simp [deref, List.getElem?_set_self (deref_lt hd)]
  · intro q hq
    simp [deref, List.getElem?_set_ne (Ne.symm hq)]

theorem tsdfx_copy_delete_stop (k : Kernel) {s : State} {p : Nat} {t : copy_task}
    (hd : deref s p = some t) (hpid : t.state = TASK_RUNNING → t.pid ≠ -1) :
    ∃ t1 evs, (if t.pid ≠ -1 then (tsdfx_copy_stop k s p).map Prod.fst else some s) =
        some (upd s p t1 (s.copy_running - (if t.state = TASK_RUNNING then 1 else 0))
          (s.log ++ evs)) ∧
      t1.index = t.index ∧ t1.state ≠ TASK_RUNNING ∧
      (∀ m c, Event.jobs m c ∈ evs →
        c = s.copy_running - (if t.state = TASK_RUNNING then 1 else 0)) := by
  by_cases hst : t.state = TASK_RUNNING
  · obtain ⟨st', evs, r, hterm, hs, -, -, -, -, -, hj, -⟩ := tsdfx_copy_stop_running k hd hst
    refine ⟨{ t with state := st', pid := -1 },
      Event.jobs s.copy_len (s.copy_running - 1) :: evs, ?_, rfl,
      terminal_ne_running hterm, ?_⟩
    · rw [if_pos (hpid hst), hs, if_pos hst]
      rfl
    · intro m c hm
      rw [if_pos hst]
      simp only [List.mem_cons, Event.jobs.injEq] at hm
      rcases hm with hm | hm
      · exact hm.2
      · exact absurd hm (hj m c)
  · refine ⟨t, [], ?_, rfl, hst, by simp⟩
    have e : upd s p t (s.copy_running - (if t.state = TASK_RUNNING then 1 else 0))
        (s.log ++ []) = s := by
      rw [if_neg hst, List.append_nil, Int.sub_zero]
      exact upd_self hd
    rw [e]
    by_cases hp : t.pid ≠ -1
    · rw [if_pos hp, tsdfx_copy_stop_idle k hd hst]
      rfl
    · rw [if_neg hp]

theorem tsdfx_copy_delete_spec (k : Kernel) {s : State} (h : WF s) {i0 n p : Nat}
    {t : copy_task} (hn : s.copy_len = (n : Int)) (hi : i0 < n)
    (hcap : n < s.copy_tasks.length) (hp : s.copy_tasks[i0]? = some (some p))
    (hd : deref s p = some t) (hpid : t.state = TASK_RUNNING → t.pid ≠ -1) :
    ∃ s' evs, tsdfx_copy_delete k s (some p) = some s' ∧ WF s' ∧
      s'.copy_len = (n : Int) - 1 ∧
      s'.copy_running = s.copy_running - (if t.state = TASK_RUNNING then 1 else 0) ∧
      s'.tsdfx_copy_max_tasks = s.tsdfx_copy_max_tasks ∧
      s'.copy_tasks.length = s.copy_tasks.length ∧
      s'.log = s.log ++ evs ∧
      (∀ m c, Event.jobs m c ∈ evs → c = s'.copy_running) ∧
      (∀ j, j < n - 1 → ∃ tq, task_at s ((if j < i0 then j else j + 1 : Nat) : Int) = some tq ∧
        task_at s' (j : Int) = some { tq with index := (j : Int) }) := by
  obtain ⟨t1, evs1, hs1, hx1, hr1, hj1⟩ := tsdfx_copy_delete_stop k hd hpid
  have hd1 := deref_upd_self hd t1
    (s.copy_running - (if t.state = TASK_RUNNING then 1 else 0)) (s.log ++ evs1)
  have hwf1 := h.upd hd hx1
    (s.copy_running - (if t.state = TASK_RUNNING then 1 else 0)) (s.log ++ evs1)
  obtain ⟨s2, hrm, hwf2, a1, a2, a3, a4, a5, a6, a7, a8⟩ :=
    @tsdfx_copy_remove_wf _ hwf1 i0 n _ _ (by simpa using hn) hi
      (by simpa using hcap) (by simpa using hp) hd1
  obtain ⟨s3, hf, b1, b2, b3, b4, b5, b6, b7⟩ := deref_free a6
  have hlive : ∀ j, j < n - 1 →
      ∃ tq, task_at s ((if j < i0 then j else j + 1 : Nat) : Int) = some tq ∧
        task_at s3 (j : Int) = some { tq with index := (j : Int) } := by
    intro j hj
    obtain ⟨q, tq, e1, e2, e3, e4⟩ := a8 j hj
    have hqp : q ≠ p := by
      intro he; subst he; exact a7 j hj e1
    rw [upd_copy_tasks] at e2
    rw [deref_upd_ne hqp] at e3
    refine ⟨tq, by rw [task_at_of_slot e2, e3], ?_⟩
    rw [task_at_of_slot (by rw [b1]; exact e1), b7 q hqp, e4]
  refine ⟨s3, evs1 ++ [Event.jobs ((n : Int) - 1)
    (s.copy_running - (if t.state = TASK_RUNNING then 1 else 0))], ?_, ?_, ?_, ?_, ?_, ?_, ?_,
    ?_, hlive⟩
  · unfold tsdfx_copy_delete
    simp only [hd, hs1, hrm]
    exact hf
  · refine ⟨by rw [b2, a1]; omega, by rw [b2, a1, b1, a5]; simp; omega, ?_⟩
    intro j hj
    rw [b2, a1] at hj
    obtain ⟨q, tq, e1, -, -, e4⟩ := a8 j (by omega)
    have hqp : q ≠ p := by
      intro he; subst he; exact a7 j (by omega) e1
    exact ⟨q, _, by rw [b1]; exact e1, by rw [b7 q hqp]; exact e4, rfl⟩
  · rw [b2, a1]
  · rw [b3, a2]; rfl
  · rw [b4, a3]; rfl
  · rw [b1, a5]; rfl
  · rw [b5, a4]; simp
  · intro m c hm
    rw [b3, a2, upd_copy_running]
    simp only [List.mem_append, List.mem_singleton, Event.jobs.injEq] at hm
    rcases hm with hm | hm
    · exact hj1 m c hm
    · exact hm.2

/-! ### One tick -/

theorem task_step_refl (s : State) (t : copy_task) : task_step s t t s.copy_running [] :=
  ⟨rfl, rfl, rfl, rfl, fun h h' => h h', by simp⟩

theorem tsdfx_copy_iter_start_spec {k : Kernel} {s s1 : State} {i : Int}
    (h : tsdfx_copy_iter_start k i s = some s1) :
    ∃ p t t1 c1 evs, slot s i = some (some p) ∧ deref s p = some t ∧
      s1 = upd s p t1 c1 (s.log ++ evs) ∧ task_step s t t1 c1 evs ∧
      (s.copy_running ≤ s.tsdfx_copy_max_tasks → c1 ≤ s.tsdfx_copy_max_tasks) := by
  unfold tsdfx_copy_iter_start at h
  rcases hs : slot s i with _ | _ | p
  · simp [hs] at h
  · simp [hs] at h
  · simp only [hs] at h
    cases hd : deref s p with
    | none => simp [hd] at h
    | some t =>
      simp only [hd] at h
      have hself : s1 = s → ∃ p' t t1 c1 evs,
          (some (some p) : Option (Option Nat)) = some (some p') ∧ deref s p' = some t ∧
          s1 = upd s p' t1 c1 (s.log ++ evs) ∧ task_step s t t1 c1 evs ∧
          (s.copy_running ≤ s.tsdfx_copy_max_tasks → c1 ≤ s.tsdfx_copy_max_tasks) := by
        intro e
        refine ⟨p, t, t, s.copy_running, [], rfl, hd, ?_, task_step_refl s t, fun h => h⟩
        rw [e, List.append_nil, upd_self hd]
      by_cases hg : t.state = TASK_IDLE ∧ s.copy_running < s.tsdfx_copy_max_tasks
      · rw [if_pos hg] at h
        rcases tsdfx_copy_start_spec k hd with ⟨-, e⟩ | ⟨-, -, e⟩ | ⟨hi, -, e⟩ | ⟨hi, pid, hpos, e⟩
        · rw [e] at h; exact hself (by simpa using h.symm)
        · rw [e] at h; exact hself (by simpa using h.symm)
        · rw [e] at h
          simp only [Option.map_some', Option.some.injEq] at h
          refine ⟨p, t, _, _, [Event.fork], rfl, hd, h.symm, ⟨rfl, rfl, rfl, ?_, ?_, by simp⟩,
            fun h => h⟩
          · simp [hi]
          · intro _ h'; simp at h'
        · rw [e] at h
          simp only [Option.map_some', Option.some.injEq] at h
          refine ⟨p, t, _, _, [Event.fork, Event.jobs s.copy_len (s.copy_running + 1)], rfl, hd,
            h.symm, ⟨rfl, rfl, rfl, ?_, ?_, ?_⟩, ?_⟩
          · simp [hi]
          · intro _ _
            show pid ≠ -1
            omega
          · intro m c hm
            simp only [List.mem_cons, reduceCtorEq, Event.jobs.injEq, List.mem_singleton,
              false_or, List.not_mem_nil, or_false] at hm
            exact hm.2
          · intro _
            have := hg.2
            omega
      · rw [if_neg hg] at h
        exact hself (by simpa using h.symm)

theorem tsdfx_copy_iter_poll_spec {k : Kernel} {s s1 : State} {i : Int}
    (h : tsdfx_copy_iter_poll k i s = some s1) :
    ∃ p t t1 c1 evs, slot s i = some (some p) ∧ deref s p = some t ∧
      s1 = upd s p t1 c1 (s.log ++ evs) ∧ task_step s t t1 c1 evs ∧ c1 ≤ s.copy_running := by
  unfold tsdfx_copy_iter_poll at h
  rcases hs : slot s i with _ | _ | p
  · simp [hs] at h
  · simp [hs] at h
  · simp only [hs] at h
    rcases hp : tsdfx_copy_poll k s p with _ | ⟨s', r⟩
    · simp [hp] at h
    · rw [hp] at h
      simp only [Option.map_some', Option.some.injEq] at h
      subst h
      obtain ⟨t, hd, hc⟩ := tsdfx_copy_poll_spec hp
      rcases hc with ⟨-, -, e, -⟩ | ⟨-, e⟩ | ⟨hr, st', hterm, -, e⟩ | ⟨hst, st', hterm, -, e⟩
      · refine ⟨p, t, t, s.copy_running, [], rfl, hd, ?_, task_step_refl s t, le_refl _⟩
        rw [e, List.append_nil, upd_self hd]
      · exact ⟨p, t, t, s.copy_running, [Event.waitpid t.pid], rfl, hd, e, ⟨rfl, rfl, rfl, rfl,
          fun h h' => h h', by simp⟩, le_refl _⟩
      · have hne := terminal_ne_running hterm
        refine ⟨p, t, _, _, _, rfl, hd, e, ⟨rfl, rfl, rfl, ?_, ?_, ?_⟩, ?_⟩
        · simp [hr, hne]
        · intro _ h'; exact absurd h' hne
        · intro m c hm
          simp only [List.mem_cons, reduceCtorEq, Event.jobs.injEq, List.mem_singleton,
            false_or, List.not_mem_nil, or_false] at hm
          exact hm.2
        · omega
      · have hne := terminal_ne_running hterm
        refine ⟨p, t, _, _, _, rfl, hd, e, ⟨rfl, rfl, rfl, ?_, ?_, by simp⟩, le_refl _⟩
        · simp [hst, hne]
        · intro _ h'; exact absurd h' hne

theorem tsdfx_copy_iter_start_total (k : Kernel) {s : State} {i : Int} {p : Nat}
    {t : copy_task} (hs : slot s i = some (some p)) (hd : deref s p = some t) :
    ∃ s1, tsdfx_copy_iter_start k i s = some s1 := by
  unfold tsdfx_copy_iter_start
  simp only [hs, hd]
  split_ifs
  · rcases tsdfx_copy_start_spec k hd with ⟨-, e⟩ | ⟨-, -, e⟩ | ⟨-, -, e⟩ | ⟨-, pid, -, e⟩ <;>
      rw [e] <;> exact ⟨_, rfl⟩
  · exact ⟨_, rfl⟩

theorem tsdfx_copy_iter_poll_total (k : Kernel) {s : State} {i : Int} {p : Nat}
    {t : copy_task} (hs : slot s i = some (some p)) (hd : deref s p = some t) :
    ∃ s1, tsdfx_copy_iter_poll k i s = some s1 := by
  unfold tsdfx_copy_iter_poll
  simp only [hs]
  obtain ⟨s', r, e⟩ := tsdfx_copy_poll_total k hd
  rw [e]
  exact ⟨_, rfl⟩

/-- The counter of running tasks, the ceiling and the log of a state. -/
theorem renumber_frame : ∀ (m : Nat) (i : Int) (s s' : State), renumber m i s = some s' →
    s'.copy_running = s.copy_running ∧ s'.tsdfx_copy_max_tasks = s.tsdfx_copy_max_tasks ∧
      s'.log = s.log := by
  intro m
  induction m with
  | zero =>
    intro i s s' h
    simp only [renumber, Option.some.injEq] at h
    subst h
    exact ⟨rfl, rfl, rfl⟩
  | succ m ih =>
    intro i s s' h
    unfold renumber at h
    split at h
    · split at h
      · have := ih _ _ _ h
        simpa [store] using this
      · simp at h
    · simp at h


theorem tsdfx_copy_remove_frame {s s' : State} {p : Nat} {r : Int}
    (h : tsdfx_copy_remove s p = some (s', r)) :
    s'.copy_running = s.copy_running ∧ s'.tsdfx_copy_max_tasks = s.tsdfx_copy_max_tasks ∧
      ∃ evs, s'.log = s.log ++ evs ∧ ∀ m c, Event.jobs m c ∈ evs → c = s.copy_running := by
  unfold tsdfx_copy_remove at h
  split at h
  · simp at h
  · dsimp only at h
    split at h
    · simp at h
    · next t _ _ q _ =>
      by_cases hq : q ≠ some p
      · rw [if_pos hq] at h
        simp only [Option.some.injEq, Prod.mk.injEq] at h
        rw [← h.1]
        exact ⟨rfl, rfl, [], by simp, by simp⟩
      · rw [if_neg hq] at h
        generalize (if t.index + 1 < s.copy_len then
          memmove_slots s.copy_tasks t.index (t.index + 1) (s.copy_len - (t.index + 1))
          else some s.copy_tasks) = moved at h
        cases moved with
        | none => simp at h
        | some a1 =>
          dsimp only at h
          split at h
          · simp at h
          · split at h
            · simp at h
            · next s3 hr =>
              simp only [Option.some.injEq, Prod.mk.injEq] at h
              obtain ⟨e1, e2, e3⟩ := renumber_frame _ _ _ _ hr
              rw [← h.1, e1, e2, e3]
              exact ⟨rfl, rfl, _, rfl, by simp⟩

theorem tsdfx_copy_delete_frame {k : Kernel} {s s' : State} {p : Nat}
    (h : tsdfx_copy_delete k s (some p) = some s') :
    s'.copy_running ≤ s.copy_running ∧ s'.tsdfx_copy_max_tasks = s.tsdfx_copy_max_tasks ∧
      ∃ evs, s'.log = s.log ++ evs ∧ ∀ m c, Event.jobs m c ∈ evs → c ≤ s.copy_running := by
  unfold tsdfx_copy_delete at h
  cases hd : deref s p with
  | none => simp [hd] at h
  | some t =>
    simp only [hd] at h
    have hstop : ∀ s1, (if t.pid ≠ -1 then (tsdfx_copy_stop k s p).map Prod.fst else some s) =
        some s1 → s1.copy_running ≤ s.copy_running ∧
          s1.tsdfx_copy_max_tasks = s.tsdfx_copy_max_tasks ∧
          ∃ evs, s1.log = s.log ++ evs ∧ ∀ m c, Event.jobs m c ∈ evs → c ≤ s.copy_running := by
      intro s1 h1
      have hself : s1 = s → s1.copy_running ≤ s.copy_running ∧
          s1.tsdfx_copy_max_tasks = s.tsdfx_copy_max_tasks ∧
          ∃ evs, s1.log = s.log ++ evs ∧ ∀ m c, Event.jobs m c ∈ evs → c ≤ s.copy_running := by
        intro e; subst e
        exact ⟨le_refl _, rfl, [], by simp, by simp⟩
      split_ifs at h1
      · by_cases hst : t.state = TASK_RUNNING
        · obtain ⟨st', evs, r, -, hs, -, -, -, -, -, hj, -⟩ := tsdfx_copy_stop_running k hd hst
          rw [hs] at h1
          simp only [Option.map_some', Option.some.injEq] at h1
          subst h1
          refine ⟨by simp, rfl, _, rfl, ?_⟩
          intro m c hm
          simp only [List.mem_cons, Event.jobs.injEq] at hm
          rcases hm with hm | hm
          · rw [hm.2]; omega
          · exact absurd hm (hj m c)
        · rw [tsdfx_copy_stop_idle k hd hst] at h1
          exact hself (by simpa using h1.symm)
      · exact hself (by simpa using h1.symm)
    split at h
    · simp at h
    · next s1 h1 =>
      obtain ⟨a1, a2, evs1, a3, a4⟩ := hstop s1 h1
      split at h
      · simp at h
      · next s2 r2 hr =>
        obtain ⟨b1, b2, evs2, b3, b4⟩ := tsdfx_copy_remove_frame hr
        unfold free at h
        split at h
        · simp only [Option.some.injEq] at h
          subst h
          refine ⟨by simp only []; omega, by simp only []; rw [b2, a2], evs1 ++ evs2, ?_, ?_⟩
          · simp only []; rw [b3, a3, List.append_assoc]
          · intro m c hm
            rw [List.mem_append] at hm
            rcases hm with hm | hm
            · exact a4 m c hm
            · rw [b4 m c hm]; exact a1
        · simp at h

theorem counter_ok_upd {s : State} (h : WF s) (hc : counter_ok s) {i0 p : Nat}
    {t0 t : copy_task} (hi : (i0 : Int) < s.copy_len) (hp : s.copy_tasks[i0]? = some (some p))
    (hd : deref s p = some t0) {c : Int} {evs : List Event} (hs : task_step s t0 t c evs)
    (l : List Event) : counter_ok (upd s p t c l) := by
  have hpid0 : t0.state = TASK_RUNNING → t0.pid ≠ -1 := by
    intro hr
    exact hc.2 i0 hi t0 (by rw [task_at_of_slot hp, hd]) hr
  constructor
  · have h1 := running_count_upd h (t := t) hi hp hd c l
    have h2 := hs.count
    have h3 := hc.1
    rw [upd_copy_running]
    by_cases a : t0.state = TASK_RUNNING <;> by_cases b : t.state = TASK_RUNNING <;>
      simp only [a, b, if_true, if_false] at h1 h2 <;> omega
  · intro i hi' t' ht' hr
    rw [task_at_upd hd] at ht'
    rw [upd_copy_len] at hi'
    split_ifs at ht' with hq
    · simp only [Option.some.injEq] at ht'
      subst ht'
      exact hs.pid hpid0 hr
    · exact hc.2 i hi' t' ht' hr

theorem counter_ok_delete {s s' : State} (hc : counter_ok s) {i0 n : Nat} {p : Nat}
    {t : copy_task} (hn : s.copy_len = (n : Int)) (hi : i0 < n)
    (hp : s.copy_tasks[i0]? = some (some p)) (hd : deref s p = some t)
    (hlen : s'.copy_len = (n : Int) - 1)
    (hrun : s'.copy_running = s.copy_running - (if t.state = TASK_RUNNING then 1 else 0))
    (hlive : ∀ j, j < n - 1 →
      ∃ tq, task_at s ((if j < i0 then j else j + 1 : Nat) : Int) = some tq ∧
        task_at s' (j : Int) = some { tq with index := (j : Int) }) :
    counter_ok s' := by
  have hat : ∀ j, j < n - 1 →
      running_at s' j = (fun j => if j < i0 then running_at s j else running_at s (j + 1)) j := by
    intro j hj
    obtain ⟨tq, e1, e2⟩ := hlive j hj
    simp only [running_at, e2]
    split_ifs with hji
    · rw [if_pos hji] at e1
      rw [e1]
    · rw [if_neg hji] at e1
      rw [e1]
  constructor
  · have h1 := countP_range_skip (running_at s) i0 n hi
    have h2 := countP_range_congr _ _ (n - 1) hat
    have h3 : running_at s i0 = decide (t.state = TASK_RUNNING) := by
      unfold running_at
      rw [task_at_of_slot hp, hd]
    have h4 := hc.1
    unfold running_count at h4 ⊢
    have e1 : s.copy_len.toNat = n := by omega
    have e2 : s'.copy_len.toNat = n - 1 := by omega
    rw [e1] at h4
    rw [e2, h2, hrun]
    rw [h3] at h1
    by_cases a : t.state = TASK_RUNNING <;> simp only [a, decide_True, decide_False, if_true,
      if_false, Bool.false_eq_true] at h1 ⊢ <;> omega
  · intro j hj tj htj hr
    obtain ⟨tq, e1, e2⟩ := hlive j (by omega)
    rw [e2] at htj
    simp only [Option.some.injEq] at htj
    subst htj
    exact hc.2 _ (by split_ifs <;> omega) tq e1 hr

theorem remove_moved {s : State} {i0 n : Nat} (hn : s.copy_len = (n : Int)) (_hi : i0 < n)
    (hle : n ≤ s.copy_tasks.length) :
    ∃ a1, (if (i0 : Int) + 1 < s.copy_len then
          memmove_slots s.copy_tasks i0 ((i0 : Int) + 1) (s.copy_len - ((i0 : Int) + 1))
        else some s.copy_tasks) = some a1 ∧ a1.length = s.copy_tasks.length := by
  by_cases hlt : (i0 : Int) + 1 < s.copy_len
  · rw [if_pos hlt]
    have e : s.copy_len - ((i0 : Int) + 1) = ((n - 1 - i0 : Nat) : Int) := by omega
    rw [e, memmove_slots_shift _ _ _ (by omega)]
    refine ⟨_, rfl, ?_⟩
    simp only [List.length_append, List.length_take, List.length_drop]
    omega
  · rw [if_neg hlt]
    exact ⟨_, rfl, rfl⟩

theorem tsdfx_copy_remove_full {s : State} (h : WF s) {i0 p : Nat} {t : copy_task}
    (hi : (i0 : Int) < s.copy_len) (hp : s.copy_tasks[i0]? = some (some p))
    (hd : deref s p = some t) (hfull : s.copy_len = s.copy_tasks.length) :
    tsdfx_copy_remove s p = none := by
  have hidx : t.index = (i0 : Int) := h.index_eq hi hp hd
  obtain ⟨a1, hm, hl⟩ := @remove_moved s i0 _ hfull (by omega) (le_refl _)
  unfold tsdfx_copy_remove
  simp only [hd, hidx, slot_nat, hp, ne_eq, not_true_eq_false, if_false, hm]
  have : write_slot a1 s.copy_len none = none := by
    unfold write_slot
    rw [if_neg]
    intro hh
    rw [hl] at hh
    omega
  rw [this]

theorem tsdfx_copy_delete_full (k : Kernel) {s : State} (h : WF s) {i0 p : Nat}
    {t : copy_task} (hi : (i0 : Int) < s.copy_len) (hp : s.copy_tasks[i0]? = some (some p))
    (hd : deref s p = some t) (hpid : t.state = TASK_RUNNING → t.pid ≠ -1)
    (hfull : s.copy_len = s.copy_tasks.length) :
    tsdfx_copy_delete k s (some p) = none := by
  obtain ⟨t1, evs1, hs1, hx1, -, -⟩ := tsdfx_copy_delete_stop k hd hpid
  have hd1 := deref_upd_self hd t1
    (s.copy_running - (if t.state = TASK_RUNNING then 1 else 0)) (s.log ++ evs1)
  have hwf1 := h.upd hd hx1
    (s.copy_running - (if t.state = TASK_RUNNING then 1 else 0)) (s.log ++ evs1)
  have := @tsdfx_copy_remove_full _ hwf1 i0 _ _ (by simpa using hi) (by simpa using hp) hd1
    (by simpa using hfull)
  unfold tsdfx_copy_delete
  simp only [hd, hs1, this]

/-- The invariant of one tick: the registry is well formed and the counter
of running tasks is right. -/
theorem tsdfx_copy_iter_delete_inv {k : Kernel} {s s' : State} {i0 : Nat} (h : WF s)
    (hc : counter_ok s) (hi : (i0 : Int) < s.copy_len)
    (hr : tsdfx_copy_iter_delete k (i0 : Int) s = some s') :
    WF s' ∧ counter_ok s' ∧ s'.copy_tasks.length = s.copy_tasks.length ∧
      s'.copy_len ≤ s.copy_len ∧
      (s' = s ∨ (s.copy_len < s.copy_tasks.length ∧ s'.copy_len = s.copy_len - 1)) := by
  obtain ⟨p, t, hp, hd, ht, -⟩ := h.task_at hi
  unfold tsdfx_copy_iter_delete at hr
  simp only [slot_nat, hp, hd] at hr
  by_cases hst : t.state ≠ TASK_RUNNING
  · rw [if_pos hst] at hr
    have hpid : t.state = TASK_RUNNING → t.pid ≠ -1 := fun e => absurd e hst
    by_cases hcap : s.copy_len < s.copy_tasks.length
    · obtain ⟨n, hn⟩ := Int.eq_ofNat_of_zero_le h.len_nonneg
      obtain ⟨s2, evs, e1, e2, e3, e4, e5, e6, e7, e8, e9⟩ :=
        @tsdfx_copy_delete_spec k _ h i0 _ _ _ hn (by omega) (by omega) hp hd hpid
      rw [e1] at hr
      simp only [Option.some.injEq] at hr
      subst hr
      exact ⟨e2, counter_ok_delete hc hn (by omega) hp hd e3 e4 e9, e6, by omega,
        Or.inr ⟨hcap, by omega⟩⟩
    · have hfull : s.copy_len = s.copy_tasks.length := by
        have := h.len_le
        omega
      rw [tsdfx_copy_delete_full k h hi hp hd hpid hfull] at hr
      simp at hr
  · rw [if_neg hst] at hr
    simp only [Option.some.injEq] at hr
    subst hr
    exact ⟨h, hc, rfl, le_refl _, Or.inl rfl⟩

theorem tsdfx_copy_iter_delete_total (k : Kernel) {s : State} {i0 : Nat} (h : WF s)
    (hi : (i0 : Int) < s.copy_len) (hcap : s.copy_len < s.copy_tasks.length)
    (hpid : ∀ t, task_at s (i0 : Int) = some t → t.state = TASK_RUNNING → t.pid ≠ -1) :
    ∃ s', tsdfx_copy_iter_delete k (i0 : Int) s = some s' := by
  obtain ⟨p, t, hp, hd, ht, -⟩ := h.task_at hi
  unfold tsdfx_copy_iter_delete
  simp only [slot_nat, hp, hd]
  split_ifs
  · obtain ⟨n, hn⟩ := Int.eq_ofNat_of_zero_le h.len_nonneg
    obtain ⟨s2, evs, e1, -⟩ :=
      @tsdfx_copy_delete_spec k _ h i0 _ _ _ hn (by omega) (by omega) hp hd (hpid t ht)
    exact ⟨s2, e1⟩
  · exact ⟨s, rfl⟩

theorem tsdfx_copy_iter_body_inv {k : Kernel} {s s' : State} {i0 : Nat} (h : WF s)
    (hc : counter_ok s) (hi : (i0 : Int) < s.copy_len)
    (hr : tsdfx_copy_iter_body k (i0 : Int) s = some s') :
    WF s' ∧ counter_ok s' ∧ s'.copy_tasks.length = s.copy_tasks.length ∧
      s'.copy_len ≤ s.copy_len ∧ (s'.copy_len < s.copy_len → s.copy_len < s.copy_tasks.length) := by
  unfold tsdfx_copy_iter_body at hr
  obtain ⟨s1, h1, hr⟩ := Option.bind_eq_some.mp hr
  obtain ⟨s2, h2, h3⟩ := Option.bind_eq_some.mp hr
  obtain ⟨p, t, t1, c1, evs, a1, a2, a3, a4, -⟩ := tsdfx_copy_iter_start_spec h1
  rw [slot_nat] at a1
  have w1 : WF s1 := by rw [a3]; exact h.upd a2 a4.index _ _
  have k1 : counter_ok s1 := by rw [a3]; exact counter_ok_upd h hc hi a1 a2 a4 _
  obtain ⟨p', t', t2, c2, evs2, b1, b2, b3, b4, -⟩ := tsdfx_copy_iter_poll_spec h2
  rw [slot_nat] at b1
  have hi1 : (i0 : Int) < s1.copy_len := by rw [a3]; exact hi
  have w2 : WF s2 := by rw [b3]; exact w1.upd b2 b4.index _ _
  have k2 : counter_ok s2 := by rw [b3]; exact counter_ok_upd w1 k1 hi1 b1 b2 b4 _
  have hi2 : (i0 : Int) < s2.copy_len := by rw [b3]; exact hi1
  obtain ⟨w3, k3, l3, m3, n3⟩ := tsdfx_copy_iter_delete_inv w2 k2 hi2 h3
  have e1 : s2.copy_tasks = s.copy_tasks := by rw [b3, upd_copy_tasks, a3, upd_copy_tasks]
  have e2 : s2.copy_len = s.copy_len := by rw [b3, upd_copy_len, a3, upd_copy_len]
  refine ⟨w3, k3, by rw [l3, e1], by rw [← e2]; exact m3, ?_⟩
  intro hlt
  rcases n3 with n3 | n3
  · rw [n3, e2] at hlt; omega
  · rw [← e2, ← e1]; exact n3.1

theorem tsdfx_copy_iter_body_total (k : Kernel) {s : State} {i0 : Nat} (h : WF s)
    (hc : counter_ok s) (hi : (i0 : Int) < s.copy_len)
    (hcap : s.copy_len < s.copy_tasks.length) :
    ∃ s', tsdfx_copy_iter_body k (i0 : Int) s = some s' := by
  obtain ⟨p, t, hp, hd, -, -⟩ := h.task_at hi
  obtain ⟨s1, h1⟩ := tsdfx_copy_iter_start_total k (i := (i0 : Int)) (by rw [slot_nat]; exact hp) hd
  obtain ⟨p', t', t1, c1, evs, a1, a2, a3, a4, -⟩ := tsdfx_copy_iter_start_spec h1
  rw [slot_nat] at a1
  have w1 : WF s1 := by rw [a3]; exact h.upd a2 a4.index _ _
  have k1 : counter_ok s1 := by rw [a3]; exact counter_ok_upd h hc hi a1 a2 a4 _
  have hi1 : (i0 : Int) < s1.copy_len := by rw [a3]; exact hi
  obtain ⟨q, tq, hq, hdq, -, -⟩ := w1.task_at hi1
  obtain ⟨s2, h2⟩ := tsdfx_copy_iter_poll_total k (i := (i0 : Int)) (by rw [slot_nat]; exact hq) hdq
  obtain ⟨p'', t'', t2, c2, evs2, b1, b2, b3, b4, -⟩ := tsdfx_copy_iter_poll_spec h2
  rw [slot_nat] at b1
  have w2 : WF s2 := by rw [b3]; exact w1.upd b2 b4.index _ _
  have k2 : counter_ok s2 := by rw [b3]; exact counter_ok_upd w1 k1 hi1 b1 b2 b4 _
  have hi2 : (i0 : Int) < s2.copy_len := by rw [b3]; exact hi1
  have hcap2 : s2.copy_len < s2.copy_tasks.length := by
    rw [b3, upd_copy_tasks, upd_copy_len, a3]; exact hcap
  obtain ⟨s3, h3⟩ := tsdfx_copy_iter_delete_total k w2 hi2 hcap2 (fun t ht => k2.2 i0 hi2 t ht)
  refine ⟨s3, ?_⟩
  unfold tsdfx_copy_iter_body
  rw [h1, Option.some_bind, h2, Option.some_bind, h3]

theorem tsdfx_copy_iter_loop_induct (k : Kernel) (P : State → Prop)
    (hbody : ∀ (i0 : Nat) (s s' : State), P s → (i0 : Int) < s.copy_len →
      tsdfx_copy_iter_body k (i0 : Int) s = some s' → P s') :
    ∀ (fuel i0 : Nat) (s s' : State), P s →
      tsdfx_copy_iter_loop k fuel (i0 : Int) s = some s' → P s' := by
  intro fuel
  induction fuel with
  | zero =>
    intro i0 s s' hP h
    unfold tsdfx_copy_iter_loop at h
    split_ifs at h
    simp only [Option.some.injEq] at h
    rw [← h]; exact hP
  | succ n ih =>
    intro i0 s s' hP h
    unfold tsdfx_copy_iter_loop at h
    split_ifs at h with hlt
    · split at h
      · simp at h
      · next s1 hb =>
        have e : ((i0 : Int) + 1) = ((i0 + 1 : Nat) : Int) := by push_cast; rfl
        rw [e] at h
        exact ih (i0 + 1) s1 s' (hbody i0 s s1 hP hlt hb) h
    · simp only [Option.some.injEq] at h
      rw [← h]; exact hP

theorem tsdfx_copy_iter_loop_total (k : Kernel) :
    ∀ (fuel i0 : Nat) (s : State), WF s → counter_ok s →
      s.copy_len < s.copy_tasks.length → (s.copy_len - (i0 : Int)).toNat ≤ fuel →
      ∃ s', tsdfx_copy_iter_loop k fuel (i0 : Int) s = some s' := by
  intro fuel
  induction fuel with
  | zero =>
    intro i0 s _ _ _ hf
    unfold tsdfx_copy_iter_loop
    rw [if_neg (by omega)]
    exact ⟨s, rfl⟩
  | succ n ih =>
    intro i0 s h hc hcap hf
    unfold tsdfx_copy_iter_loop
    split_ifs with hlt
    · obtain ⟨s1, hb⟩ := tsdfx_copy_iter_body_total k h hc hlt hcap
      obtain ⟨w1, k1, l1, m1, -⟩ := tsdfx_copy_iter_body_inv h hc hlt hb
      rw [hb]
      have e : ((i0 : Int) + 1) = ((i0 + 1 : Nat) : Int) := by push_cast; rfl
      simp only [e]
      exact ih (i0 + 1) s1 w1 k1 (by rw [l1]; omega) (by omega)
    · exact ⟨s, rfl⟩

theorem ceiling_ok_upd {N : Int} {log0 : List Event} {s : State} (h : ceiling_ok N log0 s)
    (p : Nat) (t1 : copy_task) {c1 : Int} {evs : List Event} (hc : c1 ≤ N)
    (hj : ∀ m c, Event.jobs m c ∈ evs → c = c1) :
    ceiling_ok N log0 (upd s p t1 c1 (s.log ++ evs)) := by
  obtain ⟨-, h2, evs0, h3, h4⟩ := h
  refine ⟨hc, h2, evs0 ++ evs, by rw [upd_log, h3, List.append_assoc], ?_⟩
  intro m c hm
  rw [List.mem_append] at hm
  rcases hm with hm | hm
  · exact h4 m c hm
  · rw [hj m c hm]; exact hc

theorem ceiling_ok_body {k : Kernel} {N : Int} {log0 : List Event} {s s' : State} {i : Int}
    (h : ceiling_ok N log0 s) (hr : tsdfx_copy_iter_body k i s = some s') :
    ceiling_ok N log0 s' := by
  unfold tsdfx_copy_iter_body at hr
  obtain ⟨s1, h1, hr⟩ := Option.bind_eq_some.mp hr
  obtain ⟨s2, h2, h3⟩ := Option.bind_eq_some.mp hr
  obtain ⟨p, t, t1, c1, evs, -, -, a3, a4, a5⟩ := tsdfx_copy_iter_start_spec h1
  have k1 : ceiling_ok N log0 s1 := by
    rw [a3]
    exact ceiling_ok_upd h p t1 (by rw [← h.2.1]; exact a5 (by rw [h.2.1]; exact h.1)) a4.jobs
  obtain ⟨p', t', t2, c2, evs2, -, -, b3, b4, b5⟩ := tsdfx_copy_iter_poll_spec h2
  have k2 : ceiling_ok N log0 s2 := by
    rw [b3]
    exact ceiling_ok_upd k1 p' t2 (le_trans b5 k1.1) b4.jobs
  unfold tsdfx_copy_iter_delete at h3
  split at h3
  · split at h3
    · split_ifs at h3
      · obtain ⟨d1, d2, evs3, d3, d4⟩ := tsdfx_copy_delete_frame h3
        obtain ⟨e1, e2, evs0, e3, e4⟩ := k2
        refine ⟨le_trans d1 e1, by rw [d2, e2], evs0 ++ evs3, by rw [d3, e3, List.append_assoc],
          ?_⟩
        intro m c hm
        rw [List.mem_append] at hm
        rcases hm with hm | hm
        · exact e4 m c hm
        · exact le_trans (d4 m c hm) e1
      · simp only [Option.some.injEq] at h3
        rw [← h3]; exact k2
    · simp at h3
  · simp at h3

/-- C4: if the counter of running tasks is at most the ceiling
`tsdfx_copy_max_tasks` when `tsdfx_copy_iter` is entered, then for every
outcome of `fork` and of the polls the counter is at most the ceiling when the
tick returns and so is every value the counter takes during the tick (each
change of the counter is logged); hence, in a well-formed registry whose
counter is right, at most that many tasks are RUNNING after the tick.  When
the registry is moreover not full the tick returns. -/
theorem C4_ceiling_enforcement (k : Kernel) (s : State)
    (h : s.copy_running ≤ s.tsdfx_copy_max_tasks) :
    (∀ s', tsdfx_copy_iter k s = some s' →
      s'.copy_running ≤ s.tsdfx_copy_max_tasks ∧
      s'.tsdfx_copy_max_tasks = s.tsdfx_copy_max_tasks ∧
      (∃ evs, s'.log = s.log ++ evs ∧
        ∀ m c, Event.jobs m c ∈ evs → c ≤ s.tsdfx_copy_max_tasks) ∧
      (WF s → counter_ok s → (running_count s' : Int) ≤ s.tsdfx_copy_max_tasks)) ∧
    (WF s → counter_ok s → s.copy_len < s.copy_tasks.length →
      ∃ s', tsdfx_copy_iter k s = some s') := by
  constructor
  · intro s' hr
    unfold tsdfx_copy_iter at hr
    have h0 : ceiling_ok s.tsdfx_copy_max_tasks s.log s := ⟨h, rfl, [], by simp, by simp⟩
    have h1 := tsdfx_copy_iter_loop_induct k (ceiling_ok s.tsdfx_copy_max_tasks s.log)
      (fun i0 a b ha _ hb => ceiling_ok_body ha hb) s.copy_len.toNat 0 s s' h0 hr
    refine ⟨h1.1, h1.2.1, h1.2.2, ?_⟩
    intro hw hc
    have h2 := tsdfx_copy_iter_loop_induct k (fun a => WF a ∧ counter_ok a)
      (fun i0 a b ha hi hb =>
        ⟨(tsdfx_copy_iter_body_inv ha.1 ha.2 hi hb).1, (tsdfx_copy_iter_body_inv ha.1 ha.2 hi hb).2.1⟩)
      s.copy_len.toNat 0 s s' ⟨hw, hc⟩ hr
    rw [← h2.2.1]
    exact h1.1
  · intro hw hc hcap
    exact tsdfx_copy_iter_loop_total k s.copy_len.toNat 0 s hw hc hcap (by simp)

/-- Witness of C4: ceiling 1, counter 0 and two idle tasks; every child stays
alive. -/
theorem C4_ceiling_enforcement_witness :
    tsdfx_copy_iter kernel_alive state_two_idle_max1 = some
      { heap := [some (task_x TASK_RUNNING 0 100), none],
        copy_tasks := [some 0, some 1, none, none],
        copy_len := 1, copy_running := 1, tsdfx_copy_max_tasks := 1,
        log := [Event.fork, Event.jobs 2 1, Event.waitpid 100, Event.jobs 1 1] } ∧
    (1 : Int) ≤ state_two_idle_max1.tsdfx_copy_max_tasks ∧
    ∀ s', tsdfx_copy_iter kernel_alive state_two_idle_max1 = some s' →
      s'.copy_running ≤ state_two_idle_max1.tsdfx_copy_max_tasks :=
  ⟨by decide, by decide,
    fun s' hs => ((C4_ceiling_enforcement kernel_alive state_two_idle_max1 (by decide)).1 s' hs).1⟩

/-! ### Adding a task -/

theorem tsdfx_copy_add_grow_spec (k : Kernel) : ∀ (fuel : Nat) (s s' : State) (b : Bool),
    tsdfx_copy_add_grow k fuel s = some (s', b) →
    ∃ ext evs, s' = { s with copy_tasks := s.copy_tasks ++ ext, log := s.log ++ evs } ∧
      (b = true → s.copy_len < ((s.copy_tasks ++ ext).length : Int)) ∧
      (∀ n c, Event.jobs n c ∉ evs) := by
  intro fuel
  induction fuel with
  | zero =>
    intro s s' b h
    unfold tsdfx_copy_add_grow at h
    split_ifs at h with hge
    simp only [Option.some.injEq, Prod.mk.injEq] at h
    refine ⟨[], [], by rw [← h.1]; simp, ?_, by simp⟩
    intro _
    simp only [State.copy_sz, ge_iff_le, not_le] at hge
    simpa using hge
  | succ n ih =>
    intro s s' b h
    unfold tsdfx_copy_add_grow at h
    by_cases hge : s.copy_len ≥ (s.copy_sz : Int)
    · rw [if_pos hge] at h
      dsimp only at h
      by_cases ha : k.alloc s.log = true
      · rw [if_pos ha] at h
        obtain ⟨ext, evs, e1, e2, e3⟩ := ih _ _ _ h
        refine ⟨List.replicate ((if s.copy_sz ≠ 0 then s.copy_sz * 2 else 16) - s.copy_sz) none
          ++ ext, Event.alloc :: evs, ?_, ?_, ?_⟩
        · rw [e1]; simp
        · intro hb
          have := e2 hb
          simpa [List.append_assoc] using this
        · intro m c; simp [e3]
      · rw [if_neg ha] at h
        simp only [Option.some.injEq, Prod.mk.injEq] at h
        refine ⟨[], [Event.alloc], by rw [← h.1]; simp, ?_, by simp⟩
        intro hb; rw [← h.2] at hb; simp at hb
    · rw [if_neg hge] at h
      simp only [Option.some.injEq, Prod.mk.injEq] at h
      refine ⟨[], [], by rw [← h.1]; simp, ?_, by simp⟩
      intro _
      simp only [State.copy_sz, ge_iff_le, not_le] at hge
      simpa using hge

theorem tsdfx_copy_add_grow_total (k : Kernel) : ∀ (fuel : Nat) (s : State),
    (s.copy_len + 1 - (s.copy_tasks.length : Int)).toNat ≤ fuel →
    ∃ s' b, tsdfx_copy_add_grow k fuel s = some (s', b) := by
  intro fuel
  induction fuel with
  | zero =>
    intro s hf
    unfold tsdfx_copy_add_grow
    rw [if_neg]
    · exact ⟨_, _, rfl⟩
    · simp only [State.copy_sz, ge_iff_le, not_le]
      omega
  | succ n ih =>
    intro s hf
    unfold tsdfx_copy_add_grow
    by_cases hge : s.copy_len ≥ (s.copy_sz : Int)
    · rw [if_pos hge]
      dsimp only
      by_cases ha : k.alloc s.log = true
      · rw [if_pos ha]
        apply ih
        simp only [State.copy_sz, List.length_append, List.length_replicate] at hge ⊢
        split_ifs <;> push_cast <;> omega
      · rw [if_neg ha]
        exact ⟨_, _, rfl⟩
    · rw [if_neg hge]
      exact ⟨_, _, rfl⟩

theorem tsdfx_copy_add_spec {k : Kernel} {s s' : State} {p : Nat} {r : Int}
    (h : tsdfx_copy_add k s p = some (s', r)) :
    ∃ tp ext evs, deref s p = some tp ∧ (∀ n c, Event.jobs n c ∈ evs → c = s.copy_running) ∧
      ((r = -1 ∧ s' = { s with copy_tasks := s.copy_tasks ++ ext, log := s.log ++ evs }) ∨
        (r = s.copy_len ∧ 0 ≤ s.copy_len ∧ s.copy_len < ((s.copy_tasks ++ ext).length : Int) ∧
          s' = { heap := s.heap.set p (some { tp with index := s.copy_len }),
                 copy_tasks := (s.copy_tasks ++ ext).set s.copy_len.toNat (some p),
                 copy_len := s.copy_len + 1,
                 copy_running := s.copy_running,
                 tsdfx_copy_max_tasks := s.tsdfx_copy_max_tasks,
                 log := s.log ++ evs })) := by
  unfold tsdfx_copy_add at h
  cases hd : deref s p with
  | none => simp [hd] at h
  | some tp =>
    simp only [hd] at h
    rcases hg : tsdfx_copy_add_grow k (s.copy_len.toNat + 1) s with _ | ⟨s1, b⟩
    · simp [hg] at h
    · rw [hg] at h
      obtain ⟨ext, evs, e1, e2, e3⟩ := tsdfx_copy_add_grow_spec k _ _ _ _ hg
      cases b with
      | false =>
        simp only [Option.some.injEq, Prod.mk.injEq] at h
        refine ⟨tp, ext, evs, rfl, fun n c hm => absurd hm (e3 n c), Or.inl ⟨h.2.symm, ?_⟩⟩
        rw [← h.1, e1]
      | true =>
        have hlt := e2 rfl
        simp only at h
        have hd1 : deref s1 p = some tp := by
          have := @deref_congr s s1 (by rw [e1]) p
          rw [this]; exact hd
        rw [hd1] at h
        split_ifs at h with hlen
        unfold write_slot at h
        split_ifs at h with hw
        · simp only [Option.some.injEq, Prod.mk.injEq] at h
          have hl : s1.copy_len = s.copy_len := by rw [e1]
          have hr' : s1.copy_running = s.copy_running := by rw [e1]
          refine ⟨tp, ext, evs ++ [Event.jobs (s.copy_len + 1) s.copy_running], rfl, ?_,
            Or.inr ⟨by rw [← h.2, hl], by rw [← hl]; exact hw.1, hlt, ?_⟩⟩
          · intro n c hm
            simp only [List.mem_append, List.mem_singleton, Event.jobs.injEq] at hm
            rcases hm with hm | hm
            · exact absurd hm (e3 n c)
            · exact hm.2
          · rw [← h.1, e1]
            simp [store, List.append_assoc]

theorem tsdfx_copy_add_total (k : Kernel) {s : State} {p : Nat} {tp : copy_task}
    (hd : deref s p = some tp) (hn : 0 ≤ s.copy_len) :
    ∃ s' r, tsdfx_copy_add k s p = some (s', r) := by
  obtain ⟨s1, b, hg⟩ := tsdfx_copy_add_grow_total k (s.copy_len.toNat + 1) s (by omega)
  obtain ⟨ext, evs, e1, e2, -⟩ := tsdfx_copy_add_grow_spec k _ _ _ _ hg
  unfold tsdfx_copy_add
  simp only [hd, hg]
  cases b with
  | false => exact ⟨_, _, rfl⟩
  | true =>
    have hlt := e2 rfl
    have hd1 : deref s1 p = some tp := by
      have := @deref_congr s s1 (by rw [e1]) p
      rw [this]; exact hd
    have hl : s1.copy_len = s.copy_len := by rw [e1]
    have hc : s1.copy_tasks = s.copy_tasks ++ ext := by rw [e1]
    have h1 : ¬ ¬ (s1.copy_len + 1 ≤ (s1.copy_sz : Int)) := by
      simp only [State.copy_sz, hl, hc, not_not]
      omega
    have h2 : 0 ≤ s1.copy_len ∧ s1.copy_len.toNat < s1.copy_tasks.length := by
      rw [hl, hc]; omega
    simp only [if_neg h1, write_slot, if_pos h2, hd1]
    exact ⟨_, _, rfl⟩

/-- The effect on the registry of a successful `tsdfx_copy_add`. -/
theorem tsdfx_copy_add_ok {k : Kernel} {s s' : State} {p : Nat} {r : Int}
    (h : tsdfx_copy_add k s p = some (s', r)) (hr : 0 ≤ r) :
    ∃ (tp : copy_task) (n : Nat), deref s p = some tp ∧ s.copy_len = (n : Int) ∧
      r = s.copy_len ∧
      s'.copy_len = s.copy_len + 1 ∧
      s'.copy_running = s.copy_running ∧
      s'.tsdfx_copy_max_tasks = s.tsdfx_copy_max_tasks ∧
      (∃ evs, s'.log = s.log ++ evs ∧ ∀ m c, Event.jobs m c ∈ evs → c = s.copy_running) ∧
      s'.heap = s.heap.set p (some { tp with index := s.copy_len }) ∧
      (n : Int) < s'.copy_tasks.length ∧
      s.copy_tasks.length ≤ s'.copy_tasks.length ∧
      s'.copy_tasks[n]? = some (some p) ∧
      (∀ i, i < s.copy_tasks.length → i ≠ n → s'.copy_tasks[i]? = s.copy_tasks[i]?) := by
  obtain ⟨tp, ext, evs, hd, hj, hc⟩ := tsdfx_copy_add_spec h
  rcases hc with ⟨h1, -⟩ | ⟨h1, h2, h3, h4⟩
  · omega
  · obtain ⟨n, hn⟩ := Int.eq_ofNat_of_zero_le h2
    have hlt : n < (s.copy_tasks ++ ext).length := by omega
    refine ⟨tp, n, hd, hn, h1, by rw [h4], by rw [h4], by rw [h4], ⟨evs, by rw [h4], hj⟩,
      by rw [h4], ?_, ?_, ?_, ?_⟩
    · rw [h4]; simp only [List.length_set]; omega
    · rw [h4]; simp
    · rw [h4]
      simp only [hn, Int.toNat_ofNat]
      exact List.getElem?_set_self hlt
    · intro i hi hne
      rw [h4]
      simp only [hn, Int.toNat_ofNat]
      rw [List.getElem?_set_ne (fun e => hne e.symm), List.getElem?_append_left hi]

theorem tsdfx_copy_add_wf {k : Kernel} {s s' : State} {p : Nat} {r : Int} (hw : WF s)
    (hfresh : ∀ i : Nat, (i : Int) < s.copy_len → s.copy_tasks[i]? ≠ some (some p))
    (h : tsdfx_copy_add k s p = some (s', r)) (hr : 0 ≤ r) : WF s' := by
  obtain ⟨tp, n, hd, hn, -, a1, -, -, -, a2, a3, a4, a5, a6⟩ := tsdfx_copy_add_ok h hr
  have hp : deref s' p = some { tp with index := s.copy_len } := by
    apply deref_of_eq
    rw [a2]
    exact List.getElem?_set_self (deref_lt hd)
  refine ⟨by omega, by omega, ?_⟩
  intro i hi
  by_cases hin : i = n
  · subst hin
    exact ⟨p, _, a5, hp, hn⟩
  · have hlt : (i : Int) < s.copy_len := by omega
    obtain ⟨q, tq, e1, e2, e3⟩ := hw.live i hlt
    have hil : i < s.copy_tasks.length := by
      have := hw.len_le
      omega
    have hqp : q ≠ p := by
      intro e; subst e; exact hfresh i hlt e1
    refine ⟨q, tq, by rw [a6 i hil hin]; exact e1, ?_, e3⟩
    apply deref_of_eq
    rw [a2, List.getElem?_set_ne (fun e => hqp e.symm)]
    exact deref_eq e2

/-! ### Reachable registries -/

theorem deref_alloc (s : State) (t : copy_task) {q : Nat} {tq : copy_task}
    (h : deref s q = some tq) :
    deref { s with heap := s.heap ++ [some t] } q = some tq := by
  apply deref_of_eq
  show (s.heap ++ [some t])[q]? = some (some tq)
  rw [List.getElem?_append_left (deref_lt h)]
  exact deref_eq h

theorem reachable_wf {s : State} (h : reachable s) : WF s := by
  induction h with
  | empty s h1 h2 =>
    refine ⟨by omega, by rw [h2]; omega, ?_⟩
    intro i hi
    omega
  | alloc s t _ ih =>
    refine ⟨ih.len_nonneg, ih.len_le, ?_⟩
    intro i hi
    obtain ⟨q, tq, e1, e2, e3⟩ := ih.live i hi
    exact ⟨q, tq, e1, deref_alloc s t e2, e3⟩
  | add k s s' task r _ hfresh hadd hr ih => exact tsdfx_copy_add_wf ih hfresh hadd hr
  | remove s s' task i _ hi hp hrm ih =>
    obtain ⟨p', t, e1, e2, -⟩ := ih.live i hi
    rw [hp] at e1
    simp only [Option.some.injEq] at e1
    subst e1
    by_cases hcap : s.copy_len < s.copy_tasks.length
    · obtain ⟨n, hn⟩ := Int.eq_ofNat_of_zero_le ih.len_nonneg
      obtain ⟨s'', a1, a2, -⟩ := @tsdfx_copy_remove_wf _ ih i _ _ _ hn (by omega) (by omega) hp e2
      rw [a1] at hrm
      simp only [Option.some.injEq, Prod.mk.injEq, and_true] at hrm
      rw [← hrm]; exact a2
    · have hfull : s.copy_len = s.copy_tasks.length := by
        have := ih.len_le
        omega
      rw [tsdfx_copy_remove_full ih hi hp e2 hfull] at hrm
      simp at hrm

/-- C1 (amended): in every registry state reached from the empty registry by
successful calls of `tsdfx_copy_add`, each on a task that is not in the
registry at the time of the call, and of `tsdfx_copy_remove`, each on a task
that is in the registry, every position `i` below the logical length holds a
task whose stored index is `i`. -/
theorem C1_index_invariant (s : State) (h : reachable s) :
    ∀ i : Int, 0 ≤ i → i < s.copy_len → ∃ t, task_at s i = some t ∧ t.index = i := by
  intro i h0 hi
  obtain ⟨n, rfl⟩ := Int.eq_ofNat_of_zero_le h0
  obtain ⟨p, t, -, -, e, hx⟩ := (reachable_wf h).task_at hi
  exact ⟨t, e, hx⟩

theorem reachable_state_after_remove : reachable state_after_remove := by
  have h0 : reachable State.init := reachable.empty _ rfl rfl
  have h1 := reachable.alloc _ (task_x TASK_IDLE 0 (-1)) h0
  have h2 : reachable state_one_added :=
    reachable.add kernel_alive _ state_one_added 0 0 h1 (by intro i hi; simp [State.init] at hi; omega)
      (by decide) (by decide)
  have h3 := reachable.alloc _ (task_y TASK_IDLE 0 (-1)) h2
  have h4 : reachable state_two_added :=
    reachable.add kernel_alive _ state_two_added 1 1 h3
      (by
        intro i hi
        have : i = 0 := by simp [state_one_added] at hi; omega
        subst this
        decide)
      (by decide) (by decide)
  exact reachable.remove state_two_added state_after_remove 0 0 h4 (by decide) (by decide)
    (by decide)

/-- Witness of C1: two tasks added, the first removed. -/
theorem C1_index_invariant_witness :
    reachable state_after_remove ∧
    ∀ i : Int, 0 ≤ i → i < state_after_remove.copy_len →
      ∃ t, task_at state_after_remove i = some t ∧ t.index = i :=
  ⟨reachable_state_after_remove,
    C1_index_invariant state_after_remove reachable_state_after_remove⟩

theorem reachable_any_state_added_twice : reachable_any state_added_twice := by
  have h0 : reachable_any State.init := reachable_any.empty _ rfl rfl
  have h1 := reachable_any.alloc _ (task_x TASK_IDLE 0 (-1)) h0
  have h2 : reachable_any state_one_added :=
    reachable_any.add kernel_alive _ state_one_added 0 0 h1 (by decide) (by decide)
  exact reachable_any.add kernel_alive state_one_added state_added_twice 0 1 h2 (by decide)
    (by decide)

/-- C1 (counterexample): the claim as stated, for any sequence of successful
calls of `tsdfx_copy_add`.  The task for `/a/x` is added twice to the empty
registry; both calls succeed, with results 0 and 1, and the record stored at
position 0 has index 1. -/
theorem C1_counterexample :
    tsdfx_copy_add kernel_alive { State.init with heap := [some (task_x TASK_IDLE 0 (-1))] } 0 =
      some (state_one_added, 0) ∧
    tsdfx_copy_add kernel_alive state_one_added 0 = some (state_added_twice, 1) ∧
    task_at state_added_twice 0 = some (task_x TASK_IDLE 1 (-1)) ∧
    ¬ ∀ s, reachable_any s →
      ∀ i : Int, 0 ≤ i → i < s.copy_len → ∃ t, task_at s i = some t ∧ t.index = i := by
  refine ⟨by decide, by decide, by decide, ?_⟩
  intro h
  obtain ⟨t, ht, hx⟩ := h state_added_twice reachable_any_state_added_twice 0 (by decide)
    (by decide)
  have e : task_at state_added_twice 0 = some (task_x TASK_IDLE 1 (-1)) := by decide
  rw [e] at ht
  simp only [Option.some.injEq] at ht
  rw [← ht] at hx
  exact absurd hx (by decide)

/-! ### Creating a task -/

theorem tsdfx_copy_new_fail_spec {s s' : State} {p : Nat} {res : Option Nat}
    (h : tsdfx_copy_new_fail s p = some (s', res)) :
    res = none ∧ s'.copy_tasks = s.copy_tasks ∧ s'.copy_len = s.copy_len ∧
      s'.copy_running = s.copy_running ∧
      s'.tsdfx_copy_max_tasks = s.tsdfx_copy_max_tasks ∧ s'.log = s.log ∧
      ∀ q, q ≠ p → deref s' q = deref s q := by
  unfold tsdfx_copy_new_fail at h
  split at h
  · simp at h
  · next s1 hf =>
    simp only [Option.some.injEq, Prod.mk.injEq] at h
    unfold free at hf
    split at hf
    · next t hd =>
      obtain ⟨s2, e, b1, b2, b3, b4, b5, -, b7⟩ := deref_free hd
      simp only [Option.some.injEq] at hf
      rw [← h.1, ← hf]
      refine ⟨h.2.symm, rfl, rfl, rfl, rfl, rfl, ?_⟩
      intro q hq
      simp [deref, List.getElem?_set_ne (Ne.symm hq)]
    · simp at hf

theorem tsdfx_copy_new_fail_frame {s S s' : State} {x : copy_task} {ext : List (Option Nat)}
    {evs : List Event} {res : Option Nat}
    (h : tsdfx_copy_new_fail S s.heap.length = some (s', res))
    (h1 : S.heap = s.heap ++ [some x])
    (h2 : S.copy_tasks = s.copy_tasks ++ ext) (h3 : S.copy_len = s.copy_len)
    (h4 : S.copy_running = s.copy_running)
    (h5 : S.tsdfx_copy_max_tasks = s.tsdfx_copy_max_tasks) (h6 : S.log = s.log ++ evs)
    (h7 : ∀ n c, Event.jobs n c ∈ evs → c = s.copy_running) :
    s'.copy_running = s.copy_running ∧
    s'.tsdfx_copy_max_tasks = s.tsdfx_copy_max_tasks ∧
    (∃ evs, s'.log = s.log ++ evs ∧ ∀ n c, Event.jobs n c ∈ evs → c = s.copy_running) ∧
    (∀ q t, deref s q = some t → deref s' q = some t) ∧
    (∀ i : Nat, i < s.copy_tasks.length → (i : Int) < s.copy_len →
      s'.copy_tasks[i]? = s.copy_tasks[i]?) ∧
    s.copy_tasks.length ≤ s'.copy_tasks.length ∧
    res = none ∧ s'.copy_len = s.copy_len := by
  obtain ⟨a1, a2, a3, a4, a5, a6, a7⟩ := tsdfx_copy_new_fail_spec h
  refine ⟨by rw [a4, h4], by rw [a5, h5], ⟨evs, by rw [a6, h6], h7⟩, ?_, ?_, ?_, a1,
    by rw [a3, h3]⟩
  · intro q t hq
    have hlt := deref_lt hq
    rw [a7 q (by omega)]
    apply deref_of_eq
    rw [h1, List.getElem?_append_left hlt]
    exact deref_eq hq
  · intro i hi _
    rw [a2, h2, List.getElem?_append_left hi]
  · rw [a2, h2]; simp

/-- What `tsdfx_copy_new` does to the registry. -/
theorem tsdfx_copy_new_spec {k : Kernel} {s s' : State} {src dst : List Char}
    {res : Option Nat} (h : tsdfx_copy_new k s src dst = some (s', res)) :
    s'.copy_running = s.copy_running ∧
    s'.tsdfx_copy_max_tasks = s.tsdfx_copy_max_tasks ∧
    (∃ evs, s'.log = s.log ++ evs ∧ ∀ n c, Event.jobs n c ∈ evs → c = s.copy_running) ∧
    (∀ q t, deref s q = some t → deref s' q = some t) ∧
    (∀ i : Nat, i < s.copy_tasks.length → (i : Int) < s.copy_len →
      s'.copy_tasks[i]? = s.copy_tasks[i]?) ∧
    s.copy_tasks.length ≤ s'.copy_tasks.length ∧
    ((res = none ∧ s'.copy_len = s.copy_len) ∨
      (res = some s.heap.length ∧ 0 ≤ s.copy_len ∧ s'.copy_len = s.copy_len + 1 ∧
        s.copy_len < s'.copy_tasks.length ∧
        s'.copy_tasks[s.copy_len.toNat]? = some (some s.heap.length) ∧
        ∃ st, k.lstat s.log src = some st ∧
          deref s' s.heap.length = some
            { srcpath := src, dstpath := dst, index := s.copy_len, state := TASK_IDLE,
              uid := st.st_uid, gid := st.st_gid, pid := -1 })) := by
  unfold tsdfx_copy_new at h
  dsimp only at h
  cases hl : k.lstat s.log src with
  | none =>
    simp only [hl, Option.some.injEq, Prod.mk.injEq] at h
    rw [← h.1]
    exact ⟨rfl, rfl, ⟨_, rfl, by simp⟩, fun q t hq => hq, fun i _ _ => rfl, le_refl _,
      Or.inl ⟨h.2.symm, rfl⟩⟩
  | some st =>
    simp only [hl] at h
    cases ha : k.alloc (s.log ++ [Event.lstat src]) with
    | false =>
      simp only [ha, Bool.false_eq_true, not_false_eq_true, if_true, Option.some.injEq,
        Prod.mk.injEq] at h
      rw [← h.1]
      exact ⟨rfl, rfl, ⟨_, by simp only [List.append_assoc]; rfl, by simp⟩, fun q t hq => hq,
        fun i _ _ => rfl, le_refl _, Or.inl ⟨h.2.symm, rfl⟩⟩
    | true =>
      simp only [ha, not_true_eq_false, if_false, copy_task.zero, store, List.length_append,
        List.length_singleton, List.set_append_right _ _ (le_refl _), Nat.sub_self, List.set_cons_zero] at h
      have hj : ∀ n c, Event.jobs n c ∈ [Event.lstat src, Event.alloc] → c = s.copy_running := by
        intro n c hm; simp at hm
      have hlog : s.log ++ [Event.lstat src] ++ [Event.alloc] =
          s.log ++ [Event.lstat src, Event.alloc] := by simp
      by_cases h1 : src.length ≥ PATH_MAX
      · rw [if_pos h1] at h
        have := tsdfx_copy_new_fail_frame h rfl (List.append_nil _).symm rfl rfl rfl hlog hj
        exact ⟨this.1, this.2.1, this.2.2.1, this.2.2.2.1, this.2.2.2.2.1, this.2.2.2.2.2.1,
          Or.inl this.2.2.2.2.2.2⟩
      · rw [if_neg h1] at h
        by_cases h2 : dst.length ≥ PATH_MAX
        · rw [if_pos h2] at h
          have := tsdfx_copy_new_fail_frame h rfl (List.append_nil _).symm rfl rfl rfl hlog hj
          exact ⟨this.1, this.2.1, this.2.2.1, this.2.2.2.1, this.2.2.2.2.1, this.2.2.2.2.2.1,
            Or.inl this.2.2.2.2.2.2⟩
        · rw [if_neg h2] at h
          have e1 : List.take (PATH_MAX - 1) src = src := List.take_of_length_le (by omega)
          have e2 : List.take (PATH_MAX - 1) dst = dst := List.take_of_length_le (by omega)
          rw [e1, e2] at h
          split at h
          · simp at h
          · next s6 r hadd =>
            obtain ⟨tp, ext, evs, hd, hj6, hc⟩ := tsdfx_copy_add_spec hadd
            have hd5 : tp =
                { srcpath := src, dstpath := dst, index := 0, state := TASK_IDLE,
                  uid := st.st_uid, gid := st.st_gid, pid := -1 } := by
              have := deref_eq hd
              simp only [List.getElem?_concat_length, Option.some.injEq] at this
              exact this.symm
            have hjj : ∀ n c, Event.jobs n c ∈ [Event.lstat src, Event.alloc] ++ evs →
                c = s.copy_running := by
              intro n c hm
              simp only [List.cons_append, List.nil_append, List.mem_cons, reduceCtorEq,
                false_or] at hm
              exact hj6 n c hm
            rcases hc with ⟨c1, c2⟩ | ⟨c1, c2, c3, c4⟩
            · have hneg : r < 0 := by omega
              rw [if_pos hneg] at h
              have := tsdfx_copy_new_fail_frame h (by rw [c2]) (by rw [c2]) (by rw [c2])
                (by rw [c2]) (by rw [c2])
                (by rw [c2]; simp only [List.append_assoc]; rfl) hjj
              exact ⟨this.1, this.2.1, this.2.2.1, this.2.2.2.1, this.2.2.2.2.1,
                this.2.2.2.2.2.1, Or.inl this.2.2.2.2.2.2⟩
            · have hneg : ¬ r < 0 := by
                rw [c1]; exact not_lt.mpr c2
              rw [if_neg hneg] at h
              subst hd5
              dsimp only at c1 c2 c3 c4 hj6
              have hh : s6.heap = s.heap ++
                  [some { srcpath := src, dstpath := dst, index := s.copy_len,
                          state := TASK_IDLE, uid := st.st_uid, gid := st.st_gid,
                          pid := -1 }] := by
                rw [c4]
                simp
              have hd6 : deref s6 s.heap.length = some
                  { srcpath := src, dstpath := dst, index := s.copy_len,
                    state := TASK_IDLE, uid := st.st_uid, gid := st.st_gid, pid := -1 } := by
                apply deref_of_eq
                rw [hh]
                simp
              simp only [hd6, Option.some.injEq, Prod.mk.injEq] at h
              obtain ⟨n, hn⟩ := Int.eq_ofNat_of_zero_le c2
              have hlt : n < (s.copy_tasks ++ ext).length := by
                rw [hn] at c3
                exact_mod_cast c3
              have hs' : s'.heap = s.heap ++
                  [some { srcpath := src, dstpath := dst, index := s.copy_len,
                          state := TASK_IDLE, uid := st.st_uid, gid := st.st_gid,
                          pid := -1 }] := by
                rw [← h.1, hh]
                simp
              have hc' : s'.copy_tasks = (s.copy_tasks ++ ext).set n (some s.heap.length) := by
                rw [← h.1, c4]
                simp [hn]
              refine ⟨by rw [← h.1, c4], by rw [← h.1, c4],
                ⟨[Event.lstat src, Event.alloc] ++ evs, ?_, hjj⟩, ?_, ?_, ?_, Or.inr
                  ⟨h.2.symm, c2, by rw [← h.1, c4], ?_, ?_, st, rfl, ?_⟩⟩
              · rw [← h.1, c4]
                simp only [List.append_assoc]
                rfl
              · intro q t hq
                apply deref_of_eq
                rw [hs', List.getElem?_append_left (deref_lt hq)]
                exact deref_eq hq
              · intro i hi hil
                have : i ≠ n := by omega
                rw [hc', List.getElem?_set_ne (fun e => this e.symm),
                  List.getElem?_append_left hi]
              · rw [hc']; simp
              · rw [hc', List.length_set, hn]
                exact_mod_cast hlt
              · rw [hc', hn, Int.toNat_ofNat]
                exact List.getElem?_set_self hlt
              · apply deref_of_eq
                rw [hs']
                simp

/-! ### Further claims refuted by evaluation -/

/-- C11 (failing input): in a registry of two tasks the last one (pointer 1,
index 1) is removed twice in a row.  The first call succeeds and leaves the
pointer in the vacated slot 1; the second call finds `copy_tasks[1] == task`,
so it also returns 0, and it lowers the logical length to 0: the task at
position 0 is no longer in the registry. -/
theorem C11_second_remove_succeeds :
    tsdfx_copy_remove state_two_idle 1 = some
      ({ state_two_idle with copy_len := 1, log := [Event.jobs 1 0] }, 0) ∧
    tsdfx_copy_remove { state_two_idle with copy_len := 1, log := [Event.jobs 1 0] } 1 = some
      ({ state_two_idle with
          copy_tasks := [some 0, none, none, none], copy_len := 0,
          log := [Event.jobs 1 0, Event.jobs 0 0] }, 0) := by
  decide

/-- C16 (failing input): in the child process `setgid` and `setuid` both
fail and the process keeps uid 0 and gid 0; the copy routine is invoked all
the same, after two warnings, and the child exits with status 0. -/
theorem C16_child_copies_after_failed_drop :
    child_env_denied.setgid 1000 = -1 ∧ child_env_denied.setuid 1000 = -1 ∧
    tsdfx_copy_start_child child_env_denied (task_x TASK_STARTING 0 0) =
      ([child_event.setgid 1000, child_event.setuid 1000,
        child_event.warning "copying with uid 0", child_event.warning "copying with gid 0",
        child_event.umask 7, child_event.tsdfx_copier "/a/x".toList "/b/x".toList], 0) := by
  decide

/-- C17 (failing input): a RUNNING copy task with pid 7 whose child has exited
with code 0 is polled; the state becomes STOPPED and the counter drops, but
the pid is still 7. -/
theorem C17_poll_keeps_pid :
    tsdfx_copy_poll kernel_exit0 state_running 0 = some
      ({ state_running with
          heap := [some (task_x TASK_STOPPED 0 7)], copy_running := 0,
          log := [Event.waitpid 7, Event.jobs 1 0] }, 0) ∧
    (tsdfx_copy_poll kernel_exit0 state_running 0).map
      (fun r => (deref r.1 0).map fun t => t.pid) = some (some 7) := by
  decide

/-- C19 (failing input): the file list `x`, whose only entry has no newline.
The inner scan stops at the terminating NUL (index 1), the loop then steps to
index 2, behind the terminator, and reads there: the call has no defined
result.  With the newline the call returns. -/
theorem C19_scan_passes_terminator :
    scan_line "x".toList 3 0 = some 1 ∧ rd "x".toList 1 = some NUL ∧
    rd "x".toList (1 + 1) = none ∧
    tsdfx_copy_wrap kernel_scenario State.init "/a/".toList "/b/".toList "x".toList = none ∧
    (tsdfx_copy_wrap kernel_scenario State.init "/a/".toList "/b/".toList
      "x\n".toList).isSome = true := by
  decide

/-- C20 (failing input): a full registry, sixteen tasks in sixteen slots.
Removing the first task (or any other) writes the slot `copy_tasks[16]`,
behind the array: the call has no defined result. -/
theorem C20_remove_writes_behind_full_array :
    state_full.copy_len = state_full.copy_sz ∧
    write_slot state_full.copy_tasks state_full.copy_len none = none ∧
    tsdfx_copy_remove state_full 0 = none ∧ tsdfx_copy_remove state_full 15 = none := by
  decide

/-! ### Scanning the file list -/

theorem rd_entry (pre name post : List Char) (j : Nat) (hj : j < name.length) :
    rd (pre ++ name ++ '\n' :: post) (pre.length + j) = name[j]? := by
  unfold rd
  rw [if_neg (by simp; omega), List.append_assoc, List.getElem?_append_right (by omega),
    List.getElem?_append_left (by omega)]
  congr 1
  omega

theorem rd_newline (pre name post : List Char) :
    rd (pre ++ name ++ '\n' :: post) (pre.length + name.length) = some '\n' := by
  unfold rd
  rw [if_neg (by simp), List.getElem?_append_right (by simp)]
  simp

theorem rd_end (files : List Char) : rd files files.length = some NUL := by
  simp [rd]

theorem scan_line_entry (pre name post : List Char)
    (hn : ∀ c ∈ name, c ≠ NUL ∧ c ≠ '\n') :
    ∀ (d j fuel : Nat), j + d = name.length → d < fuel →
      scan_line (pre ++ name ++ '\n' :: post) fuel (pre.length + j) =
        some (pre.length + name.length) := by
  intro d
  induction d with
  | zero =>
    intro j fuel hj hf
    obtain ⟨f, rfl⟩ : ∃ f, fuel = f + 1 := ⟨fuel - 1, by omega⟩
    have : j = name.length := by omega
    subst this
    rw [scan_line, rd_newline]
    simp
  | succ d ih =>
    intro j fuel hj hf
    obtain ⟨f, rfl⟩ : ∃ f, fuel = f + 1 := ⟨fuel - 1, by omega⟩
    have hlt : j < name.length := by omega
    rw [scan_line, rd_entry _ _ _ _ hlt, List.getElem?_eq_getElem hlt]
    have := hn name[j] (List.getElem_mem _)
    simp only [this, ne_eq, not_false_eq_true, and_self, if_true]
    exact ih (j + 1) f (by omega) (by omega)

theorem memchr_entry (pre name post : List Char) :
    ∀ (d j : Nat), j + d = name.length →
      memchr (pre ++ name ++ '\n' :: post) '/' (pre.length + j) (d + 1) =
        some (decide ('/' ∈ name.drop j)) := by
  intro d
  induction d with
  | zero =>
    intro j hj
    have : j = name.length := by omega
    subst this
    rw [memchr, rd_newline]
    simp [memchr]
  | succ d ih =>
    intro j hj
    have hlt : j < name.length := by omega
    rw [memchr, rd_entry _ _ _ _ hlt, List.getElem?_eq_getElem hlt]
    have hd : name.drop j = name[j] :: name.drop (j + 1) := List.drop_eq_getElem_cons hlt
    by_cases hc : name[j] = '/'
    · simp [hc, hd]
    · have := ih (j + 1) (by omega)
      simp only [hc, if_false]
      rw [show pre.length + j + 1 = pre.length + (j + 1) by omega, this]
      have e : ('/' ∈ name.drop (j + 1)) ↔ ('/' ∈ name.drop j) := by
        rw [hd, List.mem_cons]
        constructor
        · exact Or.inr
        · rintro (h | h)
          · exact absurd h.symm hc
          · exact h
      simp only [e]

theorem take_drop_entry (pre name post : List Char) :
    ((pre ++ name ++ '\n' :: post).drop pre.length).take name.length = name := by
  rw [List.append_assoc, List.drop_left, List.take_left]

theorem tsdfx_copy_wrap_loop_step (k : Kernel) (srcdir dstdir : List Char) (maxlen : Nat)
    (pre name post : List Char) (hn : ∀ c ∈ name, c ≠ NUL ∧ c ≠ '\n') (n : Nat) (s : State) :
    tsdfx_copy_wrap_loop k srcdir dstdir maxlen (pre ++ name ++ '\n' :: post) (n + 1)
        pre.length s =
      if entry_skipped maxlen name then
        tsdfx_copy_wrap_loop k srcdir dstdir maxlen (pre ++ name ++ '\n' :: post) n
          (pre.length + name.length + 1) s
      else
        match tsdfx_copy_wrap_entry k s (srcdir ++ name) (dstdir ++ name) with
        | none => none
        | some s1 =>
          tsdfx_copy_wrap_loop k srcdir dstdir maxlen (pre ++ name ++ '\n' :: post) n
            (pre.length + name.length + 1) s1 := by
  have hscan : scan_line (pre ++ name ++ '\n' :: post)
      ((pre ++ name ++ '\n' :: post).length + 2) pre.length =
      some (pre.length + name.length) := by
    have := scan_line_entry pre name post hn name.length 0
      ((pre ++ name ++ '\n' :: post).length + 2) (by omega) (by simp; omega)
    simpa using this
  have hrd : ∃ c, rd (pre ++ name ++ '\n' :: post) pre.length = some c ∧ c ≠ NUL := by
    cases name with
    | nil =>
      have := rd_newline pre [] post
      simp only [List.length_nil, Nat.add_zero] at this
      exact ⟨'\n', this, by decide⟩
    | cons a l =>
      have := rd_entry pre (a :: l) post 0 (by simp)
      simp only [Nat.add_zero, List.getElem?_cons_zero] at this
      exact ⟨a, this, (hn a (List.mem_cons_self _ _)).1⟩
  obtain ⟨c, hc, hcn⟩ := hrd
  rw [tsdfx_copy_wrap_loop, hc]
  simp only [hcn, if_false, hscan]
  by_cases h1 : name = []
  · have hs : entry_skipped maxlen name := Or.inl h1
    subst h1
    simp [hs]
  · have hpos : 0 < name.length := List.length_pos.mpr h1
    have hq : ¬ (pre.length + name.length = pre.length) := by omega
    rw [if_neg hq]
    have hsub : pre.length + name.length - pre.length = name.length := by omega
    rw [hsub]
    by_cases h2 : name.length ≥ maxlen
    · have hs : entry_skipped maxlen name := Or.inr (Or.inl h2)
      rw [if_pos h2, if_pos hs]
    · rw [if_neg h2]
      obtain ⟨d, hd⟩ : ∃ d, name.length = d + 1 := ⟨name.length - 1, by omega⟩
      have hm := memchr_entry pre name post d 1 (by omega)
      rw [← hd] at hm
      rw [hm]
      by_cases h3 : '/' ∈ name.drop 1
      · have hs : entry_skipped maxlen name := Or.inr (Or.inr h3)
        simp only [h3, decide_True, if_pos hs]
      · have hs : ¬ entry_skipped maxlen name := by
          rintro (h | h | h)
          · exact h1 h
          · exact h2 h
          · exact h3 h
        simp only [h3, decide_False, if_neg hs]
        have ht := take_drop_entry pre name post
        rw [ht]

theorem file_list_cons (name : List Char) (rest : List (List Char)) :
    file_list (name :: rest) = name ++ '\n' :: file_list rest := by
  simp [file_list]

theorem file_list_length (entries : List (List Char)) :
    entries.length ≤ (file_list entries).length := by
  induction entries with
  | nil => simp
  | cons a l ih =>
    rw [file_list_cons]
    simp only [List.length_cons, List.length_append]
    omega

theorem tsdfx_copy_wrap_loop_entries (k : Kernel) (srcdir dstdir : List Char) (maxlen : Nat)
    (entries : List (List Char)) (hok : entries_ok entries) :
    ∀ (pre : List Char) (n : Nat) (s : State), entries.length < n →
      tsdfx_copy_wrap_loop k srcdir dstdir maxlen (pre ++ file_list entries) n pre.length s =
        wrap_entries k srcdir dstdir maxlen entries s := by
  induction entries with
  | nil =>
    intro pre n s hn
    obtain ⟨m, rfl⟩ : ∃ m, n = m + 1 := ⟨n - 1, by simp at hn; omega⟩
    have hrd : rd (pre ++ file_list []) pre.length = some NUL := by
      simp [rd, file_list]
    rw [tsdfx_copy_wrap_loop, hrd]
    simp [wrap_entries]
  | cons name rest ih =>
    intro pre n s hn
    obtain ⟨m, rfl⟩ : ∃ m, n = m + 1 := ⟨n - 1, by simp at hn; omega⟩
    have hname : ∀ c ∈ name, c ≠ NUL ∧ c ≠ '\n' := hok name (List.mem_cons_self _ _)
    have hrest : entries_ok rest := fun a ha => hok a (List.mem_cons_of_mem _ ha)
    have hm : rest.length < m := by simp at hn; omega
    have hfiles : pre ++ file_list (name :: rest) = pre ++ name ++ '\n' :: file_list rest := by
      rw [file_list_cons, List.append_assoc]
    have hnext : pre ++ name ++ '\n' :: file_list rest =
        (pre ++ name ++ ['\n']) ++ file_list rest := by simp
    have hlen : pre.length + name.length + 1 = (pre ++ name ++ ['\n']).length := by simp; omega
    rw [hfiles, tsdfx_copy_wrap_loop_step k srcdir dstdir maxlen pre name _ hname, wrap_entries]
    rw [hnext, hlen]
    by_cases hs : entry_skipped maxlen name
    · rw [if_pos hs, if_pos hs]
      exact ih hrest _ m s hm
    · rw [if_neg hs, if_neg hs]
      cases tsdfx_copy_wrap_entry k s (srcdir ++ name) (dstdir ++ name) with
      | none => rfl
      | some s1 => exact ih hrest _ m s1 hm

theorem tsdfx_copy_wrap_entries (k : Kernel) (s : State) (srcdir dstdir : List Char)
    (entries : List (List Char)) (hok : entries_ok entries) :
    tsdfx_copy_wrap k s srcdir dstdir (file_list entries) =
      if srcdir.length ≥ PATH_MAX ∨ dstdir.length ≥ PATH_MAX then some (s, -1)
      else
        match wrap_entries k srcdir dstdir (wrap_maxlen srcdir dstdir) entries s with
        | none => none
        | some s1 => some (s1, 0) := by
  have h := tsdfx_copy_wrap_loop_entries k srcdir dstdir (wrap_maxlen srcdir dstdir) entries hok
    [] ((file_list entries).length + 2) s (by have := file_list_length entries; omega)
  simp only [List.nil_append, List.length_nil] at h
  simp only [tsdfx_copy_wrap]
  by_cases hl : srcdir.length ≥ PATH_MAX ∨ dstdir.length ≥ PATH_MAX
  · rw [if_pos hl, if_pos hl]
  · rw [if_neg hl, if_neg hl]
    have e : (if PATH_MAX - srcdir.length - 1 > PATH_MAX - dstdir.length - 1 then
        PATH_MAX - dstdir.length - 1 else PATH_MAX - srcdir.length - 1) =
        wrap_maxlen srcdir dstdir := rfl
    rw [e, h]

/-! ### Lookup -/

theorem tsdfx_copy_find_loop_spec {s : State} (h : WF s) (src dst : List Char) :
    ∀ (n i : Nat), (i : Int) + n = s.copy_len →
      ∃ r, tsdfx_copy_find_loop s (some src) (some dst) n i = some r ∧
        ((r = -1 ∧ ∀ j : Nat, i ≤ j → (j : Int) < s.copy_len →
            ∀ t, task_at s j = some t → ¬ (t.srcpath = src ∧ t.dstpath = dst)) ∨
          (0 ≤ r ∧ r < s.copy_len ∧
            ∃ t, task_at s r = some t ∧ t.srcpath = src ∧ t.dstpath = dst)) := by
  intro n
  induction n with
  | zero =>
    intro i hi
    refine ⟨-1, rfl, Or.inl ⟨rfl, ?_⟩⟩
    intro j hj hlt
    omega
  | succ n ih =>
    intro i hi
    obtain ⟨p, t, -, -, ht, -⟩ := h.task_at (show (i : Int) < s.copy_len by omega)
    obtain ⟨r, hr, hc⟩ := ih (i + 1) (by push_cast; omega)
    have hskip : (t.srcpath = src ∧ t.dstpath = dst) ∨ ¬ (t.srcpath = src ∧ t.dstpath = dst) :=
      Classical.em _
    rcases hskip with ⟨e1, e2⟩ | hne
    · refine ⟨i, ?_, Or.inr ⟨by omega, by omega, t, ht, e1, e2⟩⟩
      simp [tsdfx_copy_find_loop, field_differs, ht, e1, e2]
    · refine ⟨r, ?_, ?_⟩
      · rw [← hr]
        by_cases e1 : t.srcpath = src
        · have e2 : ¬ t.dstpath = dst := fun e2 => hne ⟨e1, e2⟩
          have e2' : ¬ dst = t.dstpath := fun e => e2 e.symm
          simp [tsdfx_copy_find_loop, field_differs, ht, e1, e2']
        · have e1' : ¬ src = t.srcpath := fun e => e1 e.symm
          simp [tsdfx_copy_find_loop, field_differs, ht, e1']
      · rcases hc with ⟨hr1, hall⟩ | hfound
        · refine Or.inl ⟨hr1, ?_⟩
          intro j hj hlt tj htj
          by_cases hji : j = i
          · subst hji
            rw [ht] at htj
            simp only [Option.some.injEq] at htj
            subst htj
            exact hne
          · exact hall j (by omega) hlt tj htj
        · exact Or.inr hfound

theorem tsdfx_copy_find_spec {s : State} (h : WF s) (src dst : List Char) :
    ∃ r, tsdfx_copy_find s 0 (some src) (some dst) = some r ∧
      ((r < 0 ∧ ¬ has_pair s src dst) ∨ (0 ≤ r ∧ has_pair s src dst)) := by
  have hn := h.len_nonneg
  obtain ⟨r, hr, hc⟩ := tsdfx_copy_find_loop_spec h src dst (s.copy_len - 0).toNat 0
    (by simp only [Int.sub_zero, Nat.cast_zero]; omega)
  refine ⟨r, by simpa [tsdfx_copy_find] using hr, ?_⟩
  rcases hc with ⟨hr1, hall⟩ | ⟨h0, hlt, t, ht, e1, e2⟩
  · refine Or.inl ⟨by omega, ?_⟩
    rintro ⟨i, hi, t, ht, e1, e2⟩
    exact hall i (Nat.zero_le _) hi t ht ⟨e1, e2⟩
  · refine Or.inr ⟨h0, r.toNat, by omega, t, ?_, e1, e2⟩
    rw [Int.toNat_of_nonneg h0]
    exact ht

/-! ### Creation and reconciliation -/

theorem deref_last {S : State} {h : List (Option copy_task)} {t : copy_task}
    (e : S.heap = h ++ [some t]) : deref S h.length = some t := by
  apply deref_of_eq
  rw [e]
  exact List.getElem?_concat_length _ _

theorem tsdfx_copy_new_fail_total {s : State} {p : Nat} {t : copy_task}
    (hd : deref s p = some t) : ∃ s' res, tsdfx_copy_new_fail s p = some (s', res) := by
  obtain ⟨s', e, -⟩ := deref_free hd
  exact ⟨s', none, by simp [tsdfx_copy_new_fail, e]⟩

theorem tsdfx_copy_add_ne_none (k : Kernel) {s : State} {p : Nat} {tp : copy_task}
    (hd : deref s p = some tp) (hn : 0 ≤ s.copy_len) : tsdfx_copy_add k s p ≠ none := by
  obtain ⟨s1, r, e⟩ := tsdfx_copy_add_total k hd hn
  rw [e]
  simp

theorem tsdfx_copy_new_total (k : Kernel) {s : State} (hn : 0 ≤ s.copy_len)
    (src dst : List Char) : ∃ s' res, tsdfx_copy_new k s src dst = some (s', res) := by
  unfold tsdfx_copy_new
  dsimp only
  cases hl : k.lstat s.log src with
  | none => exact ⟨_, _, rfl⟩
  | some st =>
    cases ha : k.alloc (s.log ++ [Event.lstat src]) with
    | false =>
      simp only [Bool.false_eq_true, not_false_eq_true, if_true]
      exact ⟨_, _, rfl⟩
    | true =>
      simp only [not_true_eq_false, if_false, copy_task.zero, store, List.length_append,
        List.length_singleton, List.set_append_right _ _ (le_refl _), Nat.sub_self,
        List.set_cons_zero]
      by_cases h1 : src.length ≥ PATH_MAX
      · rw [if_pos h1]
        exact tsdfx_copy_new_fail_total (deref_last rfl)
      · rw [if_neg h1]
        by_cases h2 : dst.length ≥ PATH_MAX
        · rw [if_pos h2]
          exact tsdfx_copy_new_fail_total (deref_last rfl)
        · rw [if_neg h2]
          split
          · next hnone =>
            exact absurd hnone (tsdfx_copy_add_ne_none k (deref_last rfl) hn)
          · next s6 r hadd =>
            obtain ⟨tp, ext, evs, hd, -, hc⟩ := tsdfx_copy_add_spec hadd
            rcases hc with ⟨c1, c2⟩ | ⟨c1, c2, c3, c4⟩
            · have hneg : r < 0 := by omega
              rw [if_pos hneg]
              have hd6 : deref s6 s.heap.length = some tp := by
                rw [← hd]
                exact deref_congr (by rw [c2]) _
              exact tsdfx_copy_new_fail_total hd6
            · have hneg : ¬ r < 0 := by
                rw [c1]; exact not_lt.mpr c2
              rw [if_neg hneg]
              have hd6 : deref s6 s.heap.length = some { tp with index := s.copy_len } := by
                apply deref_of_eq
                rw [c4]
                exact List.getElem?_set_self (deref_lt hd)
              rw [hd6]
              exact ⟨_, _, rfl⟩

theorem tsdfx_copy_new_tasks {k : Kernel} {s s' : State} {src dst : List Char}
    {res : Option Nat} (hw : WF s) (h : tsdfx_copy_new k s src dst = some (s', res)) :
    WF s' ∧ s'.copy_running = s.copy_running ∧
    s'.tsdfx_copy_max_tasks = s.tsdfx_copy_max_tasks ∧
    (∀ i : Nat, (i : Int) < s.copy_len → task_at s' i = task_at s i) ∧
    ((res = none ∧ s'.copy_len = s.copy_len) ∨
      (res = some s.heap.length ∧ s'.copy_len = s.copy_len + 1 ∧
        ∃ st, k.lstat s.log src = some st ∧
          task_at s' s.copy_len = some
            { srcpath := src, dstpath := dst, index := s.copy_len, state := TASK_IDLE,
              uid := st.st_uid, gid := st.st_gid, pid := -1 })) := by
  obtain ⟨a1, a2, -, a4, a5, a6, a7⟩ := tsdfx_copy_new_spec h
  have hn := hw.len_nonneg
  have hl := hw.len_le
  have hold : ∀ i : Nat, (i : Int) < s.copy_len →
      ∃ p t, s'.copy_tasks[i]? = some (some p) ∧ deref s' p = some t ∧
        task_at s i = some t ∧ t.index = i := by
    intro i hi
    obtain ⟨p, t, e1, e2, e3, e4⟩ := hw.task_at hi
    refine ⟨p, t, ?_, a4 p t e2, e3, e4⟩
    rw [a5 i (by omega) hi]
    exact e1
  have htask : ∀ i : Nat, (i : Int) < s.copy_len → task_at s' i = task_at s i := by
    intro i hi
    obtain ⟨p, t, e1, e2, e3, -⟩ := hold i hi
    rw [task_at_of_slot e1, e2, e3]
  rcases a7 with ⟨b1, b2⟩ | ⟨b1, b2, b3, b4, b5, st, b6, b7⟩
  · refine ⟨⟨by omega, by omega, ?_⟩, a1, a2, htask, Or.inl ⟨b1, b2⟩⟩
    intro i hi
    obtain ⟨p, t, e1, e2, -, e4⟩ := hold i (by omega)
    exact ⟨p, t, e1, e2, e4⟩
  · obtain ⟨n, hn'⟩ := Int.eq_ofNat_of_zero_le b2
    have hnn : s.copy_len.toNat = n := by omega
    rw [hnn] at b5
    refine ⟨⟨by omega, by omega, ?_⟩, a1, a2, htask, Or.inr ⟨b1, b3, st, b6, ?_⟩⟩
    · intro i hi
      by_cases hin : i = n
      · subst hin
        exact ⟨_, _, b5, b7, hn'⟩
      · obtain ⟨p, t, e1, e2, -, e4⟩ := hold i (by omega)
        exact ⟨p, t, e1, e2, e4⟩
    · rw [hn', task_at_of_slot b5, ← hn']
      exact b7

theorem tsdfx_copy_add_grow_alloc {k : Kernel} (ha : ∀ L, k.alloc L = true) :
    ∀ (fuel : Nat) (s s' : State) (b : Bool),
      tsdfx_copy_add_grow k fuel s = some (s', b) → b = true := by
  intro fuel
  induction fuel with
  | zero =>
    intro s s' b h
    unfold tsdfx_copy_add_grow at h
    split_ifs at h
    simp only [Option.some.injEq, Prod.mk.injEq] at h
    exact h.2.symm
  | succ n ih =>
    intro s s' b h
    unfold tsdfx_copy_add_grow at h
    by_cases hge : s.copy_len ≥ (s.copy_sz : Int)
    · rw [if_pos hge] at h
      dsimp only at h
      rw [if_pos (ha _)] at h
      exact ih _ _ _ h
    · rw [if_neg hge] at h
      simp only [Option.some.injEq, Prod.mk.injEq] at h
      exact h.2.symm

theorem tsdfx_copy_add_alloc {k : Kernel} (ha : ∀ L, k.alloc L = true) {s s' : State}
    {p : Nat} {r : Int} (h : tsdfx_copy_add k s p = some (s', r)) : 0 ≤ r := by
  obtain ⟨tp, ext, evs, hd, -, hc⟩ := tsdfx_copy_add_spec h
  rcases hc with ⟨c1, c2⟩ | ⟨c1, c2, -⟩
  · exfalso
    unfold tsdfx_copy_add at h
    simp only [hd] at h
    rcases hg : tsdfx_copy_add_grow k (s.copy_len.toNat + 1) s with _ | ⟨s1, b⟩
    · simp [hg] at h
    · have hb := tsdfx_copy_add_grow_alloc ha _ _ _ _ hg
      subst hb
      obtain ⟨ext1, evs1, e1, e2, -⟩ := tsdfx_copy_add_grow_spec k _ _ _ _ hg
      rw [hg] at h
      dsimp only at h
      split_ifs at h
      split at h
      · simp only [Option.some.injEq, Prod.mk.injEq] at h
        have hlen : s1.copy_len = s.copy_len := by rw [e1]
        have := h.2
        have h0 : s.copy_len = -1 := by omega
        have hs := h.1
        rw [c2] at hs
        have := congrArg State.copy_len hs
        simp only at this
        omega
      · simp at h
  · omega

theorem tsdfx_copy_new_created {k : Kernel} {s s' : State} {src dst : List Char}
    {res : Option Nat} {st : file_stat} (hl : k.lstat s.log src = some st)
    (ha : ∀ L, k.alloc L = true) (h1 : src.length < PATH_MAX) (h2 : dst.length < PATH_MAX)
    (h : tsdfx_copy_new k s src dst = some (s', res)) : res = some s.heap.length := by
  unfold tsdfx_copy_new at h
  dsimp only at h
  simp only [hl, ha, not_true_eq_false, if_false, if_neg (not_le.mpr h1),
    if_neg (not_le.mpr h2)] at h
  split at h
  · simp at h
  · next s6 r hadd =>
    have hr := tsdfx_copy_add_alloc ha hadd
    rw [if_neg (not_lt.mpr hr)] at h
    split at h
    · simp at h
    · simp only [Option.some.injEq, Prod.mk.injEq] at h
      rw [← h.2]

theorem WF.log {s : State} (h : WF s) (l : List Event) : WF { s with log := l } :=
  ⟨h.len_nonneg, h.len_le, h.live⟩

theorem tsdfx_copy_wrap_entry_cases {k : Kernel} {s s' : State} {src dst : List Char}
    (hw : WF s) (h : tsdfx_copy_wrap_entry k s src dst = some s') :
    (has_pair s src dst ∧ s' = s) ∨
    (¬ has_pair s src dst ∧ ∃ evs,
      (s' = { s with log := s.log ++ evs } ∧
        ∃ srcst dstst, k.stat s.log src = some srcst ∧
          k.stat (s.log ++ [Event.stat src]) dst = some dstst ∧
          srcst.st_size = dstst.st_size ∧ srcst.st_mtime = dstst.st_mtime) ∨
      (∃ res, tsdfx_copy_new k { s with log := s.log ++ evs } src dst = some (s', res) ∧
        ¬ ∃ srcst dstst, k.stat s.log src = some srcst ∧
          k.stat (s.log ++ [Event.stat src]) dst = some dstst ∧
          srcst.st_size = dstst.st_size ∧ srcst.st_mtime = dstst.st_mtime)) := by
  obtain ⟨r, hr, hc⟩ := tsdfx_copy_find_spec hw src dst
  unfold tsdfx_copy_wrap_entry at h
  simp only [hr] at h
  rcases hc with ⟨hneg, hno⟩ | ⟨hpos, hyes⟩
  · rw [if_pos hneg] at h
    refine Or.inr ⟨hno, ?_⟩
    cases h1 : k.stat s.log src with
    | none =>
      simp only [h1, Option.map_eq_some', Prod.exists, exists_and_right, exists_eq_right] at h
      obtain ⟨res, h⟩ := h
      exact ⟨[Event.stat src], Or.inr ⟨res, h, by simp⟩⟩
    | some srcst =>
      simp only [h1] at h
      cases h2 : k.stat (s.log ++ [Event.stat src]) dst with
      | none =>
        simp only [h2, Option.map_eq_some', Prod.exists, exists_and_right, exists_eq_right] at h
        obtain ⟨res, h⟩ := h
        refine ⟨[Event.stat src, Event.stat dst], Or.inr ⟨res, ?_, by simp⟩⟩
        simpa using h
      | some dstst =>
        simp only [h2] at h
        by_cases he : srcst.st_size = dstst.st_size ∧ srcst.st_mtime = dstst.st_mtime
        · rw [if_pos he] at h
          simp only [Option.some.injEq] at h
          refine ⟨[Event.stat src, Event.stat dst], Or.inl ⟨?_, srcst, dstst, rfl, rfl, he⟩⟩
          rw [← h]
          simp
        · rw [if_neg he] at h
          simp only [Option.map_eq_some', Prod.exists, exists_and_right, exists_eq_right] at h
          obtain ⟨res, h⟩ := h
          refine ⟨[Event.stat src, Event.stat dst], Or.inr ⟨res, by simpa using h, ?_⟩⟩
          rintro ⟨a, b, e1, e2, e3⟩
          simp only [Option.some.injEq] at e1 e2
          subst e1 e2
          exact he e3
  · rw [if_neg (not_lt.mpr hpos)] at h
    simp only [Option.some.injEq] at h
    exact Or.inl ⟨hyes, h.symm⟩

theorem tsdfx_copy_wrap_entry_total (k : Kernel) {s : State} (hw : WF s)
    (src dst : List Char) : ∃ s', tsdfx_copy_wrap_entry k s src dst = some s' := by
  obtain ⟨r, hr, -⟩ := tsdfx_copy_find_spec hw src dst
  unfold tsdfx_copy_wrap_entry
  simp only [hr]
  have key : ∀ l, ∃ s', (tsdfx_copy_new k { s with log := l } src dst).map Prod.fst =
      some s' := by
    intro l
    obtain ⟨s', res, e⟩ := @tsdfx_copy_new_total k { s with log := l } hw.len_nonneg src dst
    exact ⟨s', by rw [e]; rfl⟩
  by_cases hneg : r < 0
  · rw [if_pos hneg]
    cases k.stat s.log src with
    | none => exact key _
    | some srcst =>
      dsimp only
      cases k.stat (s.log ++ [Event.stat src]) dst with
      | none => exact key _
      | some dstst =>
        dsimp only
        split_ifs
        · exact ⟨_, rfl⟩
        · exact key _
  · rw [if_neg hneg]
    exact ⟨_, rfl⟩

theorem tsdfx_copy_wrap_entry_spec {k : Kernel} {s s' : State} {src dst : List Char}
    (hw : WF s) (h : tsdfx_copy_wrap_entry k s src dst = some s') :
    WF s' ∧ s'.copy_running = s.copy_running ∧
    s'.tsdfx_copy_max_tasks = s.tsdfx_copy_max_tasks ∧
    (∀ i : Nat, (i : Int) < s.copy_len → task_at s' i = task_at s i) ∧
    (s'.copy_len = s.copy_len ∨
      (¬ has_pair s src dst ∧ s'.copy_len = s.copy_len + 1 ∧
        ∃ t, task_at s' s.copy_len = some t ∧ t.srcpath = src ∧ t.dstpath = dst ∧
          t.state = TASK_IDLE)) := by
  rcases tsdfx_copy_wrap_entry_cases hw h with ⟨-, e⟩ | ⟨hno, evs, ⟨e, -⟩ | ⟨res, e, -⟩⟩
  · subst e
    exact ⟨hw, rfl, rfl, fun _ _ => rfl, Or.inl rfl⟩
  · subst e
    exact ⟨hw.log _, rfl, rfl, fun _ _ => rfl, Or.inl rfl⟩
  · obtain ⟨a1, a2, a3, a4, a5⟩ := tsdfx_copy_new_tasks (hw.log (s.log ++ evs)) e
    refine ⟨a1, a2, a3, a4, ?_⟩
    rcases a5 with ⟨-, b⟩ | ⟨-, b1, st, -, b2⟩
    · exact Or.inl b
    · exact Or.inr ⟨hno, b1, _, b2, rfl, rfl, rfl⟩

theorem unique_pairs_wrap_entry {k : Kernel} {s s' : State} {src dst : List Char}
    (hw : WF s) (hu : unique_pairs s) (h : tsdfx_copy_wrap_entry k s src dst = some s') :
    unique_pairs s' := by
  obtain ⟨-, -, -, a4, a5⟩ := tsdfx_copy_wrap_entry_spec hw h
  have hn := hw.len_nonneg
  rcases a5 with e | ⟨hno, e, t, ht, e1, e2, -⟩
  · intro i j hi hj ti tj hti htj
    rw [e] at hi hj
    rw [a4 i hi] at hti
    rw [a4 j hj] at htj
    exact hu i j hi hj ti tj hti htj
  · obtain ⟨n, hn'⟩ := Int.eq_ofNat_of_zero_le hn
    rw [hn'] at ht
    have hold : ∀ i : Nat, (i : Int) < s'.copy_len → i ≠ n → ∀ ti, task_at s' i = some ti →
        ¬ (ti.srcpath = src ∧ ti.dstpath = dst) := by
      intro i hi hne ti hti hp
      have hlt : (i : Int) < s.copy_len := by omega
      rw [a4 i hlt] at hti
      exact hno ⟨i, hlt, ti, hti, hp.1, hp.2⟩
    intro i j hi hj ti tj hti htj c1 c2
    by_cases hin : i = n
    · by_cases hjn : j = n
      · rw [hin, hjn]
      · exfalso
        subst hin
        rw [ht] at hti
        simp only [Option.some.injEq] at hti
        subst hti
        exact hold j hj hjn tj htj ⟨by rw [← c1, e1], by rw [← c2, e2]⟩
    · by_cases hjn : j = n
      · exfalso
        subst hjn
        rw [ht] at htj
        simp only [Option.some.injEq] at htj
        subst htj
        exact hold i hi hin ti hti ⟨by rw [c1, e1], by rw [c2, e2]⟩
      · have hi' : (i : Int) < s.copy_len := by omega
        have hj' : (j : Int) < s.copy_len := by omega
        rw [a4 i hi'] at hti
        rw [a4 j hj'] at htj
        exact hu i j hi' hj' ti tj hti htj c1 c2

theorem wrap_entries_inv (k : Kernel) (srcdir dstdir : List Char) (maxlen : Nat)
    (entries : List (List Char)) :
    ∀ (s s' : State), WF s → unique_pairs s →
      wrap_entries k srcdir dstdir maxlen entries s = some s' →
      WF s' ∧ unique_pairs s' ∧ s'.copy_running = s.copy_running ∧
        s'.tsdfx_copy_max_tasks = s.tsdfx_copy_max_tasks ∧ s.copy_len ≤ s'.copy_len ∧
        ∀ i : Nat, (i : Int) < s.copy_len → task_at s' i = task_at s i := by
  induction entries with
  | nil =>
    intro s s' hw hu h
    simp only [wrap_entries, Option.some.injEq] at h
    subst h
    exact ⟨hw, hu, rfl, rfl, le_refl _, fun _ _ => rfl⟩
  | cons name rest ih =>
    intro s s' hw hu h
    rw [wrap_entries] at h
    by_cases hs : entry_skipped maxlen name
    · rw [if_pos hs] at h
      exact ih s s' hw hu h
    · rw [if_neg hs] at h
      split at h
      · simp at h
      · next s1 he =>
        obtain ⟨a1, a2, a3, a4, a5⟩ := tsdfx_copy_wrap_entry_spec hw he
        have hu1 := unique_pairs_wrap_entry hw hu he
        obtain ⟨b1, b2, b3, b4, b5, b6⟩ := ih s1 s' a1 hu1 h
        have hle : s.copy_len ≤ s1.copy_len := by
          rcases a5 with e | ⟨-, e, -⟩ <;> omega
        refine ⟨b1, b2, by rw [b3, a2], by rw [b4, a3], by omega, ?_⟩
        intro i hi
        rw [b6 i (by omega), a4 i hi]

theorem wrap_entries_total (k : Kernel) (srcdir dstdir : List Char) (maxlen : Nat)
    (entries : List (List Char)) :
    ∀ (s : State), WF s → ∃ s', wrap_entries k srcdir dstdir maxlen entries s = some s' := by
  induction entries with
  | nil =>
    intro s _
    exact ⟨s, rfl⟩
  | cons name rest ih =>
    intro s hw
    rw [wrap_entries]
    by_cases hs : entry_skipped maxlen name
    · rw [if_pos hs]
      exact ih s hw
    · rw [if_neg hs]
      obtain ⟨s1, he⟩ := tsdfx_copy_wrap_entry_total k hw (srcdir ++ name) (dstdir ++ name)
      rw [he]
      exact ih s1 (tsdfx_copy_wrap_entry_spec hw he).1

theorem WF_empty {s : State} (h : s.copy_len = 0) : WF s :=
  ⟨by omega, by omega, fun i hi => by omega⟩

theorem unique_pairs_empty {s : State} (h : s.copy_len = 0) : unique_pairs s :=
  fun i _ hi => by omega

theorem wrap_entries_skip (k : Kernel) (srcdir dstdir : List Char) (maxlen : Nat)
    (name : List Char) (hs : entry_skipped maxlen name) (e2 : List (List Char)) :
    ∀ (e1 : List (List Char)) (s : State),
      wrap_entries k srcdir dstdir maxlen (e1 ++ name :: e2) s =
        wrap_entries k srcdir dstdir maxlen (e1 ++ e2) s := by
  intro e1
  induction e1 with
  | nil =>
    intro s
    simp only [List.nil_append]
    rw [wrap_entries, if_pos hs]
  | cons a l ih =>
    intro s
    simp only [List.cons_append]
    rw [wrap_entries, wrap_entries]
    by_cases ha : entry_skipped maxlen a
    · rw [if_pos ha, if_pos ha]
      exact ih s
    · rw [if_neg ha, if_neg ha]
      cases tsdfx_copy_wrap_entry k s (srcdir ++ a) (dstdir ++ a) with
      | none => rfl
      | some s1 => exact ih s1

/-- C2 (uniqueness).  In a registry without two tasks of the same (srcpath,
dstpath) pair, `tsdfx_copy_wrap` leaves no two tasks with the same pair,
whatever the directories, the entries of the file list (the same name may
occur several times) and the answers of the file system are. -/
theorem C2_uniqueness (k : Kernel) (s : State) (srcdir dstdir : List Char)
    (entries : List (List Char)) (hw : WF s) (hok : entries_ok entries)
    (hu : unique_pairs s) (s' : State) (r : Int)
    (h : tsdfx_copy_wrap k s srcdir dstdir (file_list entries) = some (s', r)) :
    unique_pairs s' := by
  rw [tsdfx_copy_wrap_entries k s srcdir dstdir entries hok] at h
  by_cases hl : srcdir.length ≥ PATH_MAX ∨ dstdir.length ≥ PATH_MAX
  · rw [if_pos hl] at h
    simp only [Option.some.injEq, Prod.mk.injEq] at h
    rw [← h.1]
    exact hu
  · rw [if_neg hl] at h
    split at h
    · simp at h
    · next s1 he =>
      simp only [Option.some.injEq, Prod.mk.injEq] at h
      rw [← h.1]
      exact (wrap_entries_inv k srcdir dstdir _ entries s s1 hw hu he).2.1

/-- Witness of C2: the empty registry and a file list that names `x` twice;
one task is created, the second entry finds it. -/
theorem C2_uniqueness_witness :
    tsdfx_copy_wrap kernel_scenario State.init "/a/".toList "/b/".toList
        (file_list ["x".toList, "x".toList]) = some
      ({ heap := [some { srcpath := "/a/x".toList, dstpath := "/b/x".toList, index := 0,
                         state := TASK_IDLE, uid := 1000, gid := 1000, pid := -1 }],
         copy_tasks := some 0 :: List.replicate 15 none,
         copy_len := 1, copy_running := 0, tsdfx_copy_max_tasks := 8,
         log := [Event.stat "/a/x".toList, Event.stat "/b/x".toList,
                 Event.lstat "/a/x".toList, Event.alloc, Event.alloc, Event.jobs 1 0] }, 0) ∧
    unique_pairs
      { heap := [some { srcpath := "/a/x".toList, dstpath := "/b/x".toList, index := 0,
                        state := TASK_IDLE, uid := 1000, gid := 1000, pid := -1 }],
        copy_tasks := some 0 :: List.replicate 15 none,
        copy_len := 1, copy_running := 0, tsdfx_copy_max_tasks := 8,
        log := [Event.stat "/a/x".toList, Event.stat "/b/x".toList,
                Event.lstat "/a/x".toList, Event.alloc, Event.alloc, Event.jobs 1 0] } :=
  ⟨by decide,
    C2_uniqueness kernel_scenario State.init "/a/".toList "/b/".toList
      ["x".toList, "x".toList] (WF_empty rfl) (by unfold entries_ok; decide)
      (unique_pairs_empty rfl) _ 0 (by decide)⟩

/-- C13 (counterexample): the entry `/x` has the separator as its first
character; with the directories `/a` and `/b` the paths `/a/x` and `/b/x` are
composed and a task is created for them. -/
theorem C13_counterexample :
    '/' ∈ "/x".toList ∧
    (tsdfx_copy_wrap kernel_scenario State.init "/a".toList "/b".toList
        (file_list ["/x".toList])).map (fun r => (r.1.copy_len, task_at r.1 0, r.2)) =
      some (1, some { srcpath := "/a/x".toList, dstpath := "/b/x".toList, index := 0,
                      state := TASK_IDLE, uid := 1000, gid := 1000, pid := -1 }, 0) := by
  decide

/-- C13 (amended).  An entry of the file list that is empty, or has as many
characters as the path budget `maxlen` or more, or has the separator `/`
anywhere behind its first character, has no effect: the call gives what it
gives for the file list without that entry, and a file list of that entry
alone leaves the state as it is and returns 0. -/
theorem C13_path_entry_filtering (k : Kernel) (s : State) (srcdir dstdir : List Char)
    (e1 e2 : List (List Char)) (name : List Char)
    (hok : entries_ok (e1 ++ name :: e2))
    (hs : srcdir.length < PATH_MAX) (hd : dstdir.length < PATH_MAX)
    (hskip : name = [] ∨ name.length ≥ wrap_maxlen srcdir dstdir ∨ '/' ∈ name.drop 1) :
    tsdfx_copy_wrap k s srcdir dstdir (file_list (e1 ++ name :: e2)) =
      tsdfx_copy_wrap k s srcdir dstdir (file_list (e1 ++ e2)) ∧
    tsdfx_copy_wrap k s srcdir dstdir (file_list [name]) = some (s, 0) := by
  have hl : ¬ (srcdir.length ≥ PATH_MAX ∨ dstdir.length ≥ PATH_MAX) := by
    rintro (h | h) <;> omega
  have hskip : entry_skipped (wrap_maxlen srcdir dstdir) name := hskip
  have hok2 : entries_ok (e1 ++ e2) := by
    intro a ha
    apply hok a
    simp only [List.mem_append, List.mem_cons] at ha ⊢
    rcases ha with ha | ha
    · exact Or.inl ha
    · exact Or.inr (Or.inr ha)
  have hok1 : entries_ok [name] := by
    intro a ha
    apply hok a
    simp only [List.mem_singleton] at ha
    simp [ha]
  constructor
  · rw [tsdfx_copy_wrap_entries k s srcdir dstdir _ hok,
      tsdfx_copy_wrap_entries k s srcdir dstdir _ hok2,
      wrap_entries_skip k srcdir dstdir _ name hskip e2 e1 s]
  · rw [tsdfx_copy_wrap_entries k s srcdir dstdir _ hok1, if_neg hl, wrap_entries,
      if_pos hskip, wrap_entries]

/-- Witness of C13: the entry `d/x` between the entries `x` and `y`. -/
theorem C13_path_entry_filtering_witness :
    tsdfx_copy_wrap kernel_scenario State.init "/a/".toList "/b/".toList
        (file_list (["x".toList] ++ "d/x".toList :: ["y".toList])) =
      tsdfx_copy_wrap kernel_scenario State.init "/a/".toList "/b/".toList
        (file_list (["x".toList] ++ ["y".toList])) ∧
    tsdfx_copy_wrap kernel_scenario State.init "/a/".toList "/b/".toList
        (file_list ["d/x".toList]) = some (State.init, 0) :=
  C13_path_entry_filtering kernel_scenario State.init "/a/".toList "/b/".toList
    ["x".toList] ["y".toList] "d/x".toList (by unfold entries_ok; decide) (by decide)
    (by decide) (Or.inr (Or.inr (by decide)))

/-- C15 (reconcile fails only on an oversized directory prefix).  When the
source or the destination directory has `PATH_MAX` characters or more,
`tsdfx_copy_wrap` returns -1 and leaves the state as it is, whatever the file
list is.  For a well-formed registry and a file list of entries it returns,
with -1 exactly when one of the directories is that long and with 0 in every
other case, whatever the entries are and whatever the file system and the
allocator answer. -/
theorem C15_fails_only_on_long_directory (k : Kernel) (s : State) (srcdir dstdir : List Char) :
    (∀ files, srcdir.length ≥ PATH_MAX ∨ dstdir.length ≥ PATH_MAX →
      tsdfx_copy_wrap k s srcdir dstdir files = some (s, -1)) ∧
    (∀ files s' r, tsdfx_copy_wrap k s srcdir dstdir files = some (s', r) →
      (r = -1 ∨ r = 0) ∧
      (r = -1 ↔ (srcdir.length ≥ PATH_MAX ∨ dstdir.length ≥ PATH_MAX))) ∧
    (∀ entries, WF s → entries_ok entries →
      ∃ s' r, tsdfx_copy_wrap k s srcdir dstdir (file_list entries) = some (s', r)) := by
  refine ⟨?_, ?_, ?_⟩
  · intro files hl
    simp only [tsdfx_copy_wrap]
    rw [if_pos hl]
  · intro files s' r h
    simp only [tsdfx_copy_wrap] at h
    by_cases hl : srcdir.length ≥ PATH_MAX ∨ dstdir.length ≥ PATH_MAX
    · rw [if_pos hl] at h
      simp only [Option.some.injEq, Prod.mk.injEq] at h
      exact ⟨Or.inl h.2.symm, fun _ => hl, fun _ => h.2.symm⟩
    · rw [if_neg hl] at h
      split at h
      · simp at h
      · simp only [Option.some.injEq, Prod.mk.injEq] at h
        refine ⟨Or.inr h.2.symm, fun e => ?_, fun e => absurd e hl⟩
        omega
  · intro entries hw hok
    rw [tsdfx_copy_wrap_entries k s srcdir dstdir entries hok]
    by_cases hl : srcdir.length ≥ PATH_MAX ∨ dstdir.length ≥ PATH_MAX
    · rw [if_pos hl]
      exact ⟨_, _, rfl⟩
    · rw [if_neg hl]
      obtain ⟨s1, e⟩ := wrap_entries_total k srcdir dstdir (wrap_maxlen srcdir dstdir)
        entries s hw
      rw [e]
      exact ⟨_, _, rfl⟩

theorem tsdfx_copy_wrap_entry_creates {k : Kernel} {s : State} {src dst : List Char}
    (hw : WF s) (hno : ¬ has_pair s src dst) (lst : file_stat)
    (hl : ∀ L, k.lstat L src = some lst) (ha : ∀ L, k.alloc L = true)
    (h1 : src.length < PATH_MAX) (h2 : dst.length < PATH_MAX)
    (hdiff : ¬ ∃ srcst dstst, k.stat s.log src = some srcst ∧
      k.stat (s.log ++ [Event.stat src]) dst = some dstst ∧
      srcst.st_size = dstst.st_size ∧ srcst.st_mtime = dstst.st_mtime) :
    ∃ s', tsdfx_copy_wrap_entry k s src dst = some s' ∧ WF s' ∧
      s'.copy_len = s.copy_len + 1 ∧
      (∀ i : Nat, (i : Int) < s.copy_len → task_at s' i = task_at s i) ∧
      task_at s' s.copy_len = some
        { srcpath := src, dstpath := dst, index := s.copy_len, state := TASK_IDLE,
          uid := lst.st_uid, gid := lst.st_gid, pid := -1 } := by
  obtain ⟨s', h⟩ := tsdfx_copy_wrap_entry_total k hw src dst
  refine ⟨s', h, ?_⟩
  rcases tsdfx_copy_wrap_entry_cases hw h with ⟨hp, -⟩ | ⟨-, evs, ⟨-, hsame⟩ | ⟨res, e, -⟩⟩
  · exact absurd hp hno
  · exact absurd hsame hdiff
  · have hres := tsdfx_copy_new_created (hl _) ha h1 h2 e
    obtain ⟨a1, -, -, a4, a5⟩ := tsdfx_copy_new_tasks (hw.log (s.log ++ evs)) e
    rcases a5 with ⟨b, -⟩ | ⟨-, b1, st, b2, b3⟩
    · rw [hres] at b
      simp at b
    · rw [hl] at b2
      simp only [Option.some.injEq] at b2
      subst b2
      exact ⟨a1, b1, a4, b3⟩

theorem tsdfx_copy_wrap_entry_same {k : Kernel} {s : State} {src dst : List Char}
    (hw : WF s) (hno : ¬ has_pair s src dst) {srcst dstst : file_stat}
    (e1 : k.stat s.log src = some srcst)
    (e2 : k.stat (s.log ++ [Event.stat src]) dst = some dstst)
    (e3 : srcst.st_size = dstst.st_size) (e4 : srcst.st_mtime = dstst.st_mtime) :
    tsdfx_copy_wrap_entry k s src dst =
      some { s with log := s.log ++ [Event.stat src] ++ [Event.stat dst] } := by
  obtain ⟨r, hr, hc⟩ := tsdfx_copy_find_spec hw src dst
  rcases hc with ⟨hneg, -⟩ | ⟨-, hyes⟩
  · unfold tsdfx_copy_wrap_entry
    simp only [hr, if_pos hneg, e1, e2, e3, e4, and_self, if_true]
  · exact absurd hyes hno

theorem wrap_maxlen_le (srcdir dstdir : List Char) :
    wrap_maxlen srcdir dstdir ≤ PATH_MAX - srcdir.length - 1 ∧
    wrap_maxlen srcdir dstdir ≤ PATH_MAX - dstdir.length - 1 := by
  unfold wrap_maxlen
  split_ifs <;> omega

/-- C12 (dedup by content).  A well-formed registry, directories that fit the
path buffer, and a file list with the single valid entry `name` whose pair of
composed paths has no task; the metadata of the source can be read and memory
can be allocated.  `tsdfx_copy_wrap` returns 0 and keeps every task.  When the
destination exists with the size and the modification time of the source, no
task is created; when the destination is absent or its size or modification
time differs, exactly one task is created, for that pair, in state IDLE. -/
theorem C12_dedup_by_content (k : Kernel) (s : State) (srcdir dstdir name : List Char)
    (hw : WF s) (hs : srcdir.length < PATH_MAX) (hd : dstdir.length < PATH_MAX)
    (hname : ∀ c ∈ name, c ≠ NUL ∧ c ≠ '\n')
    (hvalid : ¬ entry_skipped (wrap_maxlen srcdir dstdir) name)
    (hno : ¬ has_pair s (srcdir ++ name) (dstdir ++ name))
    (srcst lst : file_stat) (dstst : Option file_stat)
    (hstat : ∀ L, k.stat L (srcdir ++ name) = some srcst)
    (hlstat : ∀ L, k.lstat L (srcdir ++ name) = some lst)
    (hdst : ∀ L, k.stat L (dstdir ++ name) = dstst)
    (halloc : ∀ L, k.alloc L = true) :
    ∃ s', tsdfx_copy_wrap k s srcdir dstdir (file_list [name]) = some (s', 0) ∧
      (∀ i : Nat, (i : Int) < s.copy_len → task_at s' i = task_at s i) ∧
      ((∃ d, dstst = some d ∧ srcst.st_size = d.st_size ∧ srcst.st_mtime = d.st_mtime) →
        s'.copy_len = s.copy_len) ∧
      ((dstst = none ∨
          ∃ d, dstst = some d ∧ (srcst.st_size ≠ d.st_size ∨ srcst.st_mtime ≠ d.st_mtime)) →
        s'.copy_len = s.copy_len + 1 ∧
        task_at s' s.copy_len = some
          { srcpath := srcdir ++ name, dstpath := dstdir ++ name, index := s.copy_len,
            state := TASK_IDLE, uid := lst.st_uid, gid := lst.st_gid, pid := -1 }) := by
  have hl : ¬ (srcdir.length ≥ PATH_MAX ∨ dstdir.length ≥ PATH_MAX) := by
    rintro (h | h) <;> omega
  have hok : entries_ok [name] := by
    intro a ha
    simp only [List.mem_singleton] at ha
    rw [ha]
    exact hname
  have hlen : ¬ name.length ≥ wrap_maxlen srcdir dstdir := fun h => hvalid (Or.inr (Or.inl h))
  have hm := wrap_maxlen_le srcdir dstdir
  have h1 : (srcdir ++ name).length < PATH_MAX := by
    rw [List.length_append]; omega
  have h2 : (dstdir ++ name).length < PATH_MAX := by
    rw [List.length_append]; omega
  rw [tsdfx_copy_wrap_entries k s srcdir dstdir _ hok, if_neg hl, wrap_entries, if_neg hvalid]
  by_cases hsame : ∃ d, dstst = some d ∧ srcst.st_size = d.st_size ∧ srcst.st_mtime = d.st_mtime
  · obtain ⟨d, e1, e2, e3⟩ := hsame
    rw [tsdfx_copy_wrap_entry_same hw hno (hstat _) ((hdst _).trans e1) e2 e3]
    refine ⟨_, rfl, fun _ _ => rfl, fun _ => rfl, ?_⟩
    rintro (e | ⟨d', e, hne⟩)
    · rw [e] at e1
      simp at e1
    · rw [e] at e1
      simp only [Option.some.injEq] at e1
      subst e1
      rcases hne with hne | hne
      · exact absurd e2 hne
      · exact absurd e3 hne
  · have hdiff : ¬ ∃ a b, k.stat s.log (srcdir ++ name) = some a ∧
        k.stat (s.log ++ [Event.stat (srcdir ++ name)]) (dstdir ++ name) = some b ∧
        a.st_size = b.st_size ∧ a.st_mtime = b.st_mtime := by
      rintro ⟨a, b, e1, e2, e3, e4⟩
      rw [hstat] at e1
      rw [hdst] at e2
      simp only [Option.some.injEq] at e1
      subst e1
      exact hsame ⟨b, e2, e3, e4⟩
    obtain ⟨s1, e, -, b1, b2, b3⟩ :=
      tsdfx_copy_wrap_entry_creates hw hno lst hlstat halloc h1 h2 hdiff
    rw [e]
    exact ⟨s1, rfl, b2, fun h => absurd h hsame, fun _ => ⟨b1, b3⟩⟩

theorem not_has_pair_empty {s : State} (h : s.copy_len = 0) (src dst : List Char) :
    ¬ has_pair s src dst := by
  rintro ⟨i, hi, -⟩
  omega

/-- Witness of C12: the empty registry, the directories `/a` and `/b` and the
entry `/x`; `/a/x` exists and `/b/x` does not. -/
theorem C12_dedup_by_content_witness :
    ∃ s', tsdfx_copy_wrap kernel_scenario State.init "/a".toList "/b".toList
        (file_list ["/x".toList]) = some (s', 0) ∧
      s'.copy_len = State.init.copy_len + 1 ∧
      task_at s' State.init.copy_len = some
        { srcpath := "/a".toList ++ "/x".toList, dstpath := "/b".toList ++ "/x".toList,
          index := State.init.copy_len, state := TASK_IDLE, uid := 1000, gid := 1000,
          pid := -1 } := by
  obtain ⟨s', h, -, -, h3⟩ := C12_dedup_by_content kernel_scenario State.init "/a".toList
    "/b".toList "/x".toList (WF_empty rfl) (by decide) (by decide) (by decide) (by decide)
    (not_has_pair_empty rfl _ _)
    { st_uid := 1000, st_gid := 1000, st_size := 1, st_mtime := 1 }
    { st_uid := 1000, st_gid := 1000, st_size := 1, st_mtime := 1 } none
    (fun _ => (by decide : scenario_stat ("/a".toList ++ "/x".toList) = some _))
    (fun _ => (by decide : scenario_stat ("/a".toList ++ "/x".toList) = some _))
    (fun _ => (by decide : scenario_stat ("/b".toList ++ "/x".toList) = none))
    (fun _ => rfl)
  exact ⟨s', h, h3 (Or.inl rfl)⟩

/-- C14 (counterexample): the scenario as the claim states it.  The paths are
composed without a separator, `/ax`, `/bx`, `/ay` and `/by`; none of these
files exists, no task is created and the registry stays empty. -/
theorem C14_counterexample :
    tsdfx_copy_wrap kernel_scenario State.init "/a".toList "/b".toList "x\ny\n".toList =
      some ({ State.init with
        log := [Event.stat "/ax".toList, Event.lstat "/ax".toList,
                Event.stat "/ay".toList, Event.lstat "/ay".toList] }, 0) := by
  decide

/-- C14 (amended): the scenario with the file list `/x`, `/y`, whose entries
bring the separator.  From an empty registry, with `/a/x` present (its
metadata is read by `lstat`), `/b/x` absent and `/a/y`, `/b/y` of the same size and modification time,
`tsdfx_copy_wrap` returns 0 and leaves exactly one task, from `/a/x` to
`/b/x`. -/
theorem C14_reconcile_scenario (k : Kernel) (s : State) (h0 : s.copy_len = 0)
    (lx sy dy : file_stat)
    (hlx : ∀ L, k.lstat L "/a/x".toList = some lx)
    (hbx : ∀ L, k.stat L "/b/x".toList = none)
    (hy : ∀ L, k.stat L "/a/y".toList = some sy)
    (hby : ∀ L, k.stat L "/b/y".toList = some dy)
    (he : sy.st_size = dy.st_size ∧ sy.st_mtime = dy.st_mtime)
    (halloc : ∀ L, k.alloc L = true) :
    ∃ s', tsdfx_copy_wrap k s "/a".toList "/b".toList "/x\n/y\n".toList = some (s', 0) ∧
      s'.copy_len = 1 ∧
      ∃ t, task_at s' 0 = some t ∧ t.srcpath = "/a/x".toList ∧ t.dstpath = "/b/x".toList ∧
        t.state = TASK_IDLE := by
  have hw : WF s := WF_empty h0
  have hfl : "/x\n/y\n".toList = file_list ["/x".toList, "/y".toList] := by decide
  have hok : entries_ok ["/x".toList, "/y".toList] := by unfold entries_ok; decide
  have hvx : ¬ entry_skipped (wrap_maxlen "/a".toList "/b".toList) "/x".toList := by decide
  have hvy : ¬ entry_skipped (wrap_maxlen "/a".toList "/b".toList) "/y".toList := by decide
  have hax : "/a".toList ++ "/x".toList = "/a/x".toList := by decide
  have hbx' : "/b".toList ++ "/x".toList = "/b/x".toList := by decide
  have hay : "/a".toList ++ "/y".toList = "/a/y".toList := by decide
  have hby' : "/b".toList ++ "/y".toList = "/b/y".toList := by decide
  rw [hfl, tsdfx_copy_wrap_entries k s _ _ _ hok, if_neg (by decide), wrap_entries,
    if_neg hvx, hax, hbx']
  have hdiff : ¬ ∃ a b, k.stat s.log "/a/x".toList = some a ∧
      k.stat (s.log ++ [Event.stat "/a/x".toList]) "/b/x".toList = some b ∧
      a.st_size = b.st_size ∧ a.st_mtime = b.st_mtime := by
    rintro ⟨a, b, -, e2, -⟩
    rw [hbx] at e2
    simp at e2
  obtain ⟨s1, e, hw1, b1, -, b3⟩ := tsdfx_copy_wrap_entry_creates hw
    (not_has_pair_empty h0 _ _) lx hlx halloc (by decide) (by decide) hdiff
  rw [h0] at b1 b3
  have hno : ¬ has_pair s1 "/a/y".toList "/b/y".toList := by
    rintro ⟨i, hi, t, ht, c1, -⟩
    have hi0 : i = 0 := by omega
    subst hi0
    rw [show ((0 : Nat) : Int) = 0 from rfl, b3] at ht
    simp only [Option.some.injEq] at ht
    subst ht
    have c1' : "/a/x".toList = "/a/y".toList := c1
    exact absurd c1' (by decide)
  rw [e]
  dsimp only
  rw [wrap_entries, if_neg hvy, hay, hby',
    tsdfx_copy_wrap_entry_same hw1 hno (hy _) (hby _) he.1 he.2]
  refine ⟨_, rfl, by simpa using b1, _, b3, rfl, rfl, rfl⟩

/-- Witness of C14: the file system `scenario_stat`. -/
theorem C14_reconcile_scenario_witness :
    ∃ s', tsdfx_copy_wrap kernel_scenario State.init "/a".toList "/b".toList
        "/x\n/y\n".toList = some (s', 0) ∧
      s'.copy_len = 1 ∧
      ∃ t, task_at s' 0 = some t ∧ t.srcpath = "/a/x".toList ∧ t.dstpath = "/b/x".toList ∧
        t.state = TASK_IDLE :=
  C14_reconcile_scenario kernel_scenario State.init rfl
    { st_uid := 1000, st_gid := 1000, st_size := 1, st_mtime := 1 }
    { st_uid := 1000, st_gid := 1000, st_size := 2, st_mtime := 2 }
    { st_uid := 1000, st_gid := 1000, st_size := 2, st_mtime := 2 }
    (fun _ => (by decide : scenario_stat "/a/x".toList = some _))
    (fun _ => (by decide : scenario_stat "/b/x".toList = none))
    (fun _ => (by decide : scenario_stat "/a/y".toList = some _))
    (fun _ => (by decide : scenario_stat "/b/y".toList = some _))
    ⟨rfl, rfl⟩ (fun _ => rfl)

/-- Witness of C15: a source directory of `PATH_MAX` characters, and the
directories `/a/` and `/b/` with the entries `x` and `y`. -/
theorem C15_fails_only_on_long_directory_witness :
    tsdfx_copy_wrap kernel_scenario State.init (List.replicate PATH_MAX 'a') "/b".toList
        "x\n".toList = some (State.init, -1) ∧
    ∃ s' r, tsdfx_copy_wrap kernel_scenario State.init "/a/".toList "/b/".toList
      (file_list ["x".toList, "y".toList]) = some (s', r) :=
  ⟨(C15_fails_only_on_long_directory kernel_scenario State.init (List.replicate PATH_MAX 'a')
      "/b".toList).1 _ (Or.inl (by simp)),
    (C15_fails_only_on_long_directory kernel_scenario State.init "/a/".toList "/b/".toList).2.2 _
      (WF_empty rfl) (by unfold entries_ok; decide)⟩

/-! ### The counter of running tasks -/

theorem counter_ok_same_tasks {s s' : State} (hc : counter_ok s)
    (hlen : s'.copy_len = s.copy_len) (hrun : s'.copy_running = s.copy_running)
    (ht : ∀ i : Nat, (i : Int) < s.copy_len → task_at s' i = task_at s i) :
    counter_ok s' := by
  refine ⟨?_, ?_⟩
  · rw [hrun, hc.1]
    unfold running_count
    rw [hlen]
    congr 1
    apply countP_range_congr
    intro j hj
    unfold running_at
    rw [ht j (by omega)]
  · intro i hi t hti
    rw [hlen] at hi
    rw [ht i hi] at hti
    exact hc.2 i hi t hti

theorem counter_ok_appended {s s' : State} (hc : counter_ok s) (hn : 0 ≤ s.copy_len)
    (hlen : s'.copy_len = s.copy_len + 1) (hrun : s'.copy_running = s.copy_running)
    (ht : ∀ i : Nat, (i : Int) < s.copy_len → task_at s' i = task_at s i)
    {t : copy_task} (hnew : task_at s' s.copy_len = some t) (hst : t.state ≠ TASK_RUNNING) :
    counter_ok s' := by
  obtain ⟨n, hn'⟩ := Int.eq_ofNat_of_zero_le hn
  rw [hn'] at hnew
  refine ⟨?_, ?_⟩
  · rw [hrun, hc.1]
    unfold running_count
    have e1 : s'.copy_len.toNat = n + 1 := by omega
    have e2 : s.copy_len.toNat = n := by omega
    rw [e1, e2, List.range_succ, List.countP_append]
    have hlast : running_at s' n = false := by
      unfold running_at
      rw [hnew]
      simpa using hst
    simp only [List.countP_cons, List.countP_nil, hlast, Bool.false_eq_true, if_false,
      Nat.add_zero, Nat.zero_add]
    congr 1
    apply countP_range_congr
    intro j hj
    unfold running_at
    rw [ht j (by omega)]
  · intro i hi ti hti hr
    by_cases hin : i = n
    · subst hin
      rw [hnew] at hti
      simp only [Option.some.injEq] at hti
      subst hti
      exact absurd hr hst
    · have hlt : (i : Int) < s.copy_len := by omega
      rw [ht i hlt] at hti
      exact hc.2 i hlt ti hti hr

theorem counter_ok_new {k : Kernel} {s s' : State} {src dst : List Char} {res : Option Nat}
    (hw : WF s) (hc : counter_ok s) (h : tsdfx_copy_new k s src dst = some (s', res)) :
    counter_ok s' := by
  obtain ⟨-, a2, -, a4, a5⟩ := tsdfx_copy_new_tasks hw h
  rcases a5 with ⟨-, b⟩ | ⟨-, b1, st, -, b2⟩
  · exact counter_ok_same_tasks hc b a2 a4
  · exact counter_ok_appended hc hw.len_nonneg b1 a2 a4 b2
      (show TASK_IDLE ≠ TASK_RUNNING by decide)

theorem counter_ok_start {k : Kernel} {s s' : State} {i p : Nat} {r : Int} (hw : WF s)
    (hc : counter_ok s) (hi : (i : Int) < s.copy_len) (hp : s.copy_tasks[i]? = some (some p))
    (h : tsdfx_copy_start k s p = some (s', r)) : counter_ok s' := by
  obtain ⟨p', t, hp', hd, -, -⟩ := hw.task_at hi
  rw [hp] at hp'
  simp only [Option.some.injEq] at hp'
  subst hp'
  rcases tsdfx_copy_start_spec k hd with ⟨-, e⟩ | ⟨-, -, e⟩ | ⟨hst, -, e⟩ | ⟨hst, pid, hpos, e⟩
  · rw [e] at h
    simp only [Option.some.injEq, Prod.mk.injEq] at h
    rw [← h.1]
    exact hc
  · rw [e] at h
    simp only [Option.some.injEq, Prod.mk.injEq] at h
    rw [← h.1]
    exact hc
  · rw [e] at h
    simp only [Option.some.injEq, Prod.mk.injEq] at h
    rw [← h.1]
    refine @counter_ok_upd _ hw hc i p t _ hi hp hd _ [Event.fork] ?_ _
    exact ⟨rfl, rfl, rfl, by simp [hst], fun _ hr => by simp at hr, by simp⟩
  · rw [e] at h
    simp only [Option.some.injEq, Prod.mk.injEq] at h
    rw [← h.1]
    refine @counter_ok_upd _ hw hc i p t _ hi hp hd _
      [Event.fork, Event.jobs s.copy_len (s.copy_running + 1)] ?_ _
    refine ⟨rfl, rfl, rfl, by simp [hst], fun _ _ => ?_, ?_⟩
    · show pid ≠ -1
      omega
    · intro m c hm
      simp only [List.mem_cons, reduceCtorEq, Event.jobs.injEq, List.mem_nil_iff, or_false,
        false_or] at hm
      exact hm.2

theorem counter_ok_poll {k : Kernel} {s s' : State} {i p : Nat} {r : Int} (hw : WF s)
    (hc : counter_ok s) (hi : (i : Int) < s.copy_len) (hp : s.copy_tasks[i]? = some (some p))
    (h : tsdfx_copy_poll k s p = some (s', r)) : counter_ok s' := by
  obtain ⟨t, hd, hcases⟩ := tsdfx_copy_poll_spec h
  rcases hcases with ⟨-, -, e, -⟩ | ⟨-, e⟩ | ⟨hst, st', hterm, -, e⟩ | ⟨hst, st', hterm, -, e⟩
  · rw [e]
    exact hc
  · rw [e]
    refine @counter_ok_upd _ hw hc i p t _ hi hp hd _ [Event.waitpid t.pid] ?_ _
    exact ⟨rfl, rfl, rfl, rfl, fun h1 h2 => h1 h2, by simp⟩
  · rw [e]
    refine @counter_ok_upd _ hw hc i p t _ hi hp hd _
      [Event.waitpid t.pid, Event.jobs s.copy_len (s.copy_running - 1)] ?_ _
    have hne := terminal_ne_running hterm
    refine ⟨rfl, rfl, rfl, by simp [hst, hne], fun _ hr => absurd hr hne, ?_⟩
    intro m c hm
    simp only [List.mem_cons, reduceCtorEq, Event.jobs.injEq, List.mem_nil_iff, or_false,
      false_or] at hm
    exact hm.2
  · rw [e]
    refine @counter_ok_upd _ hw hc i p t _ hi hp hd _ [Event.waitpid t.pid] ?_ _
    have hne := terminal_ne_running hterm
    exact ⟨rfl, rfl, rfl, by simp [hst, hne], fun _ hr => absurd hr hne, by simp⟩

theorem counter_ok_stop {k : Kernel} {s s' : State} {i p : Nat} {r : Int} (hw : WF s)
    (hc : counter_ok s) (hi : (i : Int) < s.copy_len) (hp : s.copy_tasks[i]? = some (some p))
    (h : tsdfx_copy_stop k s p = some (s', r)) :
    counter_ok s' ∧
      ∀ t, deref s p = some t →
        s'.copy_running = s.copy_running - (if t.state = TASK_RUNNING then 1 else 0) := by
  obtain ⟨p', t, hp', hd, -, -⟩ := hw.task_at hi
  rw [hp] at hp'
  simp only [Option.some.injEq] at hp'
  subst hp'
  by_cases hst : t.state = TASK_RUNNING
  · obtain ⟨st', evs, r', hterm, e, -, -, -, -, -, hj, -⟩ := tsdfx_copy_stop_running k hd hst
    rw [e] at h
    simp only [Option.some.injEq, Prod.mk.injEq] at h
    rw [← h.1]
    have hne := terminal_ne_running hterm
    refine ⟨@counter_ok_upd _ hw hc i p t _ hi hp hd _
      (Event.jobs s.copy_len (s.copy_running - 1) :: evs) ?_ _, ?_⟩
    · refine ⟨rfl, rfl, rfl, by simp [hst, hne], fun _ hr => absurd hr hne, ?_⟩
      intro m c hm
      simp only [List.mem_cons, Event.jobs.injEq] at hm
      rcases hm with hm | hm
      · exact hm.2
      · exact absurd hm (hj m c)
    · intro t' ht'
      rw [hd] at ht'
      simp only [Option.some.injEq] at ht'
      subst ht'
      simp [hst]
  · rw [tsdfx_copy_stop_idle k hd hst] at h
    simp only [Option.some.injEq, Prod.mk.injEq] at h
    rw [← h.1]
    refine ⟨hc, ?_⟩
    intro t' ht'
    rw [hd] at ht'
    simp only [Option.some.injEq] at ht'
    subst ht'
    simp [hst]

theorem counter_ok_delete_task {k : Kernel} {s s' : State} {i p : Nat} (hw : WF s)
    (hc : counter_ok s) (hi : (i : Int) < s.copy_len) (hp : s.copy_tasks[i]? = some (some p))
    (h : tsdfx_copy_delete k s (some p) = some s') :
    counter_ok s' ∧ WF s' ∧ s'.copy_len = s.copy_len - 1 ∧
      ∀ t, deref s p = some t →
        s'.copy_running = s.copy_running - (if t.state = TASK_RUNNING then 1 else 0) := by
  obtain ⟨p', t, hp', hd, ht, -⟩ := hw.task_at hi
  rw [hp] at hp'
  simp only [Option.some.injEq] at hp'
  subst hp'
  have hpid : t.state = TASK_RUNNING → t.pid ≠ -1 := hc.2 i hi t ht
  by_cases hcap : s.copy_len < s.copy_tasks.length
  · obtain ⟨n, hn⟩ := Int.eq_ofNat_of_zero_le hw.len_nonneg
    obtain ⟨s2, evs, e1, e2, e3, e4, e5, e6, e7, e8, e9⟩ :=
      @tsdfx_copy_delete_spec k _ hw i n _ _ hn (by omega) (by omega) hp hd hpid
    rw [e1] at h
    simp only [Option.some.injEq] at h
    subst h
    refine ⟨counter_ok_delete hc hn (by omega) hp hd e3 e4 e9, e2, by omega, ?_⟩
    intro t' ht'
    rw [hd] at ht'
    simp only [Option.some.injEq] at ht'
    subst ht'
    exact e4
  · have hfull : s.copy_len = s.copy_tasks.length := by
      have := hw.len_le
      omega
    rw [tsdfx_copy_delete_full k hw hi hp hd hpid hfull] at h
    simp at h

theorem WF_state_ceiling : WF state_ceiling := by
  refine ⟨by decide, by decide, ?_⟩
  intro i hi
  have hi2 : i < 2 := by
    have : state_ceiling.copy_len = 2 := rfl
    omega
  interval_cases i
  · exact ⟨0, _, rfl, rfl, rfl⟩
  · exact ⟨1, _, rfl, rfl, rfl⟩

theorem counter_ok_state_ceiling : counter_ok state_ceiling := by
  refine ⟨by decide, ?_⟩
  intro i hi t ht hr
  have hi2 : i < 2 := by
    have : state_ceiling.copy_len = 2 := rfl
    omega
  interval_cases i
  · have e : task_at state_ceiling ((0 : Nat) : Int) = some (task_x TASK_RUNNING 0 100) := by
      decide
    rw [e] at ht
    simp only [Option.some.injEq] at ht
    rw [← ht]
    decide
  · have e : task_at state_ceiling ((1 : Nat) : Int) = some (task_y TASK_IDLE 1 (-1)) := by
      decide
    rw [e] at ht
    simp only [Option.some.injEq] at ht
    rw [← ht] at hr
    exact absurd hr (by decide)

/-- C3 (counter conservation).  In a well-formed registry whose counter
`copy_running` is the number of RUNNING tasks (each with a pid other than -1),
the same holds after `tsdfx_copy_iter`, after `tsdfx_copy_new`, and after
`tsdfx_copy_start`, `tsdfx_copy_poll`, `tsdfx_copy_stop` and
`tsdfx_copy_delete` of a task of the registry, whatever the operating system
answers; stop and delete lower the counter by exactly one for a RUNNING task
and leave it for any other.  Start, poll, stop and new always return; delete
and the tick return when the registry is not full. -/
theorem C3_counter_conservation (k : Kernel) (s : State) (hw : WF s) (hc : counter_ok s) :
    (∀ s', tsdfx_copy_iter k s = some s' → counter_ok s') ∧
    (∀ src dst s' res, tsdfx_copy_new k s src dst = some (s', res) → counter_ok s') ∧
    (∀ (i p : Nat) (t : copy_task), (i : Int) < s.copy_len →
      s.copy_tasks[i]? = some (some p) → deref s p = some t →
      (∀ s' r, tsdfx_copy_start k s p = some (s', r) → counter_ok s') ∧
      (∀ s' r, tsdfx_copy_poll k s p = some (s', r) → counter_ok s') ∧
      (∀ s' r, tsdfx_copy_stop k s p = some (s', r) → counter_ok s' ∧
        s'.copy_running = s.copy_running - (if t.state = TASK_RUNNING then 1 else 0)) ∧
      (∀ s', tsdfx_copy_delete k s (some p) = some s' → counter_ok s' ∧
        s'.copy_running = s.copy_running - (if t.state = TASK_RUNNING then 1 else 0)) ∧
      (∃ s' r, tsdfx_copy_start k s p = some (s', r)) ∧
      (∃ s' r, tsdfx_copy_poll k s p = some (s', r)) ∧
      (∃ s' r, tsdfx_copy_stop k s p = some (s', r)) ∧
      (s.copy_len < s.copy_tasks.length → ∃ s', tsdfx_copy_delete k s (some p) = some s')) ∧
    (∀ src dst, ∃ s' res, tsdfx_copy_new k s src dst = some (s', res)) ∧
    (s.copy_len < s.copy_tasks.length → ∃ s', tsdfx_copy_iter k s = some s') := by
  refine ⟨?_, ?_, ?_, ?_, ?_⟩
  · intro s' hr
    unfold tsdfx_copy_iter at hr
    exact (tsdfx_copy_iter_loop_induct k (fun a => WF a ∧ counter_ok a)
      (fun i0 a b ha hi hb =>
        ⟨(tsdfx_copy_iter_body_inv ha.1 ha.2 hi hb).1, (tsdfx_copy_iter_body_inv ha.1 ha.2 hi hb).2.1⟩)
      s.copy_len.toNat 0 s s' ⟨hw, hc⟩ hr).2
  · intro src dst s' res h
    exact counter_ok_new hw hc h
  · intro i p t hi hp hd
    refine ⟨fun s' r h => counter_ok_start hw hc hi hp h,
      fun s' r h => counter_ok_poll hw hc hi hp h,
      fun s' r h => ⟨(counter_ok_stop hw hc hi hp h).1, (counter_ok_stop hw hc hi hp h).2 t hd⟩,
      fun s' h => ⟨(counter_ok_delete_task hw hc hi hp h).1,
        (counter_ok_delete_task hw hc hi hp h).2.2.2 t hd⟩, ?_, tsdfx_copy_poll_total k hd, ?_, ?_⟩
    · rcases tsdfx_copy_start_spec k hd with ⟨-, e⟩ | ⟨-, -, e⟩ | ⟨-, -, e⟩ | ⟨-, pid, -, e⟩ <;>
        exact ⟨_, _, e⟩
    · by_cases hst : t.state = TASK_RUNNING
      · obtain ⟨st', evs, r', -, e, -⟩ := tsdfx_copy_stop_running k hd hst
        exact ⟨_, _, e⟩
      · exact ⟨_, _, tsdfx_copy_stop_idle k hd hst⟩
    · intro hcap
      obtain ⟨n, hn⟩ := Int.eq_ofNat_of_zero_le hw.len_nonneg
      have ht : task_at s (i : Int) = some t := by rw [task_at_of_slot hp, hd]
      obtain ⟨s2, evs, e1, -⟩ :=
        @tsdfx_copy_delete_spec k _ hw i n _ _ hn (by omega) (by omega) hp hd (hc.2 i hi t ht)
      exact ⟨s2, e1⟩
  · intro src dst
    exact tsdfx_copy_new_total k hw.len_nonneg src dst
  · intro hcap
    exact tsdfx_copy_iter_loop_total k s.copy_len.toNat 0 s hw hc hcap (by simp)

/-- Witness of C3: the registry `state_ceiling`; the running task is stopped
while its child stays alive, and the counter goes from 1 to 0. -/
theorem C3_counter_conservation_witness :
    (∃ s' r, tsdfx_copy_stop kernel_alive state_ceiling 0 = some (s', r)) ∧
    ∀ s' r, tsdfx_copy_stop kernel_alive state_ceiling 0 = some (s', r) →
      counter_ok s' ∧ s'.copy_running = state_ceiling.copy_running - 1 :=
  ⟨((C3_counter_conservation kernel_alive state_ceiling WF_state_ceiling
      counter_ok_state_ceiling).2.2.1 0 0 (task_x TASK_RUNNING 0 100) (by decide) rfl
      rfl).2.2.2.2.2.2.1,
    ((C3_counter_conservation kernel_alive state_ceiling WF_state_ceiling
      counter_ok_state_ceiling).2.2.1 0 0 (task_x TASK_RUNNING 0 100) (by decide) rfl
      rfl).2.2.1⟩

theorem cstr_append_nul (l r : List Char) (h : ∀ c ∈ l, c ≠ NUL) :
    cstr (l ++ NUL :: r) = l := by
  unfold cstr
  induction l with
  | nil => simp [List.takeWhile]
  | cons a l ih =>
    have ha : a ≠ NUL := h a (List.mem_cons_self _ _)
    have ih' := ih (fun c hc => h c (List.mem_cons_of_mem _ hc))
    rw [List.cons_append, List.takeWhile_cons, if_pos (by simpa using ha), ih']

theorem size_sub_eq (w a b : Nat) (ha : a < 2 ^ w) (hb : b ≤ a) : size_sub w a b = a - b := by
  unfold size_sub
  have e : a + 2 ^ w - b = (a - b) + 2 ^ w := by omega
  rw [e, Nat.add_mod_right, Nat.mod_eq_of_lt (by omega)]

theorem compose_one (buf dir name : List Char) (off : Nat) (hoff : off = dir.length)
    (hdir : buf.take off = dir) (hfit : dir.length + name.length + 1 ≤ buf.length) :
    ∃ s1 s2, memcpy buf off name = some s1 ∧ poke s1 (off + name.length) NUL = some s2 ∧
      s2 = dir ++ name ++ NUL :: buf.drop (off + name.length + 1) ∧
      s2.length = buf.length ∧ s2.take off = dir := by
  subst hoff
  have h1 : memcpy buf dir.length name =
      some (dir ++ name ++ buf.drop (dir.length + name.length)) := by
    unfold memcpy
    rw [if_pos (by omega), hdir]
  have hl : (dir ++ name ++ buf.drop (dir.length + name.length)).length = buf.length := by
    simp only [List.length_append, List.length_drop]
    omega
  obtain ⟨x, xs, hx⟩ : ∃ x xs, buf.drop (dir.length + name.length) = x :: xs := by
    cases hd : buf.drop (dir.length + name.length) with
    | nil =>
      have := congrArg List.length hd
      simp only [List.length_drop, List.length_nil] at this
      omega
    | cons x xs => exact ⟨x, xs, rfl⟩
  have hxs : xs = buf.drop (dir.length + name.length + 1) := by
    have := congrArg (List.drop 1) hx
    simpa [List.drop_drop, Nat.add_comm 1] using this.symm
  have h2 : poke (dir ++ name ++ buf.drop (dir.length + name.length))
      (dir.length + name.length) NUL =
      some (dir ++ name ++ NUL :: buf.drop (dir.length + name.length + 1)) := by
    unfold poke
    rw [if_pos (by rw [hl]; omega), hx, ← hxs]
    have e : dir.length + name.length = (dir ++ name).length := by simp
    rw [e, List.set_append_right _ _ (le_refl _), Nat.sub_self, List.set_cons_zero]
  refine ⟨_, _, h1, h2, rfl, ?_, ?_⟩
  · simp only [List.length_append, List.length_cons, List.length_drop]
    omega
  · rw [List.append_assoc, List.take_append_of_le_length (le_refl _), List.take_length]

theorem strlcpy_result (dst src : List Char) (hd : 0 < dst.length) :
    strlcpy dst src =
      (src.take (dst.length - 1) ++ NUL :: dst.drop (min src.length (dst.length - 1) + 1),
        src.length) := by
  unfold strlcpy
  cases hn : dst.length with
  | zero => omega
  | succ n => simp

theorem strlcpy_cstr (dst src : List Char) (hd : 0 < dst.length) (hs : ∀ c ∈ src, c ≠ NUL) :
    cstr (strlcpy dst src).1 = src.take (dst.length - 1) := by
  rw [strlcpy_result dst src hd]
  exact cstr_append_nul _ _ (fun c hc => hs c (List.mem_of_mem_take hc))

theorem strlcpy_fits (dst src : List Char) (hfit : src.length < dst.length) :
    (strlcpy dst src).1 = src ++ NUL :: dst.drop (src.length + 1) ∧
    (strlcpy dst src).2 = src.length ∧ (strlcpy dst src).1.length = dst.length ∧
    (strlcpy dst src).1.take src.length = src := by
  rw [strlcpy_result dst src (by omega)]
  have e1 : src.take (dst.length - 1) = src := List.take_of_length_le (by omega)
  have e2 : min src.length (dst.length - 1) = src.length := by omega
  rw [e1, e2]
  refine ⟨rfl, rfl, ?_, ?_⟩
  · simp only [List.length_append, List.length_cons, List.length_drop]
    omega
  · rw [List.take_append_of_le_length (le_refl _), List.take_length]

theorem tsdfx_copy_wrap_prime_ok (w : Nat) (hw : PATH_MAX < 2 ^ w)
    (srcpath dstpath srcdir dstdir : List Char)
    (h1 : srcpath.length = PATH_MAX) (h2 : dstpath.length = PATH_MAX)
    (hs : srcdir.length < PATH_MAX) (hd : dstdir.length < PATH_MAX) :
    ∃ b, tsdfx_copy_wrap_prime w srcpath dstpath srcdir dstdir = some b ∧
      paths_ok b srcdir dstdir ∧
      b.srcpath = srcdir ++ NUL :: srcpath.drop (srcdir.length + 1) ∧
      b.dstpath = dstdir ++ NUL :: dstpath.drop (dstdir.length + 1) ∧
      (b.maxlen : Int) =
        min ((PATH_MAX : Int) - srcdir.length - 1) ((PATH_MAX : Int) - dstdir.length - 1) := by
  obtain ⟨a1, a2, a3, a4⟩ := strlcpy_fits srcpath srcdir (by omega)
  obtain ⟨b1, b2, b3, b4⟩ := strlcpy_fits dstpath dstdir (by omega)
  have es : srcdir.length % 2 ^ w = srcdir.length := Nat.mod_eq_of_lt (by omega)
  have ed : dstdir.length % 2 ^ w = dstdir.length := Nat.mod_eq_of_lt (by omega)
  have hs1 : size_sub w (size_sub w PATH_MAX srcdir.length) 1 = PATH_MAX - srcdir.length - 1 := by
    rw [size_sub_eq w _ _ hw (by omega), size_sub_eq w _ _ (by omega) (by omega)]
  have hd1 : size_sub w (size_sub w PATH_MAX dstdir.length) 1 = PATH_MAX - dstdir.length - 1 := by
    rw [size_sub_eq w _ _ hw (by omega), size_sub_eq w _ _ (by omega) (by omega)]
  refine ⟨{ srcpath := (strlcpy srcpath srcdir).1, dstpath := (strlcpy dstpath dstdir).1,
             sf := srcdir.length, df := dstdir.length,
             maxlen := if PATH_MAX - srcdir.length - 1 > PATH_MAX - dstdir.length - 1 then
               PATH_MAX - dstdir.length - 1 else PATH_MAX - srcdir.length - 1 },
    ?_, ?_, a1, b1, ?_⟩
  · unfold tsdfx_copy_wrap_prime
    simp only [a2, b2, es, ed, h1, h2, hs1, hd1]
    rw [if_neg (by omega)]
  · exact ⟨by rw [a3, h1], by rw [b3, h2], rfl, rfl, a4, b4, rfl⟩
  · dsimp only
    split_ifs <;> omega

theorem tsdfx_copy_wrap_compose_ok (b : wrap_paths) (srcdir dstdir name : List Char)
    (hb : paths_ok b srcdir dstdir) (hsn : ∀ c ∈ srcdir, c ≠ NUL) (hdn : ∀ c ∈ dstdir, c ≠ NUL)
    (hnn : ∀ c ∈ name, c ≠ NUL) (hlen : name.length < b.maxlen) :
    ∃ b', tsdfx_copy_wrap_compose b name = some b' ∧ paths_ok b' srcdir dstdir ∧
      b'.srcpath = srcdir ++ name ++ NUL :: b.srcpath.drop (srcdir.length + name.length + 1) ∧
      b'.dstpath = dstdir ++ name ++ NUL :: b.dstpath.drop (dstdir.length + name.length + 1) ∧
      cstr b'.srcpath = srcdir ++ name ∧ cstr b'.dstpath = dstdir ++ name ∧
      srcdir.length + name.length + 1 < PATH_MAX ∧
      dstdir.length + name.length + 1 < PATH_MAX := by
  have hm := wrap_maxlen_le srcdir dstdir
  have hbud := hb.budget
  have hfs : srcdir.length + name.length + 1 < PATH_MAX := by omega
  have hfd : dstdir.length + name.length + 1 < PATH_MAX := by omega
  obtain ⟨s1, s2, a1, a2, a3, a4, a5⟩ := compose_one b.srcpath srcdir name b.sf hb.sf_eq
    hb.src_dir (by rw [hb.src_size]; omega)
  obtain ⟨d1, d2, c1, c2, c3, c4, c5⟩ := compose_one b.dstpath dstdir name b.df hb.df_eq
    hb.dst_dir (by rw [hb.dst_size]; omega)
  have hall : ∀ (dir : List Char), (∀ c ∈ dir, c ≠ NUL) → ∀ c ∈ dir ++ name, c ≠ NUL := by
    intro dir hdir c hc
    rcases List.mem_append.mp hc with h | h
    · exact hdir c h
    · exact hnn c h
  refine ⟨{ b with srcpath := s2, dstpath := d2 }, ?_, ?_, ?_, ?_, ?_, ?_, hfs, hfd⟩
  · unfold tsdfx_copy_wrap_compose
    simp only [a1, a2, c1, c2]
  · exact ⟨by rw [a4]; exact hb.src_size, by rw [c4]; exact hb.dst_size, hb.sf_eq, hb.df_eq,
      a5, c5, hb.budget⟩
  · rw [a3, hb.sf_eq]
  · rw [c3, hb.df_eq]
  · show cstr s2 = srcdir ++ name
    rw [a3]
    exact cstr_append_nul _ _ (hall srcdir hsn)
  · show cstr d2 = dstdir ++ name
    rw [c3]
    exact cstr_append_nul _ _ (hall dstdir hdn)

/-- C21 (composed paths fit without truncation).  Source and destination
directory are shorter than `PATH_MAX`, the entry `name` is not skipped, and
`size_t` has `w` bits with `PATH_MAX < 2 ^ w`.  Priming the two arrays of
`PATH_MAX` characters succeeds and the length budget is the minimum of
`PATH_MAX - slen - 1` and `PATH_MAX - dlen - 1` as integers: no subtraction
wraps around.  In every state of the buffers during the loop, composing the
entry writes inside both arrays, the terminating NUL included, and leaves the
C strings `srcdir ++ name` and `dstdir ++ name`; `strlcpy` in
`tsdfx_copy_new` copies them whole into a field of `PATH_MAX` characters, and
a task created from them stores exactly these two strings. -/
theorem C21_composed_paths_fit (w : Nat) (hw : PATH_MAX < 2 ^ w)
    (srcdir dstdir name : List Char)
    (hs : srcdir.length < PATH_MAX) (hd : dstdir.length < PATH_MAX)
    (hsn : ∀ c ∈ srcdir, c ≠ NUL) (hdn : ∀ c ∈ dstdir, c ≠ NUL) (hnn : ∀ c ∈ name, c ≠ NUL)
    (hvalid : ¬ entry_skipped (wrap_maxlen srcdir dstdir) name) :
    (∀ srcpath dstpath : List Char, srcpath.length = PATH_MAX → dstpath.length = PATH_MAX →
      ∃ b, tsdfx_copy_wrap_prime w srcpath dstpath srcdir dstdir = some b ∧
        paths_ok b srcdir dstdir ∧
        (b.maxlen : Int) =
          min ((PATH_MAX : Int) - srcdir.length - 1) ((PATH_MAX : Int) - dstdir.length - 1)) ∧
    (∀ b, paths_ok b srcdir dstdir →
      ∃ b', tsdfx_copy_wrap_compose b name = some b' ∧ paths_ok b' srcdir dstdir ∧
        cstr b'.srcpath = srcdir ++ name ∧ cstr b'.dstpath = dstdir ++ name ∧
        (srcdir ++ name).length + 1 < PATH_MAX ∧ (dstdir ++ name).length + 1 < PATH_MAX ∧
        (∀ field : List Char, field.length = PATH_MAX →
          (strlcpy field (cstr b'.srcpath)).2 < PATH_MAX ∧
          cstr (strlcpy field (cstr b'.srcpath)).1 = srcdir ++ name ∧
          (strlcpy field (cstr b'.dstpath)).2 < PATH_MAX ∧
          cstr (strlcpy field (cstr b'.dstpath)).1 = dstdir ++ name) ∧
        (∀ (k : Kernel) (s s' : State) (p : Nat),
          tsdfx_copy_new k s (cstr b'.srcpath) (cstr b'.dstpath) = some (s', some p) →
          ∃ t, deref s' p = some t ∧ t.srcpath = srcdir ++ name ∧
            t.dstpath = dstdir ++ name)) := by
  constructor
  · intro srcpath dstpath h1 h2
    obtain ⟨b, e1, e2, -, -, e5⟩ :=
      tsdfx_copy_wrap_prime_ok w hw srcpath dstpath srcdir dstdir h1 h2 hs hd
    exact ⟨b, e1, e2, e5⟩
  · intro b hb
    have hlen : name.length < b.maxlen := by
      rw [hb.budget]
      by_contra hge
      exact hvalid (Or.inr (Or.inl (by omega)))
    obtain ⟨b', e1, e2, -, -, e5, e6, e7, e8⟩ :=
      tsdfx_copy_wrap_compose_ok b srcdir dstdir name hb hsn hdn hnn hlen
    have hall : ∀ (dir : List Char), (∀ c ∈ dir, c ≠ NUL) → ∀ c ∈ dir ++ name, c ≠ NUL := by
      intro dir hdir c hc
      rcases List.mem_append.mp hc with h | h
      · exact hdir c h
      · exact hnn c h
    have ls : (srcdir ++ name).length + 1 < PATH_MAX := by rw [List.length_append]; exact e7
    have ld : (dstdir ++ name).length + 1 < PATH_MAX := by rw [List.length_append]; exact e8
    refine ⟨b', e1, e2, e5, e6, ls, ld, ?_, ?_⟩
    · intro field hf
      rw [e5, e6]
      have f1 := strlcpy_fits field (srcdir ++ name) (by omega)
      have f2 := strlcpy_fits field (dstdir ++ name) (by omega)
      refine ⟨by rw [f1.2.1]; omega, ?_, by rw [f2.2.1]; omega, ?_⟩
      · rw [f1.1]
        exact cstr_append_nul _ _ (hall srcdir hsn)
      · rw [f2.1]
        exact cstr_append_nul _ _ (hall dstdir hdn)
    · intro k s s' p h
      rw [e5, e6] at h
      obtain ⟨-, -, -, -, -, -, hc⟩ := tsdfx_copy_new_spec h
      rcases hc with ⟨c1, -⟩ | ⟨c1, -, -, -, -, st, -, c2⟩
      · simp at c1
      · simp only [Option.some.injEq] at c1
        subst c1
        exact ⟨_, c2, rfl, rfl⟩

/-- Witness of C21: 64-bit `size_t`, the directories `/a` and `/b`, the entry
`/x`, and two arrays that hold the character `u` everywhere. -/
theorem C21_composed_paths_fit_witness :
    ∃ b b', tsdfx_copy_wrap_prime 64 (List.replicate PATH_MAX 'u') (List.replicate PATH_MAX 'u')
        "/a".toList "/b".toList = some b ∧
      tsdfx_copy_wrap_compose b "/x".toList = some b' ∧
      cstr b'.srcpath = "/a".toList ++ "/x".toList ∧
      cstr b'.dstpath = "/b".toList ++ "/x".toList := by
  have h := C21_composed_paths_fit 64 (by norm_num [PATH_MAX]) "/a".toList "/b".toList
    "/x".toList (by decide) (by decide) (by decide) (by decide) (by decide) (by decide)
  obtain ⟨b, h1, h2, -⟩ := h.1 (List.replicate PATH_MAX 'u') (List.replicate PATH_MAX 'u')
    (by simp) (by simp)
  obtain ⟨b', h3, -, h5, h6, -⟩ := h.2 b h2
  exact ⟨b, b', h1, h3, h5, h6⟩

end Tsdfx
